import Mathlib

/-!
# TavilyProxyManager: key store, quota reconciler, stats, logs and the service edges

A shallow embedding of the services of `server/internal/services` (`key_service.go`,
`quota_sync_service.go`, `quota_sync_job_service.go`, `stats_service.go`, `log_service.go`,
`master_key.go`), of the tool handler of `server/internal/mcpserver/mcpserver.go` and of
the timer loop of `server/internal/jobs/auto_quota_sync.go`.

* The `api_keys` table is a list of rows; a `Where("id = ?", id)` update maps over the
  rows whose `ID` matches, a table-wide update maps over all rows.
* Go `int` columns are carried as `Int`.  The only Go-side arithmetic on them is the
  subtraction in `Candidates`, which is wrapped to 64 bits (`wrapInt64`); the SQL
  `CASE` of `IncrementUsed` compares before it stores, so a stored value never
  leaves the range of its operands.
* Store failures (I/O errors of the database driver) are outside the model: every
  statement is about the table the statement would write.
-/

namespace TavilyProxy

/-! ## Data model -/

/-- Modelled from the spec: the row type `models.APIKey`, whose declaration is not among
the sources.  The fields are the ones section 3 of the specification lists and the
services read and write (`ID`, `Key`, `Alias`, `TotalQuota`, `UsedQuota`, `IsActive`,
`IsInvalid`, `LastUsedAt`); timestamps are natural numbers. -/
structure APIKey where
  ID : Nat
  Key : String
  Alias : String
  TotalQuota : Int
  UsedQuota : Int
  IsActive : Bool
  IsInvalid : Bool
  LastUsedAt : Option Nat
  deriving DecidableEq, Repr

/-- The persisted `api_keys` table together with its auto-increment counter. -/
structure DB where
  api_keys : List APIKey
  nextID : Nat
  deriving DecidableEq, Repr

/-- A freshly migrated database: no rows, identifiers start at 1. -/
def DB.empty : DB := { api_keys := [], nextID := 1 }

/-- `Model(&APIKey{}).Where("id = ?", id).Updates(...)`: apply `f` to every row whose
primary key is `id`, leave the others alone. -/
def DB.updateWhereID (db : DB) (id : Nat) (f : APIKey → APIKey) : DB :=
  { db with api_keys := db.api_keys.map (fun k => if k.ID = id then f k else k) }

/-- `First(&key, id)`: the row with primary key `id`, if any. -/
def DB.First (db : DB) (id : Nat) : Option APIKey :=
  db.api_keys.find? (fun k => k.ID == id)

/-- `Save(&key)`: write every column of `key` to the row with the same primary key. -/
def DB.Save (db : DB) (key : APIKey) : DB :=
  db.updateWhereID key.ID (fun _ => key)

/-- The patch accepted by `KeyService.Update` (`nil` pointers are `none`). -/
structure KeyUpdate where
  Alias : Option String
  TotalQuota : Option Int
  UsedQuota : Option Int
  IsActive : Option Bool
  ResetQuota : Bool
  SyncUsage : Bool
  deriving DecidableEq, Repr

/-! ## KeyService -/

namespace KeyService

/-- `KeyService.Create`: a non-positive quota becomes 1000; the new row is active, valid
and unused. -/
def Create (db : DB) (key aliasName : String) (totalQuota : Int) : DB × APIKey :=
  let totalQuota := if totalQuota ≤ 0 then 1000 else totalQuota
  let record : APIKey :=
    { ID := db.nextID, Key := key, Alias := aliasName, TotalQuota := totalQuota, UsedQuota := 0,
      IsActive := true, IsInvalid := false, LastUsedAt := none }
  ({ api_keys := db.api_keys ++ [record], nextID := db.nextID + 1 }, record)

/-- `KeyService.Get`. -/
def Get (db : DB) (id : Nat) : Except String APIKey :=
  match db.First id with
  | none => .error "record not found"
  | some key => .ok key

/-- `KeyService.Update`: read the row, apply the patch field by field, save it. -/
def Update (db : DB) (id : Nat) (upd : KeyUpdate) : Except String (DB × APIKey) :=
  match db.First id with
  | none => .error "record not found"
  | some key =>
    let key := match upd.Alias with
      | some a => { key with Alias := a }
      | none => key
    let key := match upd.TotalQuota with
      | some t => if t > 0 then { key with TotalQuota := t } else key
      | none => key
    let key := match upd.UsedQuota with
      | some u => if u ≥ 0 then { key with UsedQuota := u } else key
      | none => key
    let key := match upd.IsActive with
      | some a =>
        if key.IsInvalid && a then { key with IsActive := false }
        else { key with IsActive := a }
      | none => key
    let key := if upd.ResetQuota then { key with UsedQuota := 0 } else key
    .ok (db.Save key, key)

/-- `KeyService.MarkInactive`. -/
def MarkInactive (db : DB) (id : Nat) : DB :=
  db.updateWhereID id (fun k => { k with IsActive := false })

/-- `KeyService.MarkInvalid`. -/
def MarkInvalid (db : DB) (id : Nat) : DB :=
  db.updateWhereID id (fun k => { k with IsActive := false, IsInvalid := true })

/-- `KeyService.MarkExhausted`: `used_quota = total_quota`. -/
def MarkExhausted (db : DB) (id : Nat) : DB :=
  db.updateWhereID id (fun k => { k with UsedQuota := k.TotalQuota })

/-- `KeyService.IncrementUsed`:
`used_quota = CASE WHEN used_quota + 1 > total_quota THEN total_quota ELSE used_quota + 1 END`
and `last_used_at = now`. -/
def IncrementUsed (db : DB) (id : Nat) (now : Nat) : DB :=
  db.updateWhereID id (fun k =>
    { k with
      UsedQuota := if k.UsedQuota + 1 > k.TotalQuota then k.TotalQuota else k.UsedQuota + 1,
      LastUsedAt := some now })

/-- `KeyService.ResetAllUsage`: an update without a `Where` clause.  GORM runs such a
statement only when global updates are allowed on the session (set where the database is
opened, which is not among the sources), otherwise it refuses it and the table is left as
it was; `allowGlobalUpdate` is that setting. -/
def ResetAllUsage (allowGlobalUpdate : Bool) (db : DB) : DB :=
  if allowGlobalUpdate then
    { db with api_keys := db.api_keys.map (fun k => { k with UsedQuota := 0 }) }
  else db

/-- `KeyService.SetUsage`: `used_quota = used`; when a positive `total` is given also
`total_quota = total`, and `used_quota = total` if `used` exceeds it. -/
def SetUsage (db : DB) (id : Nat) (used : Int) (total : Option Int) : DB :=
  match total with
  | some t =>
    if t > 0 then
      db.updateWhereID id (fun k =>
        { k with UsedQuota := if used > t then t else used, TotalQuota := t })
    else db.updateWhereID id (fun k => { k with UsedQuota := used })
  | none => db.updateWhereID id (fun k => { k with UsedQuota := used })

/-- The `Where` clause of `Candidates`:
`is_active = true AND is_invalid = false AND used_quota < total_quota`. -/
def eligible (k : APIKey) : Bool :=
  k.IsActive == true && k.IsInvalid == false && decide (k.UsedQuota < k.TotalQuota)

/-- Go `int` arithmetic on a 64-bit platform: the result wrapped into `[-2^63, 2^63)`. -/
def wrapInt64 (x : Int) : Int := (x + 2 ^ 63) % 2 ^ 64 - 2 ^ 63

/-- The local type `scored` of `Candidates`. -/
structure scored where
  key : APIKey
  remaining : Int
  deriving DecidableEq, Repr

/-- The comparison passed to `sort.Slice`:
`scoredKeys[i].remaining > scoredKeys[j].remaining`. -/
def less (a b : scored) : Bool := decide (a.remaining > b.remaining)

/-- The library routine `sort.Slice` applied with `less`.  Its algorithm is not part of
the repository and it is not stable, so it is taken by its contract: the result is a
rearrangement of the slice in which no later element is `less` than an earlier one. -/
structure SliceSort where
  run : List scored → List scored
  perm : ∀ l, (run l).Perm l
  sorted : ∀ l, (run l).Pairwise (fun a b => less b a = false)

/-- One `sort.Slice`: insertion sort by descending `remaining`. -/
def insertionSlice : SliceSort where
  run := List.insertionSort (fun a b => a.remaining ≥ b.remaining)
  perm := List.perm_insertionSort _
  sorted := fun l => by
    haveI : IsTotal scored (fun a b => a.remaining ≥ b.remaining) :=
      ⟨fun a b => le_total b.remaining a.remaining⟩
    haveI : IsTrans scored (fun a b => a.remaining ≥ b.remaining) :=
      ⟨fun _ _ _ hab hbc => le_trans hbc hab⟩
    have h := List.sorted_insertionSort (fun a b : scored => a.remaining ≥ b.remaining) l
    refine List.Pairwise.imp ?_ h
    intro a b hab
    simp only [less, decide_eq_false_iff_not, not_lt, gt_iff_lt]
    exact hab

/-- The callback handed to `rng.Shuffle`:
`group[a], group[b] = group[b], group[a]`. -/
def swap (group : List scored) (a b : Nat) : List scored :=
  match group[a]?, group[b]? with
  | some x, some y => (group.set a y).set b x
  | _, _ => group

/-- The library routine `rng.Shuffle(len(group), swap)`: its only effect on the group is
the series of `swap` calls it makes; `picks` are the index pairs the generator draws. -/
def Shuffle (picks : List (Nat × Nat)) (group : List scored) : List scored :=
  picks.foldl (fun g p => swap g p.1 p.2) group

/-- The tie loop of `Candidates` over the sorted slice: starting at index `i`, cut the
maximal run of entries whose `remaining` equals that of the first one, shuffle it, append
its keys, continue behind it.  `rng i` are the draws of the generator for the run that
starts at index `i`.  `fuel` bounds the number of runs. -/
def tieLoop (rng : Nat → List (Nat × Nat)) : Nat → Nat → List scored → List APIKey
  | 0, _, _ => []
  | _, _, [] => []
  | fuel + 1, i, x :: rest =>
    let group := x :: rest.takeWhile (fun s => s.remaining == x.remaining)
    let j := i + group.length
    let group := Shuffle (rng i) group
    group.map (fun s => s.key) ++
      tieLoop rng fuel j (rest.dropWhile (fun s => s.remaining == x.remaining))

/-- `KeyService.Candidates`: select the eligible rows, score them by remaining quota,
sort descending, shuffle ties. -/
def Candidates (srt : SliceSort) (rng : Nat → List (Nat × Nat)) (db : DB) : List APIKey :=
  let keys := db.api_keys.filter eligible
  if keys.length = 0 then []
  else
    let scoredKeys : List scored :=
      keys.map (fun k => { key := k, remaining := wrapInt64 (k.TotalQuota - k.UsedQuota) })
    let scoredKeys := srt.run scoredKeys
    tieLoop rng scoredKeys.length 0 scoredKeys

/-- One call of a `KeyService` operation that writes the table, with its arguments. -/
inductive KeyOp where
  | create (key aliasName : String) (totalQuota : Int)
  | update (id : Nat) (upd : KeyUpdate)
  | markInactive (id : Nat)
  | markInvalid (id : Nat)
  | markExhausted (id : Nat)
  | incrementUsed (id : Nat) (now : Nat)
  | resetAllUsage (allowGlobalUpdate : Bool)
  | setUsage (id : Nat) (used : Int) (total : Option Int)
  deriving Repr

/-- The table after one operation; an `Update` that fails (no such row) writes nothing. -/
def KeyOp.apply (db : DB) : KeyOp → DB
  | .create key aliasName totalQuota => (Create db key aliasName totalQuota).1
  | .update id upd =>
    match Update db id upd with
    | .ok (db', _) => db'
    | .error _ => db
  | .markInactive id => MarkInactive db id
  | .markInvalid id => MarkInvalid db id
  | .markExhausted id => MarkExhausted db id
  | .incrementUsed id now => IncrementUsed db id now
  | .resetAllUsage allowGlobalUpdate => ResetAllUsage allowGlobalUpdate db
  | .setUsage id used total => SetUsage db id used total

/-- The table reached from the empty store by a sequence of operations. -/
def runOps (ops : List KeyOp) : DB :=
  ops.foldl KeyOp.apply DB.empty

end KeyService

/-! ## QuotaSyncService -/

/-- The error of an upstream call as `syncKey` tells it apart: one that `errors.As`
resolves to an `*UpstreamStatusError` carrying the HTTP `StatusCode`, or any other error
(transport failure, timeout, undecodable body).  `msg` is the text of `err.Error()`. -/
inductive UpstreamError where
  | status (StatusCode : Int) (msg : String)
  | other (msg : String)
  deriving DecidableEq, Repr

/-- The text `err.Error()`. -/
def UpstreamError.Error : UpstreamError → String
  | .status _ msg => msg
  | .other msg => msg

/-- `QuotaSyncItemResult`. -/
structure QuotaSyncItemResult where
  ID : Nat
  Alias : String
  Status : String
  Error : String
  UsedQuota : Int
  TotalQuota : Int
  deriving DecidableEq, Repr

/-- The zero value `QuotaSyncItemResult{}`. -/
def QuotaSyncItemResult.zero : QuotaSyncItemResult :=
  { ID := 0, Alias := "", Status := "", Error := "", UsedQuota := 0, TotalQuota := 0 }

namespace QuotaSyncService

open KeyService

/-- `QuotaSyncService.syncKey`.  `GetUsage` stands for `s.proxy.GetUsage(ctx, key.Key)`,
the upstream `GET /usage` call made with the secret of the key: it answers
`(usage, limit)` with an optional `limit`, or fails; it is a parameter because the
proxy is not among the sources, and it is taken not to write the key table. -/
def syncKey (GetUsage : String → Except UpstreamError (Int × Option Int)) (db : DB)
    (key : APIKey) : DB × QuotaSyncItemResult :=
  let item : QuotaSyncItemResult :=
    { QuotaSyncItemResult.zero with ID := key.ID, Alias := key.Alias }
  match GetUsage key.Key with
  | .error err =>
    let item := { item with Status := "error", Error := err.Error }
    match err with
    | .status StatusCode _ =>
      if StatusCode = 401 then (MarkInvalid db key.ID, item)
      else if StatusCode = 432 ∨ StatusCode = 433 then (MarkExhausted db key.ID, item)
      else (db, item)
    | .other _ => (db, item)
  | .ok (usage, limit) =>
    let totalQuota := key.TotalQuota
    let totalQuota := match limit with
      | some l => if l > 0 then l else totalQuota
      | none => totalQuota
    let usage := if totalQuota > 0 ∧ usage > totalQuota then totalQuota else usage
    let db := SetUsage db key.ID usage (some totalQuota)
    (db, { item with Status := "ok", UsedQuota := usage, TotalQuota := totalQuota })

/-- `QuotaSyncService.SyncOne`: the table afterwards, the item, and the returned error
(`none` is `nil`). -/
def SyncOne (GetUsage : String → Except UpstreamError (Int × Option Int)) (db : DB)
    (id : Nat) : DB × QuotaSyncItemResult × Option String :=
  match Get db id with
  | .error err => (db, QuotaSyncItemResult.zero, some err)
  | .ok key =>
    let r := syncKey GetUsage db key
    if r.2.Status != "ok" then (r.1, r.2, some r.2.Error) else (r.1, r.2, none)

end QuotaSyncService

/-! ## Invariants -/

/-- The quota invariant of the data model: every row has
`0 ≤ used_quota ≤ total_quota`. -/
def QuotaInv (db : DB) : Prop :=
  ∀ k ∈ db.api_keys, 0 ≤ k.UsedQuota ∧ k.UsedQuota ≤ k.TotalQuota

/-- The quota invariant can be checked row by row. -/
instance QuotaInv.decidable (db : DB) : Decidable (QuotaInv db) :=
  inferInstanceAs (Decidable (∀ k ∈ db.api_keys, 0 ≤ k.UsedQuota ∧ k.UsedQuota ≤ k.TotalQuota))

/-- The flag invariant of the data model: an invalid row is not active. -/
def InvalidInactive (db : DB) : Prop :=
  ∀ k ∈ db.api_keys, k.IsInvalid = true → k.IsActive = false

/-- The flag invariant can be checked row by row. -/
instance InvalidInactive.decidable (db : DB) : Decidable (InvalidInactive db) :=
  inferInstanceAs (Decidable (∀ k ∈ db.api_keys, k.IsInvalid = true → k.IsActive = false))

/-! ## Sample data -/

/-- A row with the given identifier, quotas and flags (secret `tvly-test`, never
used). -/
def sampleKey (id : Nat) (total used : Int) (active invalid : Bool) : APIKey :=
  { ID := id, Key := "tvly-test", Alias := "test", TotalQuota := total, UsedQuota := used,
    IsActive := active, IsInvalid := invalid, LastUsedAt := none }

/-- A pool of six rows: three eligible ones (two of them tied at 400 remaining), an
exhausted, a disabled and an invalid one. -/
def samplePool : DB :=
  { api_keys := [sampleKey 1 1000 600 true false, sampleKey 2 1000 50 true false,
      sampleKey 3 10 10 true false, sampleKey 4 400 0 true false,
      sampleKey 5 400 0 false false, sampleKey 6 9 0 false true],
    nextID := 7 }

/-- The store of the reconciler tests: one key created with quota 1000 whose usage was
then set to 7. -/
def testDB : DB :=
  { api_keys := [sampleKey 1 1000 7 true false], nextID := 2 }

/-- A patch that changes nothing. -/
def KeyUpdate.none : KeyUpdate :=
  { Alias := Option.none, TotalQuota := Option.none, UsedQuota := Option.none,
    IsActive := Option.none, ResetQuota := false, SyncUsage := false }

/-- A pool without any eligible row: an exhausted and a disabled one. -/
def spentPool : DB :=
  { api_keys := [sampleKey 1 10 10 true false, sampleKey 2 400 0 false false],
    nextID := 3 }

/-! ## QuotaSyncService: `SyncAllWithConcurrencyAndInterval` -/

namespace KeyService

/-- `KeyService.List`: every row, `ORDER BY id desc`. -/
def ListKeys (db : DB) : List APIKey :=
  db.api_keys.insertionSort (fun a b => a.ID ≥ b.ID)

end KeyService

/-- `QuotaSyncResult`; instants are nanoseconds on the clock of the process. -/
structure QuotaSyncResult where
  Total : Nat
  Succeeded : Nat
  Failed : Nat
  Items : List QuotaSyncItemResult
  StartedAt : Int
  EndedAt : Int
  deriving DecidableEq, Repr

namespace QuotaSyncService

open KeyService

/-- `defaultQuotaSyncConcurrency`. -/
def defaultQuotaSyncConcurrency : Int := 4

/-- `maxQuotaSyncConcurrency`. -/
def maxQuotaSyncConcurrency : Int := 32

/-- `maxQuotaSyncInterval = 60 * time.Second`, a `time.Duration` in nanoseconds. -/
def maxQuotaSyncInterval : Int := 60 * 1000000000

/-- The value of `concurrency` after the three `if` statements that precede the worker
loop, for a key list of length `n`; the loop `for i := 0; i < concurrency; i++` starts that
many goroutines. -/
def workerCount (concurrency : Int) (n : Nat) : Int :=
  let concurrency := if concurrency ≤ 0 then defaultQuotaSyncConcurrency else concurrency
  let concurrency :=
    if concurrency > maxQuotaSyncConcurrency then maxQuotaSyncConcurrency else concurrency
  if concurrency > (n : Int) then (n : Int) else concurrency

/-- The value of `interval` after the two `if` statements that precede `waitForSlot`. -/
def clampInterval (interval : Int) : Int :=
  let interval := if interval < 0 then 0 else interval
  if interval > maxQuotaSyncInterval then maxQuotaSyncInterval else interval

/-- The critical section of `waitForSlot` under `paceMu`: from the shared `nextStart`
(`none` is the zero `time.Time`) and the clock reading `now` to the new `nextStart` and the
duration the caller then sleeps. -/
def waitForSlot (interval : Int) (nextStart : Option Int) (now : Int) : Option Int × Int :=
  if interval ≤ 0 then (nextStart, 0)
  else
    match nextStart with
    | none => (some (now + interval), 0)
    | some next =>
      if now > next then (some (now + interval), 0)
      else (some (next + interval), next - now)

/-- The start times granted to a sequence of slot requests: the requests take the mutex
one after the other, the k-th reads the clock at `nows[k]` and may start at its reading
plus the sleep it is given. -/
def grantedStarts (interval : Int) : Option Int → List Int → List Int
  | _, [] => []
  | nextStart, now :: nows =>
    let r := waitForSlot interval nextStart now
    (now + r.2) :: grantedStarts interval r.1 nows

/-- The local type `job` of `SyncAllWithConcurrencyAndInterval`. -/
structure job where
  idx : Nat
  key : APIKey
  deriving DecidableEq, Repr

/-- The jobs sent on the channel: `job{idx: i, key: k}` for `i, k := range keyItems`,
counted from `i`. -/
def mkJobs : Nat → List APIKey → List job
  | _, [] => []
  | i, k :: ks => { idx := i, key := k } :: mkJobs (i + 1) ks

/-- The state the goroutines of one `SyncAllWithConcurrencyAndInterval` call share: the
key table, `results`, the two counters, the jobs not yet sent on the channel, the jobs a
worker has received and not yet recorded, and the number of workers blocked on the
channel. -/
structure fanOut where
  db : DB
  results : List QuotaSyncItemResult
  succeeded : Nat
  failed : Nat
  jobs : List job
  inFlight : List job
  idle : Nat
  deriving DecidableEq, Repr

/-- The body of the worker loop for one received job.  `ctxErr idx` is the error
`waitForSlot` returns for the job with that index when the context is done while it
sleeps (`none` when it returns `nil`); without pacing (`interval ≤ 0`) it returns `nil`
at once.  `GetUsage idx` is the upstream call made for that job. -/
def worker (GetUsage : Nat → String → Except UpstreamError (Int × Option Int))
    (ctxErr : Nat → Option String) (interval : Int) (st : fanOut) (j : job) : fanOut :=
  match (if interval ≤ 0 then none else ctxErr j.idx) with
  | some err =>
    let item : QuotaSyncItemResult :=
      { QuotaSyncItemResult.zero with
        ID := j.key.ID, Alias := j.key.Alias, Status := "error", Error := err }
    { st with failed := st.failed + 1, results := st.results.set j.idx item }
  | none =>
    let r := syncKey (GetUsage j.idx) st.db j.key
    let item := r.2
    if item.Status == "ok" then
      { st with db := r.1, succeeded := st.succeeded + 1, results := st.results.set j.idx item }
    else
      { st with db := r.1, failed := st.failed + 1, results := st.results.set j.idx item }

/-- What can happen next in the fan-out: the main goroutine hands the next job to a worker
blocked on the channel, or the worker holding the `w`-th job in flight finishes it. -/
inductive fanOutEvent where
  | receive
  | record (w : Nat)
  deriving DecidableEq, Repr

/-- One event; `none` when the event cannot happen in this state (no job left or no
worker waiting for `receive`, no such job in flight for `record`). -/
def fanOut.step (GetUsage : Nat → String → Except UpstreamError (Int × Option Int))
    (ctxErr : Nat → Option String) (interval : Int) (st : fanOut) :
    fanOutEvent → Option fanOut
  | .receive =>
    match st.jobs with
    | [] => none
    | j :: rest =>
      if st.idle = 0 then none
      else some { st with jobs := rest, inFlight := st.inFlight ++ [j], idle := st.idle - 1 }
  | .record w =>
    match st.inFlight[w]? with
    | none => none
    | some j =>
      some (worker GetUsage ctxErr interval
        { st with inFlight := st.inFlight.eraseIdx w, idle := st.idle + 1 } j)

/-- A sequence of events from a state; `none` when one of them cannot happen. -/
def fanOut.run (GetUsage : Nat → String → Except UpstreamError (Int × Option Int))
    (ctxErr : Nat → Option String) (interval : Int) : fanOut → List fanOutEvent → Option fanOut
  | st, [] => some st
  | st, e :: es =>
    match st.step GetUsage ctxErr interval e with
    | none => none
    | some st' => fanOut.run GetUsage ctxErr interval st' es

/-- The state when the workers have been started and nothing has been sent yet. -/
def fanOut.init (db : DB) (keyItems : List APIKey) (concurrency : Int) : fanOut :=
  { db := db, results := List.replicate keyItems.length QuotaSyncItemResult.zero,
    succeeded := 0, failed := 0, jobs := mkJobs 0 keyItems, inFlight := [],
    idle := concurrency.toNat }

/-- `QuotaSyncService.SyncAllWithConcurrencyAndInterval`.  `sched` is the order in which
the goroutines take their turns; the call returns (`wg.Wait()` passes) when every job has
been sent and recorded, and the value is `none` when `sched` is not the schedule of a
whole run.  `started` and `ended` are the two readings of the clock. -/
def SyncAllWithConcurrencyAndInterval
    (GetUsage : Nat → String → Except UpstreamError (Int × Option Int))
    (ctxErr : Nat → Option String) (sched : List fanOutEvent) (started ended : Int)
    (db : DB) (concurrency : Int) (interval : Int) : Option (DB × QuotaSyncResult) :=
  let keyItems := ListKeys db
  let results := List.replicate keyItems.length QuotaSyncItemResult.zero
  if keyItems.length = 0 then
    some (db, { Total := 0, Succeeded := 0, Failed := 0, Items := results,
                StartedAt := started, EndedAt := ended })
  else
    let concurrency := workerCount concurrency keyItems.length
    let interval := clampInterval interval
    match (fanOut.init db keyItems concurrency).run GetUsage ctxErr interval sched with
    | none => none
    | some st =>
      if st.jobs = [] ∧ st.inFlight = [] then
        some (st.db, { Total := keyItems.length, Succeeded := st.succeeded,
                       Failed := st.failed, Items := st.results,
                       StartedAt := started, EndedAt := ended })
      else none

/-- The schedule in which one worker takes every job in turn. -/
def oneByOne : Nat → List fanOutEvent
  | 0 => []
  | n + 1 => .receive :: .record 0 :: oneByOne n

end QuotaSyncService

namespace QuotaSyncService

/-- What holds of the shared state throughout a fan-out over `keyItems`, in terms of the
jobs still open (in flight or not yet sent): `results` keeps its length; the open jobs have
distinct indices, carry the key listed at their index, and their slot of `results` is
still the zero value; every index is either that of an open job or its slot holds an item
with the identifier of the key listed there; `succeeded` counts the items with status
`ok`; and the two counters and the open jobs add up to the number of keys. -/
structure fanOut.Inv (keyItems : List APIKey) (st : fanOut) : Prop where
  len : st.results.length = keyItems.length
  nodup : ((st.inFlight ++ st.jobs).map job.idx).Nodup
  valid : ∀ j ∈ st.inFlight ++ st.jobs, keyItems[j.idx]? = some j.key
  fresh : ∀ j ∈ st.inFlight ++ st.jobs, st.results[j.idx]? = some QuotaSyncItemResult.zero
  done : ∀ i k, keyItems[i]? = some k →
    (∃ j ∈ st.inFlight ++ st.jobs, j.idx = i) ∨ ∃ it, st.results[i]? = some it ∧ it.ID = k.ID
  succ : st.succeeded = st.results.countP (fun it => it.Status == "ok")
  total : st.succeeded + st.failed + (st.inFlight ++ st.jobs).length = keyItems.length

end QuotaSyncService

namespace QuotaSyncService

/-- `QuotaSyncService.SyncAllWithConcurrency`. -/
def SyncAllWithConcurrency
    (GetUsage : Nat → String → Except UpstreamError (Int × Option Int))
    (ctxErr : Nat → Option String) (sched : List fanOutEvent) (started ended : Int)
    (db : DB) (concurrency : Int) : Option (DB × QuotaSyncResult) :=
  SyncAllWithConcurrencyAndInterval GetUsage ctxErr sched started ended db concurrency 0

/-- `QuotaSyncService.SyncAll`. -/
def SyncAll (GetUsage : Nat → String → Except UpstreamError (Int × Option Int))
    (ctxErr : Nat → Option String) (sched : List fanOutEvent) (started ended : Int)
    (db : DB) : Option (DB × QuotaSyncResult) :=
  SyncAllWithConcurrencyAndInterval GetUsage ctxErr sched started ended db
    defaultQuotaSyncConcurrency 0

/-- A store with two keys. -/
def twoKeys : DB :=
  { api_keys := [sampleKey 1 1000 7 true false, sampleKey 2 500 0 true false], nextID := 3 }

/-- An upstream that answers 429 to the first job and usage 5 of limit 2000 to the
others. -/
def sampleUpstream : Nat → String → Except UpstreamError (Int × Option Int) :=
  fun idx _ => if idx = 0 then .error (.status 429 "rate_limit") else .ok (5, some 2000)

end QuotaSyncService

/-! ## QuotaSyncJobService -/

/-- `QuotaSyncJobStatus`; `nil` instants are `none`. -/
structure QuotaSyncJobStatus where
  ID : String
  Status : String
  Error : String
  IntervalMs : Int
  Total : Nat
  Completed : Nat
  Succeeded : Nat
  Failed : Nat
  Items : List QuotaSyncItemResult
  StartedAt : Option Int
  EndedAt : Option Int
  deriving DecidableEq, Repr

/-- The zero value `QuotaSyncJobStatus{}`. -/
def QuotaSyncJobStatus.zero : QuotaSyncJobStatus :=
  { ID := "", Status := "", Error := "", IntervalMs := 0, Total := 0, Completed := 0,
    Succeeded := 0, Failed := 0, Items := [], StartedAt := none, EndedAt := none }

/-- The state of a `QuotaSyncJobService`: the key store it works on and the job slot
`s.job` (`none` is `nil`). -/
structure QuotaSyncJobService where
  db : DB
  job : Option QuotaSyncJobStatus
  deriving DecidableEq, Repr

/-- The goroutine `Start` spawns: the arguments of `go s.runJob(job.ID, keyItems,
interval)`. -/
structure runJobCall where
  jobID : String
  keyItems : List APIKey
  interval : Int
  deriving DecidableEq, Repr

/-- What `Start` hands back: the state afterwards, the three return values (`err` is
`none` for `nil`), and the goroutine it spawned, if any. -/
structure StartResult where
  svc : QuotaSyncJobService
  status : QuotaSyncJobStatus
  alreadyRunning : Bool
  err : Option String
  spawned : Option runJobCall
  deriving DecidableEq, Repr

namespace QuotaSyncJobService

open KeyService QuotaSyncService

/-- `cloneQuotaSyncJobStatus`: a copy that shares no memory; as a value it is its
argument. -/
def cloneQuotaSyncJobStatus (status : QuotaSyncJobStatus) : QuotaSyncJobStatus :=
  status

/-- `QuotaSyncJobService.Get`. -/
def Get (s : QuotaSyncJobService) : QuotaSyncJobStatus :=
  match s.job with
  | none => { QuotaSyncJobStatus.zero with Status := "idle" }
  | some job => cloneQuotaSyncJobStatus job

/-- The job `Start` builds before it takes the slot: status `running`, counters 0, one
`pending` item per listed key. -/
def seedJob (keyItems : List APIKey) (interval : Int) (newID : String) (now : Int) :
    QuotaSyncJobStatus :=
  { ID := newID, Status := "running", Error := "", IntervalMs := interval / 1000000,
    Total := keyItems.length, Completed := 0, Succeeded := 0, Failed := 0,
    Items := keyItems.map (fun k =>
      { QuotaSyncItemResult.zero with ID := k.ID, Alias := k.Alias, Status := "pending" }),
    StartedAt := some now, EndedAt := none }

/-- `QuotaSyncJobService.Start`.  `newID` is the value of `uuid.NewString()` and `now` the
reading of the clock; the interval is clamped by the same two `if` statements as in
`SyncAllWithConcurrencyAndInterval`. -/
def Start (s : QuotaSyncJobService) (interval : Int) (newID : String) (now : Int) :
    StartResult :=
  let interval := clampInterval interval
  match s.job.filter (fun job => job.Status == "running") with
  | some running =>
    { svc := s, status := cloneQuotaSyncJobStatus running, alreadyRunning := true,
      err := none, spawned := none }
  | none =>
    let keyItems := ListKeys s.db
    let job := seedJob keyItems interval newID now
    { svc := { s with job := some job }, status := cloneQuotaSyncJobStatus job,
      alreadyRunning := false, err := none,
      spawned := some { jobID := job.ID, keyItems := keyItems, interval := interval } }

/-- The loop of `runJob` from index `i` on: reconcile the key, then under the lock give up
if the slot no longer holds this job, else store the item and count it.  The flag tells
whether the loop ran to its end (`false`: it returned from inside). -/
def runJobLoop (GetUsage : Nat → String → Except UpstreamError (Int × Option Int))
    (jobID : String) : Nat → List APIKey → QuotaSyncJobService → QuotaSyncJobService × Bool
  | _, [], s => (s, true)
  | i, k :: ks, s =>
    let r := syncKey (GetUsage i) s.db k
    let item := r.2
    let s := { s with db := r.1 }
    match s.job with
    | none => (s, false)
    | some job =>
      if job.ID != jobID then (s, false)
      else
        let job := { job with Items := job.Items.set i item, Completed := job.Completed + 1 }
        let job :=
          if item.Status == "ok" then { job with Succeeded := job.Succeeded + 1 }
          else { job with Failed := job.Failed + 1 }
        runJobLoop GetUsage jobID (i + 1) ks { s with job := some job }

/-- `QuotaSyncJobService.runJob`; `endedAt` is the reading of the clock after the loop. -/
def runJob (GetUsage : Nat → String → Except UpstreamError (Int × Option Int))
    (s : QuotaSyncJobService) (call : runJobCall) (endedAt : Int) : QuotaSyncJobService :=
  let r := runJobLoop GetUsage call.jobID 0 call.keyItems s
  if r.2 then
    match r.1.job with
    | some job =>
      if job.ID == call.jobID then
        { r.1 with job := some { job with Status := "completed", EndedAt := some endedAt } }
      else r.1
    | none => r.1
  else r.1

end QuotaSyncJobService

/-! ## StatsService -/

/-- Modelled from the spec: the row type `models.RequestStat`, whose declaration is not
among the sources; `(granularity, bucket, endpoint)` is its primary key.  Instants are
nanoseconds since the Unix epoch. -/
structure RequestStat where
  Granularity : String
  Bucket : String
  Endpoint : String
  Count : Int
  UpdatedAt : Int
  deriving DecidableEq, Repr

/-- Modelled from the spec: the row type `models.RequestLog`, whose declaration is not
among the sources, with the fields the services and their tests name. -/
structure RequestLog where
  ID : Nat
  RequestID : String
  Endpoint : String
  StatusCode : Int
  ClientIP : String
  CreatedAt : Int
  deriving DecidableEq, Repr

/-- The tables the stats aggregator reads and writes. -/
structure StatsDB where
  request_stats : List RequestStat
  request_logs : List RequestLog
  deriving DecidableEq, Repr

/-- The part of Go's `time` package, and of SQLite's date functions, that the stats
aggregator calls, for the time zone of the process.  An instant is a number of nanoseconds
since the Unix epoch; `Date y m d h` stands for `time.Date(y, m, d, h, 0, 0, 0, loc)`,
`AddDate t years months days` for `t.AddDate(years, months, days)`, `Format t layout` for
`t.Format(layout)` and `strftime format t` for `strftime(format, t, 'localtime')`. -/
structure Calendar where
  Year : Int → Int
  Month : Int → Int
  Day : Int → Int
  Hour : Int → Int
  Date : Int → Int → Int → Int → Int
  AddDate : Int → Int → Int → Int → Int
  Format : Int → String → String
  strftime : String → Int → String

/-- `TimeSeriesSeries`. -/
structure TimeSeriesSeries where
  Name : String
  Data : List Int
  deriving DecidableEq, Repr

/-- `TimeSeries`. -/
structure TimeSeries where
  Granularity : String
  Labels : List String
  Series : List TimeSeriesSeries
  deriving DecidableEq, Repr

/-- The zero value `TimeSeries{}`. -/
def TimeSeries.zero : TimeSeries := { Granularity := "", Labels := [], Series := [] }

namespace StatsService

/-- `time.Hour`, a `time.Duration` in nanoseconds. -/
def timeHour : Int := 3600 * 1000000000

/-- Lexicographic comparison of two sequences of character codes; on texts it is the order
of SQLite's `BINARY` collation (byte-wise on UTF-8, which orders as the code points do). -/
def bytesLE : List Nat → List Nat → Bool
  | [], _ => true
  | _ :: _, [] => false
  | x :: xs, y :: ys => decide (x < y) || (x == y && bytesLE xs ys)

/-- SQL `a <= b` on two texts. -/
def textLE (a b : String) : Bool :=
  bytesLE (a.toList.map Char.toNat) (b.toList.map Char.toNat)

/-- The primary key of a stats row. -/
def statKey (r : RequestStat) : String × String × String :=
  (r.Granularity, r.Bucket, r.Endpoint)

/-- The row stored under a primary key, if any. -/
def lookup (table : List RequestStat) (key : String × String × String) : Option RequestStat :=
  table.find? (fun r => statKey r == key)

/-- The count stored under a primary key, 0 when there is no such row. -/
def countOf (table : List RequestStat) (key : String × String × String) : Int :=
  match lookup table key with
  | some r => r.Count
  | none => 0

/-- `StatsService.upsertIncrement`: insert the row with `count = inc`, or on a conflict
over the primary key add `inc` to the stored count and set `updated_at`. -/
def upsertIncrement (table : List RequestStat) (granularity bucket endpoint : String)
    (inc : Int) (updatedAt : Int) : List RequestStat :=
  let stat : RequestStat :=
    { Granularity := granularity, Bucket := bucket, Endpoint := endpoint, Count := inc,
      UpdatedAt := updatedAt }
  if table.any (fun r => statKey r == statKey stat) then
    table.map (fun r =>
      if statKey r == statKey stat then { r with Count := r.Count + inc, UpdatedAt := updatedAt }
      else r)
  else table ++ [stat]

/-- The hour bucket of an instant: `hour.Format("2006-01-02 15:00")` in `RecordRequest`. -/
def hourBucket (cal : Calendar) (occurredAt : Int) : String :=
  let hour := cal.Date (cal.Year occurredAt) (cal.Month occurredAt) (cal.Day occurredAt)
    (cal.Hour occurredAt)
  cal.Format hour "2006-01-02 15:00"

/-- The day bucket of an instant: `day.Format("2006-01-02")` in `RecordRequest`. -/
def dayBucket (cal : Calendar) (occurredAt : Int) : String :=
  let day := cal.Date (cal.Year occurredAt) (cal.Month occurredAt) (cal.Day occurredAt) 0
  cal.Format day "2006-01-02"

/-- The month bucket of an instant: `month.Format("2006-01")` in `RecordRequest`. -/
def monthBucket (cal : Calendar) (occurredAt : Int) : String :=
  let month := cal.Date (cal.Year occurredAt) (cal.Month occurredAt) 1 0
  cal.Format month "2006-01"

/-- `StatsService.RecordRequest`; `updatedAt` is the reading of the clock. -/
def RecordRequest (cal : Calendar) (table : List RequestStat) (endpoint : String)
    (occurredAt : Int) (updatedAt : Int) : List RequestStat :=
  let table := upsertIncrement table "hour" (hourBucket cal occurredAt) "" 1 updatedAt
  let table := upsertIncrement table "day" (dayBucket cal occurredAt) "" 1 updatedAt
  let table := upsertIncrement table "month" (monthBucket cal occurredAt) "" 1 updatedAt
  if endpoint = "/search" then
    let table := upsertIncrement table "hour" (hourBucket cal occurredAt) "/search" 1 updatedAt
    let table := upsertIncrement table "day" (dayBucket cal occurredAt) "/search" 1 updatedAt
    upsertIncrement table "month" (monthBucket cal occurredAt) "/search" 1 updatedAt
  else table

/-- `StatsService.bucketCountsFromStats`: the rows of one granularity and endpoint from
`startBucket` on, in bucket order, as the Go map from bucket to count (a missing key
reads as 0). -/
def bucketCountsFromStats (table : List RequestStat) (granularity endpoint startBucket : String) :
    String → Int :=
  let rows := (table.filter (fun r =>
      r.Granularity == granularity && r.Endpoint == endpoint && textLE startBucket r.Bucket)
    ).insertionSort (fun a b => textLE a.Bucket b.Bucket = true)
  rows.foldl (fun out r => fun bucket => if bucket = r.Bucket then r.Count else out bucket)
    (fun _ => 0)

/-- The variables the `switch` of `TimeSeries` sets. -/
structure seriesPlan where
  granularity : String
  start : Int
  points : Nat
  step : Int → Int
  bucketKey : Int → String
  labelFormat : Int → String

/-- The `switch` of `TimeSeries` on the granularity. -/
def plan (cal : Calendar) (now : Int) (granularity : String) : Except String seriesPlan :=
  if granularity = "" ∨ granularity = "hour" then
    .ok { granularity := "hour",
          start := cal.Date (cal.Year now) (cal.Month now) (cal.Day now) (cal.Hour now)
            + (-23) * timeHour,
          points := 24,
          step := fun t => t + timeHour,
          bucketKey := fun t => cal.Format t "2006-01-02 15:00",
          labelFormat := fun t => cal.Format t "01-02 15:00" }
  else if granularity = "day" then
    .ok { granularity := granularity,
          start := cal.AddDate (cal.Date (cal.Year now) (cal.Month now) (cal.Day now) 0) 0 0 (-29),
          points := 30,
          step := fun t => cal.AddDate t 0 0 1,
          bucketKey := fun t => cal.Format t "2006-01-02",
          labelFormat := fun t => cal.Format t "01-02" }
  else if granularity = "month" then
    .ok { granularity := granularity,
          start := cal.AddDate (cal.Date (cal.Year now) (cal.Month now) 1 0) 0 (-11) 0,
          points := 12,
          step := fun t => cal.AddDate t 0 1 0,
          bucketKey := fun t => cal.Format t "2006-01",
          labelFormat := fun t => cal.Format t "2006-01" }
  else .error ("invalid granularity: " ++ granularity)

/-- The loop of `TimeSeries`: `n` more points from the instant `t`; the labels and the two
series in the order they are appended. -/
def seriesLoop (p : seriesPlan) (totalCounts searchCounts : String → Int) :
    Nat → Int → List String × List Int × List Int
  | 0, _ => ([], [], [])
  | n + 1, t =>
    let key := p.bucketKey t
    let rest := seriesLoop p totalCounts searchCounts n (p.step t)
    (p.labelFormat t :: rest.1, totalCounts key :: rest.2.1, searchCounts key :: rest.2.2)

/-- `StatsService.TimeSeries`; `now` is the reading of the clock. -/
def TimeSeries (cal : Calendar) (table : List RequestStat) (now : Int) (granularity : String) :
    Except String TavilyProxy.TimeSeries :=
  match plan cal now granularity with
  | .error err => .error err
  | .ok p =>
    let startBucket := p.bucketKey p.start
    let totalCounts := bucketCountsFromStats table p.granularity "" startBucket
    let searchCounts := bucketCountsFromStats table p.granularity "/search" startBucket
    let r := seriesLoop p totalCounts searchCounts p.points p.start
    .ok { Granularity := p.granularity, Labels := r.1,
          Series := [{ Name := "All Requests", Data := r.2.1 },
                     { Name := "Search", Data := r.2.2 }] }

/-- `SELECT expr AS bucket, COUNT(*) AS count ... GROUP BY bucket ORDER BY bucket` over
the bucket values of the selected log rows. -/
def groupCount (buckets : List String) : List (String × Int) :=
  ((buckets.insertionSort (fun a b => textLE a b = true)).dedup).map
    (fun b => (b, (buckets.count b : Int)))

/-- The list `specs` of `BackfillFromLogsIfEmpty`: granularity and the `strftime` format
of its bucket expression. -/
def specs : List (String × String) :=
  [("hour", "%Y-%m-%d %H:00"), ("day", "%Y-%m-%d"), ("month", "%Y-%m")]

/-- `StatsService.BackfillFromLogsIfEmpty`; `updatedAt` is the reading of the clock. -/
def BackfillFromLogsIfEmpty (cal : Calendar) (store : StatsDB) (updatedAt : Int) : StatsDB :=
  if store.request_stats.length > 0 then store
  else
    specs.foldl (fun store sp =>
      let allRows := groupCount (store.request_logs.map (fun l => cal.strftime sp.2 l.CreatedAt))
      let searchRows := groupCount
        ((store.request_logs.filter (fun l => l.Endpoint == "/search")).map
          (fun l => cal.strftime sp.2 l.CreatedAt))
      let store :=
        if allRows.length > 0 then
          { store with request_stats := store.request_stats ++ allRows.map (fun r =>
              { Granularity := sp.1, Bucket := r.1, Endpoint := "", Count := r.2,
                UpdatedAt := updatedAt }) }
        else store
      if searchRows.length > 0 then
        { store with request_stats := store.request_stats ++ searchRows.map (fun r =>
            { Granularity := sp.1, Bucket := r.1, Endpoint := "/search", Count := r.2,
              UpdatedAt := updatedAt }) }
      else store) store

end StatsService

/-! ## A concrete calendar: UTC -/

namespace StatsService

/-- Nanoseconds in a day. -/
def nsPerDay : Int := 24 * timeHour

/-- The civil date `(year, month, day)` of a day number counted from 1970-01-01, in the
proleptic Gregorian calendar. -/
def civilFromDays (days : Int) : Int × Int × Int :=
  let z := days + 719468
  let era := z / 146097
  let doe := z % 146097
  let yoe := (doe - doe / 1460 + doe / 36524 - doe / 146096) / 365
  let doy := doe - (365 * yoe + yoe / 4 - yoe / 100)
  let mp := (5 * doy + 2) / 153
  let d := doy - (153 * mp + 2) / 5 + 1
  let m := if mp < 10 then mp + 3 else mp - 9
  let y := yoe + era * 400
  (if m ≤ 2 then y + 1 else y, m, d)

/-- The day number of a civil date; a month outside 1..12 and a day outside the month
carry over, as `time.Date` normalises them. -/
def daysFromCivil (year month day : Int) : Int :=
  let y := year + (month - 1) / 12
  let m := (month - 1) % 12 + 1
  let y := if m ≤ 2 then y - 1 else y
  let era := y / 400
  let yoe := y % 400
  let doy := (153 * (if m > 2 then m - 3 else m + 9) + 2) / 5
  let doe := yoe * 365 + yoe / 4 - yoe / 100 + doy
  era * 146097 + doe - 719468 + (day - 1)

/-- A decimal number padded with zeros to a width. -/
def zeroPad (width : Nat) (n : Int) : String :=
  let digits := Nat.toDigits 10 n.toNat
  String.mk (List.replicate (width - digits.length) '0' ++ digits)

/-- The calendar of a process that runs in UTC: civil dates of the proleptic Gregorian
calendar, the five layouts and three `strftime` formats the aggregator uses. -/
def utc : Calendar where
  Year := fun t => (civilFromDays (t / nsPerDay)).1
  Month := fun t => (civilFromDays (t / nsPerDay)).2.1
  Day := fun t => (civilFromDays (t / nsPerDay)).2.2
  Hour := fun t => (t % nsPerDay) / timeHour
  Date := fun y m d h => daysFromCivil y m d * nsPerDay + h * timeHour
  AddDate := fun t years months days =>
    let c := civilFromDays (t / nsPerDay)
    daysFromCivil (c.1 + years) (c.2.1 + months) (c.2.2 + days) * nsPerDay + t % nsPerDay
  Format := fun t layout =>
    let c := civilFromDays (t / nsPerDay)
    let h := (t % nsPerDay) / timeHour
    if layout = "2006-01-02 15:00" then
      zeroPad 4 c.1 ++ "-" ++ zeroPad 2 c.2.1 ++ "-" ++ zeroPad 2 c.2.2 ++ " " ++ zeroPad 2 h
        ++ ":00"
    else if layout = "2006-01-02" then
      zeroPad 4 c.1 ++ "-" ++ zeroPad 2 c.2.1 ++ "-" ++ zeroPad 2 c.2.2
    else if layout = "2006-01" then zeroPad 4 c.1 ++ "-" ++ zeroPad 2 c.2.1
    else if layout = "01-02 15:00" then
      zeroPad 2 c.2.1 ++ "-" ++ zeroPad 2 c.2.2 ++ " " ++ zeroPad 2 h ++ ":00"
    else if layout = "01-02" then zeroPad 2 c.2.1 ++ "-" ++ zeroPad 2 c.2.2
    else layout
  strftime := fun format t =>
    let c := civilFromDays (t / nsPerDay)
    let h := (t % nsPerDay) / timeHour
    if format = "%Y-%m-%d %H:00" then
      zeroPad 4 c.1 ++ "-" ++ zeroPad 2 c.2.1 ++ "-" ++ zeroPad 2 c.2.2 ++ " " ++ zeroPad 2 h
        ++ ":00"
    else if format = "%Y-%m-%d" then
      zeroPad 4 c.1 ++ "-" ++ zeroPad 2 c.2.1 ++ "-" ++ zeroPad 2 c.2.2
    else if format = "%Y-%m" then zeroPad 4 c.1 ++ "-" ++ zeroPad 2 c.2.1
    else format

/-- The instant 2026-03-01 00:30:00 UTC. -/
def sampleNow : Int := 1772325000 * 1000000000

/-- A stats table with the rows of two requests made at 2026-02-28 23:10 UTC, one of them
to `/search`, and one `/extract` request made a month before. -/
def sampleStats : List RequestStat :=
  [{ Granularity := "hour", Bucket := "2026-02-28 23:00", Endpoint := "", Count := 2,
     UpdatedAt := 0 },
   { Granularity := "day", Bucket := "2026-02-28", Endpoint := "", Count := 2, UpdatedAt := 0 },
   { Granularity := "month", Bucket := "2026-02", Endpoint := "", Count := 2, UpdatedAt := 0 },
   { Granularity := "hour", Bucket := "2026-02-28 23:00", Endpoint := "/search", Count := 1,
     UpdatedAt := 0 },
   { Granularity := "day", Bucket := "2026-02-28", Endpoint := "/search", Count := 1,
     UpdatedAt := 0 },
   { Granularity := "month", Bucket := "2026-02", Endpoint := "/search", Count := 1,
     UpdatedAt := 0 },
   { Granularity := "month", Bucket := "2026-01", Endpoint := "", Count := 1, UpdatedAt := 0 }]

end StatsService

namespace StatsService

/-- The primary keys `RecordRequest` upserts, in the order of its calls: the three rows of
endpoint `""`, and the three rows of `/search` when that is the endpoint. -/
def recordKeys (cal : Calendar) (endpoint : String) (occurredAt : Int) :
    List (String × String × String) :=
  [("hour", hourBucket cal occurredAt, ""), ("day", dayBucket cal occurredAt, ""),
    ("month", monthBucket cal occurredAt, "")] ++
  (if endpoint = "/search" then
    [("hour", hourBucket cal occurredAt, "/search"), ("day", dayBucket cal occurredAt, "/search"),
      ("month", monthBucket cal occurredAt, "/search")]
  else [])

end StatsService

namespace StatsService

/-- The stats rows `BackfillFromLogsIfEmpty` builds for one entry of `specs`: the rows of
endpoint `""` from all logs, then the rows of `/search` from the `/search` logs. -/
def backfillRows (cal : Calendar) (logs : List RequestLog) (sp : String × String)
    (updatedAt : Int) : List RequestStat :=
  (groupCount (logs.map (fun l => cal.strftime sp.2 l.CreatedAt))).map (fun r =>
      { Granularity := sp.1, Bucket := r.1, Endpoint := "", Count := r.2,
        UpdatedAt := updatedAt }) ++
    (groupCount ((logs.filter (fun l => l.Endpoint == "/search")).map
      (fun l => cal.strftime sp.2 l.CreatedAt))).map (fun r =>
      { Granularity := sp.1, Bucket := r.1, Endpoint := "/search", Count := r.2,
        UpdatedAt := updatedAt })

/-- Two log rows of 2026-03-01 UTC, one of them a `/search` request. -/
def sampleLogs : List RequestLog :=
  [{ ID := 1, RequestID := "a", Endpoint := "/search", StatusCode := 200,
     ClientIP := "127.0.0.1", CreatedAt := sampleNow },
   { ID := 2, RequestID := "b", Endpoint := "/usage", StatusCode := 200,
     ClientIP := "127.0.0.1", CreatedAt := sampleNow + 5 }]

end StatsService

namespace KeyService

/-- A patch that sets every field at once: a new alias, a quota of 0, a usage of 5, the
active flag and `reset_quota`. -/
def samplePatch : KeyUpdate :=
  { Alias := some "new", TotalQuota := some 0, UsedQuota := some 5, IsActive := some true,
    ResetQuota := true, SyncUsage := false }

end KeyService

/-! ## LogService -/

/-- `PaginatedLogs`. -/
structure PaginatedLogs where
  Items : List RequestLog
  Total : Int
  Page : Int
  Size : Int
  deriving DecidableEq, Repr

namespace LogService

/-- The `Where("status_code = ?", *statusCode)` clause `List` adds when a filter is given;
without a filter every row is selected. -/
def selected (statusCode : Option Int) (l : RequestLog) : Bool :=
  match statusCode with
  | some c => l.StatusCode == c
  | none => true

/-- `LogService.List` over the `request_logs` table (named `ListLogs` here, `List` being the
list type).  `offset` is a Go `int`, so the
product is wrapped to 64 bits; the query builder emits `OFFSET` only for a positive offset
and `LIMIT size` for the size, which is positive here. -/
def ListLogs (logs : List RequestLog) (page size : Int) (statusCode : Option Int) :
    PaginatedLogs :=
  let page := if page < 1 then 1 else page
  let size := if size ≤ 0 ∨ size > 200 then 20 else size
  let offset := KeyService.wrapInt64 ((page - 1) * size)
  let total : Int := ((logs.filter (selected statusCode)).length : Int)
  let items := (((logs.filter (selected statusCode)).insertionSort
    (fun a b => a.ID ≥ b.ID)).drop offset.toNat).take size.toNat
  { Items := items, Total := total, Page := page, Size := size }

/-- The log table of the filter test: three requests answered 200, 429 and 200. -/
def threeLogs : List RequestLog :=
  [{ ID := 1, RequestID := "a", Endpoint := "/search", StatusCode := 200,
     ClientIP := "127.0.0.1", CreatedAt := 0 },
   { ID := 2, RequestID := "b", Endpoint := "/search", StatusCode := 429,
     ClientIP := "127.0.0.1", CreatedAt := 0 },
   { ID := 3, RequestID := "c", Endpoint := "/usage", StatusCode := 200,
     ClientIP := "127.0.0.1", CreatedAt := 0 }]

end LogService

/-! ## Admin HTTP: key export -/

/-- The parts of the export response the specification names: the status, the
`Content-Disposition` and `X-Exported-Count` headers and the body. -/
structure ExportResponse where
  Status : Nat
  ContentDisposition : String
  ExportedCount : String
  Body : String
  deriving DecidableEq, Repr

namespace httpserver

open KeyService

/-- Modelled from the spec: the secrets the handler `handleExportKeys` writes, one per
line.  The handler is not among the sources (only its test is); the specification has
"`export keys` (newline-separated secrets, in `id desc` order, EXCLUDING `is_invalid`
rows)".  The rows are read through `KeyService.List`, which is among the sources. -/
def exportedKeys (db : DB) : List String :=
  ((ListKeys db).filter (fun k => !k.IsInvalid)).map (fun k => k.Key)

/-- Modelled from the spec: the handler `handleExportKeys`, which is not among the
sources: "response carries `Content-Disposition: attachment` and
`X-Exported-Count: <n>`", the body being the secrets separated by newlines. -/
def handleExportKeys (db : DB) : ExportResponse :=
  { Status := 200,
    ContentDisposition := "attachment",
    ExportedCount := toString (exportedKeys db).length,
    Body := "\n".intercalate (exportedKeys db) }

/-- The store of the export test: an active key, an exhausted key and an invalid key,
created in this order. -/
def exportStore : DB :=
  runOps [.create "tvly-active" "active" 1000, .create "tvly-exhausted" "exhausted" 1000,
    .markExhausted 2, .create "tvly-invalid" "invalid" 1000, .markInvalid 3]

end httpserver

/-! ## MasterKeyService and the tool-server handler -/

/-- `MasterKeyService`: the cached master key `key` (the store handle and the logger play
no part in `Authenticate`; the lock makes `Get` an atomic read). -/
structure MasterKeyService where
  key : String
  deriving DecidableEq, Repr

namespace MasterKeyService

/-- The conversion `[]byte(s)`, carried as the list of the character codes of `s`: two
texts have the same bytes exactly when they have the same character codes. -/
def bytes (s : String) : List Nat := s.toList.map Char.toNat

/-- The library routine `subtle.ConstantTimeByteEq(x, y)`: 1 if `x == y`, else 0. -/
def ConstantTimeByteEq (x y : Nat) : Int := if x = y then 1 else 0

/-- The library routine `subtle.ConstantTimeCompare(x, y)`: 0 at once when the lengths
differ, otherwise the `or` of the `xor` of all pairs is compared with 0. -/
def ConstantTimeCompare (x y : List Nat) : Int :=
  if x.length ≠ y.length then 0
  else
    let v := (List.zipWith (fun a b => a ^^^ b) x y).foldl (fun v d => v ||| d) 0
    ConstantTimeByteEq v 0

/-- `MasterKeyService.Get`. -/
def Get (s : MasterKeyService) : String := s.key

/-- `MasterKeyService.Authenticate`. -/
def Authenticate (s : MasterKeyService) (token : String) : Bool :=
  let current := s.Get
  if current = "" ∨ token = "" then false
  else ConstantTimeCompare (bytes current) (bytes token) == 1

end MasterKeyService

namespace mcpserver

/-- What the handler returned by `NewHandler` does with a request: it answers
`http.Error(w, "unauthorized", http.StatusUnauthorized)` and returns, or it passes the
request on with `base.ServeHTTP(w, r)`, behind which the tools call the upstream. -/
inductive Served where
  | unauthorized (status : Nat) (body : String)
  | base
  deriving DecidableEq, Repr

/-- The handler function of `NewHandler`; `token` is
`parseBearerToken(r.Header.Get("Authorization"))`. -/
def NewHandler (MasterKey : MasterKeyService) (token : String) : Served :=
  if !MasterKey.Authenticate token then .unauthorized 401 "unauthorized"
  else .base

end mcpserver

/-! ## Tool-server facade -/

/-- A decoded JSON document as `json.Unmarshal` stores it in an `any`: `nil`, `bool`,
`float64` (carried as its text), `string`, `[]any` or `map[string]any`. -/
inductive JSONValue where
  | null
  | bool (b : Bool)
  | number (text : String)
  | string (s : String)
  | array (items : List JSONValue)
  | object (fields : List (String × JSONValue))

/-- `ProxyResponse`, as far as the facade reads it. -/
structure ProxyResponse where
  StatusCode : Int
  Body : String

/-- `mcp.CallToolResult`: the flag, the texts of the `TextContent` items and the structured
content. -/
structure CallToolResult where
  IsError : Bool
  Content : List String
  StructuredContent : JSONValue

namespace mcpserver

/-- The tool handler `addProxyTool` registers, from the answer of `proxy.Do` on.
`Unmarshal` stands for `json.Unmarshal(resp.Body, &parsed)`: the decoded document, or
`none` when it returns an error; `resp` is the result of `proxy.Do` (`.error` carries
`err.Error()`). -/
def addProxyTool (Unmarshal : String → Option JSONValue)
    (resp : Except String ProxyResponse) : CallToolResult :=
  match resp with
  | .error err =>
    { IsError := true, Content := [err],
      StructuredContent := .object [("error", .string err)] }
  | .ok resp =>
    let text := resp.Body
    let parsed : JSONValue :=
      match Unmarshal resp.Body with
      | some v => v
      | none => .null
    let structured : JSONValue :=
      match parsed with
      | .object m => .object m
      | _ => .object [("raw", .string text)]
    if resp.StatusCode < 200 ∨ resp.StatusCode ≥ 300 then
      { IsError := true,
        Content := ["Upstream status " ++ toString resp.StatusCode ++ ": " ++ text],
        StructuredContent := structured }
    else
      { IsError := false, Content := [text], StructuredContent := structured }

/-- The body `{"error":"quota"}`. -/
def quotaBody : String := "\x7b\"error\":\"quota\"\x7d"

/-- What `json.Unmarshal` answers on four bodies: the empty array, the empty object, an
object with one text field, and a text that is not JSON. -/
def sampleUnmarshal (body : String) : Option JSONValue :=
  if body = "[]" then some (.array [])
  else if body = "\x7b\x7d" then some (.object [])
  else if body = quotaBody then some (.object [("error", .string "quota")])
  else none

end mcpserver

/-! ## Auto-sync driver -/

namespace jobs

open KeyService

/-- `time.Minute`, a `time.Duration` in nanoseconds. -/
def timeMinute : Int := 60 * 1000000000

/-- `time.Second`, a `time.Duration` in nanoseconds. -/
def timeSecond : Int := 1000000000

/-- `time.Since(t)` when the clock reads `now`: the difference as a `time.Duration`, which
`Time.Sub` saturates at the ends of the 64-bit range. -/
def Since (now t : Int) : Int :=
  let d := now - t
  if d > 2 ^ 63 - 1 then 2 ^ 63 - 1
  else if d < -2 ^ 63 then -2 ^ 63
  else d

/-- `atomic.Bool.CompareAndSwap(old, new)` on a latch that holds `v`: the value it holds
afterwards and whether the swap happened. -/
def CompareAndSwap (v old new : Bool) : Bool × Bool :=
  if v = old then (new, true) else (v, false)

/-- The call `sync.SyncAllWithConcurrencyAndInterval(ctx, concurrency, interval)` a tick
hands to its goroutine. -/
structure syncCall where
  concurrency : Int
  interval : Int
  deriving DecidableEq, Repr

/-- The outcome of one tick: the latch `running` afterwards and the run it started, if
any. -/
structure tickResult where
  running : Bool
  started : Option syncCall
  deriving DecidableEq, Repr

/-- One `case <-ticker.C:` of the loop in `StartAutoQuotaSync`.  `running` is the latch,
`enabled`, `intervalMinutes` and `requestIntervalSeconds` are the answers of
`settings.GetBool` and `settings.GetInt` (the settings service is not among the sources;
`.error` is a failed read), `lastRunAt` the answer of `settings.GetTime` (`none` is `nil`),
`now` the clock reading of `time.Since`.  Durations are Go `int64` products. -/
def StartAutoQuotaSync.tick (running : Bool) (enabled : Except String Bool)
    (intervalMinutes requestIntervalSeconds : Except String Int) (lastRunAt : Option Int)
    (now : Int) : tickResult :=
  if running then { running := running, started := none }
  else
    match enabled with
    | .error _ => { running := running, started := none }
    | .ok enabled =>
      if !enabled then { running := running, started := none }
      else
        match intervalMinutes with
        | .error _ => { running := running, started := none }
        | .ok intervalMinutes =>
          let intervalMinutes := if intervalMinutes < 1 then 1 else intervalMinutes
          let concurrency : Int := 1
          match requestIntervalSeconds with
          | .error _ => { running := running, started := none }
          | .ok requestIntervalSeconds =>
            let requestIntervalSeconds :=
              if requestIntervalSeconds < 0 then 0 else requestIntervalSeconds
            let requestIntervalSeconds :=
              if requestIntervalSeconds > 60 then 60 else requestIntervalSeconds
            let interval := wrapInt64 (intervalMinutes * timeMinute)
            let skip : Bool :=
              match lastRunAt with
              | some t => decide (Since now t < interval)
              | none => false
            if skip then { running := running, started := none }
            else
              let cas := CompareAndSwap running false true
              if !cas.2 then { running := cas.1, started := none }
              else
                { running := cas.1,
                  started := some { concurrency := concurrency,
                                    interval := wrapInt64 (requestIntervalSeconds * timeSecond) } }

end jobs

namespace StatsService

/-- The total of one granularity and endpoint:
`SELECT SUM(count) FROM request_stats WHERE granularity = ? AND endpoint = ?`. -/
def sumCounts (table : List RequestStat) (granularity endpoint : String) : Int :=
  ((table.filter (fun r => r.Granularity == granularity && r.Endpoint == endpoint)).map
    (fun r => r.Count)).sum

/-- The arguments of one `RecordRequest` call; `updatedAt` is the clock reading. -/
structure recordCall where
  endpoint : String
  occurredAt : Int
  updatedAt : Int
  deriving DecidableEq, Repr

/-- The stats table after a sequence of `RecordRequest` calls on an empty table. -/
def recordAll (cal : Calendar) (calls : List recordCall) : List RequestStat :=
  calls.foldl (fun table c => RecordRequest cal table c.endpoint c.occurredAt c.updatedAt) []

/-- Four requests: two searches in one hour of 2026-03-01, an extract in the next hour and a
search a month later. -/
def sampleCalls : List recordCall :=
  [{ endpoint := "/search", occurredAt := sampleNow, updatedAt := sampleNow },
   { endpoint := "/search", occurredAt := sampleNow + 60, updatedAt := sampleNow + 61 },
   { endpoint := "/extract", occurredAt := sampleNow + timeHour, updatedAt := sampleNow },
   { endpoint := "/search", occurredAt := sampleNow + 31 * nsPerDay, updatedAt := sampleNow }]

end StatsService

namespace KeyService

/-- A store with a key of quota `2^63 - 1` whose usage was set to `-1`, and a key of quota
10: the first has `2^63` left, which a Go `int` does not hold. -/
def wrapPool : DB :=
  runOps [.create "tvly-big" "big" (2 ^ 63 - 1), .setUsage 1 (-1) none,
    .create "tvly-small" "small" 10]

end KeyService

namespace QuotaSyncService

/-- The number of jobs a worker holds after a sequence of events, counted on the events:
one more for each `receive`, one less for each `record`.  A job is held from the moment a
worker receives it to the moment its result is recorded, and the upstream call for it is
made in between. -/
def inFlightAfter : List fanOutEvent → Int
  | [] => 0
  | .receive :: es => inFlightAfter es + 1
  | .record _ :: es => inFlightAfter es - 1

/-- The schedule in which `w` workers receive a job each before any result is recorded,
then record them, and one worker takes the remaining `rest` jobs in turn. -/
def burst (w rest : Nat) : List fanOutEvent :=
  List.replicate w .receive ++ (List.replicate w (.record 0) ++ oneByOne rest)

end QuotaSyncService

/-! ## QuotaSyncService: the paced fan-out on the clock -/

namespace QuotaSyncService

open KeyService

/-- Whether `waitForSlot` goes on to the `select` on its timer and `ctx.Done()`: it does
when pacing is on, `nextStart` is set and the clock is not after it; otherwise it returns
`nil` from the critical section. -/
def waitsOnTimer (interval : Int) (nextStart : Option Int) (now : Int) : Bool :=
  if interval ≤ 0 then false
  else
    match nextStart with
    | none => false
    | some next => !decide (now > next)

/-- The shared `nextStart` after a sequence of slot requests with the given clock
readings. -/
def slotAfter (interval : Int) : Option Int → List Int → Option Int
  | nextStart, [] => nextStart
  | nextStart, now :: nows => slotAfter interval (waitForSlot interval nextStart now).1 nows

/-- The fan-out together with the clock and the pacing state: the state of the fan-out,
the reading `time.Now()` would give, the shared `nextStart`, for each job in flight (in the
order of `fan.inFlight`) the timer of its worker, whether `ctx.Done()` is closed, and, for
the record, the clock readings of the slot requests made so far and the starts granted to
them, in the order the workers took the pacing mutex.  A timer is `none` while the worker
has not yet passed the critical section of `waitForSlot`; afterwards it is the instant at
which the worker may go on and whether the worker waits in the `select`. -/
structure pacedFanOut where
  fan : fanOut
  clock : Int
  nextStart : Option Int
  timers : List (Option (Int × Bool))
  done : Bool
  asked : List Int
  granted : List Int
  deriving DecidableEq, Repr

/-- What can happen next in a paced call: the clock advances by `d` nanoseconds, the
context is cancelled, the worker holding the job in flight at position `w` passes the
critical section of `waitForSlot`, or an event of the fan-out takes place. -/
inductive pacedEvent where
  | tick (d : Nat)
  | cancel
  | slot (w : Nat)
  | fan (e : fanOutEvent)
  deriving DecidableEq, Repr

/-- Whether the worker that holds the job `j` with the given timer can go on: through the
`nil` return of `waitForSlot` (when `ctxErr` has no error for the job), which needs the
timer to have fired, or through the `ctx.Err()` return (when `ctxErr` has one), which needs
the worker to wait in the `select` and the context to be cancelled. -/
def recordReady (ctxErr : Nat → Option String) (interval : Int) (st : pacedFanOut) (j : job)
    (timer : Int × Bool) : Bool :=
  match (if interval ≤ 0 then none else ctxErr j.idx) with
  | none => decide (timer.1 ≤ st.clock)
  | some _ => timer.2 && st.done

/-- One event of a paced call.  A worker that has received a job calls `waitForSlot`: it
passes the critical section with the current clock reading (`slot`), and the result of its
job is recorded (`record`) when it can go on after that. -/
def pacedFanOut.step (GetUsage : Nat → String → Except UpstreamError (Int × Option Int))
    (ctxErr : Nat → Option String) (interval : Int) (st : pacedFanOut) :
    pacedEvent → Option pacedFanOut
  | .tick d => some { st with clock := st.clock + d }
  | .cancel => some { st with done := true }
  | .slot w =>
    match st.timers[w]? with
    | some none =>
      let r := waitForSlot interval st.nextStart st.clock
      some { st with
        nextStart := r.1,
        timers := st.timers.set w
          (some (st.clock + r.2, waitsOnTimer interval st.nextStart st.clock)),
        asked := st.asked ++ [st.clock], granted := st.granted ++ [st.clock + r.2] }
    | _ => none
  | .fan .receive =>
    match st.fan.step GetUsage ctxErr interval .receive with
    | none => none
    | some fan => some { st with fan := fan, timers := st.timers ++ [none] }
  | .fan (.record w) =>
    match st.fan.inFlight[w]?, st.timers[w]? with
    | some j, some (some timer) =>
      if recordReady ctxErr interval st j timer then
        match st.fan.step GetUsage ctxErr interval (.record w) with
        | none => none
        | some fan => some { st with fan := fan, timers := st.timers.eraseIdx w }
      else none
    | _, _ => none

/-- A sequence of events of a paced call; `none` when one of them cannot happen. -/
def pacedFanOut.run (GetUsage : Nat → String → Except UpstreamError (Int × Option Int))
    (ctxErr : Nat → Option String) (interval : Int) :
    pacedFanOut → List pacedEvent → Option pacedFanOut
  | st, [] => some st
  | st, e :: es =>
    match st.step GetUsage ctxErr interval e with
    | none => none
    | some st' => pacedFanOut.run GetUsage ctxErr interval st' es

/-- The state when the workers have been started: the clock reads `started`, `nextStart`
is the zero time, the context is not cancelled. -/
def pacedFanOut.init (db : DB) (keyItems : List APIKey) (concurrency : Int) (started : Int) :
    pacedFanOut :=
  { fan := fanOut.init db keyItems concurrency, clock := started, nextStart := none,
    timers := [], done := false, asked := [], granted := [] }

/-- The state in which a paced call of `SyncAllWithConcurrencyAndInterval` returns under
the schedule `sched`, `none` when `sched` is not the schedule of a whole run.  With an
empty key list no worker is started and only the clock moves before the call returns. -/
def pacedFinal (GetUsage : Nat → String → Except UpstreamError (Int × Option Int))
    (ctxErr : Nat → Option String) (sched : List pacedEvent) (started : Int)
    (db : DB) (concurrency : Int) (interval : Int) : Option pacedFanOut :=
  let keyItems := ListKeys db
  if keyItems.length = 0 then
    (pacedFanOut.init db keyItems 0 started).run GetUsage ctxErr 0 sched
  else
    let concurrency := workerCount concurrency keyItems.length
    let interval := clampInterval interval
    match (pacedFanOut.init db keyItems concurrency started).run GetUsage ctxErr interval
      sched with
    | none => none
    | some st => if st.fan.jobs = [] ∧ st.fan.inFlight = [] then some st else none

/-- `QuotaSyncService.SyncAllWithConcurrencyAndInterval` on the clock: `StartedAt` is the
reading at the call, `EndedAt` the reading when it returns. -/
def SyncAllWithConcurrencyAndInterval.onClock
    (GetUsage : Nat → String → Except UpstreamError (Int × Option Int))
    (ctxErr : Nat → Option String) (sched : List pacedEvent) (started : Int)
    (db : DB) (concurrency : Int) (interval : Int) : Option (DB × QuotaSyncResult) :=
  (pacedFinal GetUsage ctxErr sched started db concurrency interval).map (fun st =>
    (st.fan.db, { Total := (ListKeys db).length, Succeeded := st.fan.succeeded,
                  Failed := st.fan.failed, Items := st.fan.results,
                  StartedAt := started, EndedAt := st.clock }))

/-- The events of the fan-out in a schedule of a paced call. -/
def fanEvents : List pacedEvent → List fanOutEvent
  | [] => []
  | .fan e :: es => e :: fanEvents es
  | _ :: es => fanEvents es

end QuotaSyncService

namespace QuotaSyncService

/-- What holds throughout a paced call over `n` keys that began at `started`, when no wait
is cut short by the context: the clock has not gone back; every job in flight has its
timer; the starts granted so far and the shared `nextStart` are those `waitForSlot` gives
for the clock readings of the slot requests made so far, none of which was read before the
call began; the slot requests made, the jobs in flight whose worker has not made its
request yet and the jobs not yet sent add up to `n`; and every granted start that is not
the timer of a job in flight has been reached by the clock. -/
structure pacedFanOut.Inv (interval started : Int) (n : Nat) (st : pacedFanOut) : Prop where
  clock : started ≤ st.clock
  timers : st.timers.length = st.fan.inFlight.length
  granted : st.granted = grantedStarts interval none st.asked
  next : st.nextStart = slotAfter interval none st.asked
  asked : ∀ a ∈ st.asked, started ≤ a
  count : st.asked.length + st.timers.countP (fun t => t.isNone) + st.fan.jobs.length = n
  fired : ∀ g ∈ st.granted, g ≤ st.clock ∨ ∃ b, some (g, b) ∈ st.timers

end QuotaSyncService

/-! ## Key selector: `Candidates` -/

namespace KeyService

/-- Exchanging two entries of a group rearranges it. -/
theorem swap_perm (g : List scored) (a b : Nat) : (swap g a b).Perm g := by
  unfold swap
  cases ha : g[a]? with
  | none => simp
  | some x =>
    cases hb : g[b]? with
    | none => simp
    | some y =>
      simp only
      obtain ⟨ha1, ha2⟩ := List.getElem?_eq_some_iff.mp ha
      obtain ⟨hb1, hb2⟩ := List.getElem?_eq_some_iff.mp hb
      rw [List.perm_iff_count]
      intro c
      have hxm : x ∈ g := ha2 ▸ List.getElem_mem ha1
      have hym : y ∈ g := hb2 ▸ List.getElem_mem hb1
      have hcx : x = c → 0 < List.count c g := fun h => List.count_pos_iff.mpr (h ▸ hxm)
      have hcy : y = c → 0 < List.count c g := fun h => List.count_pos_iff.mpr (h ▸ hym)
      rw [List.count_set _ _ _ _ (by simpa using hb1), List.count_set _ _ _ _ ha1]
      by_cases hab : a = b
      · subst hab
        have hxy : x = y := by rw [← ha2, ← hb2]
        subst hxy
        simp only [List.getElem_set_self, ha2, beq_iff_eq]
        split <;> rename_i h
        · have := hcx h; omega
        · omega
      · rw [List.getElem_set_ne hab, ha2, hb2]
        simp only [beq_iff_eq]
        by_cases h1 : x = c
        · have hpos := hcx h1
          by_cases h2 : y = c <;> simp [h1, h2] <;> omega
        · by_cases h2 : y = c
          · have hpos := hcy h2
            simp [h1, h2]
          · simp [h1, h2]

/-- Whatever the generator draws, a shuffled group is a rearrangement of the group. -/
theorem Shuffle_perm (picks : List (Nat × Nat)) (group : List scored) :
    (Shuffle picks group).Perm group := by
  unfold Shuffle
  induction picks generalizing group with
  | nil => exact List.Perm.refl _
  | cons p ps ih => exact (ih (swap group p.1 p.2)).trans (swap_perm group p.1 p.2)

/-- Every key the tie loop emits is the key of an entry of the slice it was given. -/
theorem tieLoop_mem (rng : Nat → List (Nat × Nat)) (fuel i : Nat) (l : List scored)
    (k : APIKey) (hk : k ∈ tieLoop rng fuel i l) : ∃ s ∈ l, s.key = k := by
  induction fuel generalizing i l with
  | zero => simp [tieLoop] at hk
  | succ n ih =>
    cases l with
    | nil => simp [tieLoop] at hk
    | cons x rest =>
      simp only [tieLoop, List.mem_append, List.mem_map] at hk
      rcases hk with ⟨s, hs, rfl⟩ | hk
      · have hs2 := (Shuffle_perm _ _).mem_iff.mp hs
        rcases List.mem_cons.mp hs2 with rfl | hs3
        · exact ⟨s, List.mem_cons_self _ _, rfl⟩
        · exact ⟨s, List.mem_cons_of_mem _ ((List.takeWhile_sublist _).subset hs3), rfl⟩
      · obtain ⟨s, hs, rfl⟩ := ih _ _ hk
        exact ⟨s, List.mem_cons_of_mem _ ((List.dropWhile_sublist _).subset hs), rfl⟩

/-- With one unit of fuel per entry the tie loop runs to the end of the slice: the keys
it emits are a rearrangement of the keys of the slice, none dropped and none repeated. -/
theorem tieLoop_perm (rng : Nat → List (Nat × Nat)) (fuel i : Nat) (l : List scored)
    (hfuel : l.length ≤ fuel) : (tieLoop rng fuel i l).Perm (l.map (fun s => s.key)) := by
  induction fuel generalizing i l with
  | zero =>
    have : l = [] := List.length_eq_zero.mp (Nat.le_zero.mp hfuel)
    subst this
    simp [tieLoop]
  | succ n ih =>
    cases l with
    | nil => simp [tieLoop]
    | cons x rest =>
      simp only [tieLoop]
      have hlen : (rest.dropWhile (fun s => s.remaining == x.remaining)).length ≤ n := by
        have h1 := (List.dropWhile_sublist (fun s => s.remaining == x.remaining)
          (l := rest)).length_le
        simp only [List.length_cons] at hfuel
        omega
      have hsplit : (x :: rest).map (fun s => s.key) =
          (x :: rest.takeWhile (fun s => s.remaining == x.remaining)).map (fun s => s.key) ++
            (rest.dropWhile (fun s => s.remaining == x.remaining)).map (fun s => s.key) := by
        rw [← List.map_append, List.cons_append, List.takeWhile_append_dropWhile]
      rw [hsplit]
      exact ((Shuffle_perm _ _).map _).append (ih _ _ hlen)

/-- Every entry of a shuffled tie group carries the `remaining` of the group head. -/
theorem group_remaining (picks : List (Nat × Nat)) (x : scored) (rest : List scored)
    (s : scored)
    (hs : s ∈ Shuffle picks (x :: rest.takeWhile (fun t => t.remaining == x.remaining))) :
    s.remaining = x.remaining := by
  have hs2 := (Shuffle_perm _ _).mem_iff.mp hs
  rcases List.mem_cons.mp hs2 with rfl | hs3
  · rfl
  · have := List.mem_takeWhile_imp hs3
    simpa using this

/-- The tie loop keeps a slice that is sorted by descending `remaining` sorted, read
through any function `R` that recomputes `remaining` from the key. -/
theorem tieLoop_sorted (R : APIKey → Int) (rng : Nat → List (Nat × Nat)) (fuel i : Nat)
    (l : List scored) (hR : ∀ s ∈ l, s.remaining = R s.key)
    (hl : l.Pairwise (fun a b => a.remaining ≥ b.remaining)) :
    (tieLoop rng fuel i l).Pairwise (fun a b => R a ≥ R b) := by
  induction fuel generalizing i l with
  | zero => simp [tieLoop]
  | succ n ih =>
    cases l with
    | nil => simp [tieLoop]
    | cons x rest =>
      simp only [tieLoop]
      have hsub : (rest.dropWhile (fun t => t.remaining == x.remaining)).Sublist rest :=
        List.dropWhile_sublist _
      have hgroupmem : ∀ s ∈ Shuffle (rng i)
          (x :: rest.takeWhile (fun t => t.remaining == x.remaining)), s ∈ x :: rest := by
        intro s hs
        have hs2 := (Shuffle_perm _ _).mem_iff.mp hs
        rcases List.mem_cons.mp hs2 with rfl | hs3
        · exact List.mem_cons_self _ _
        · exact List.mem_cons_of_mem _ ((List.takeWhile_sublist _).subset hs3)
      rw [List.pairwise_append]
      refine ⟨?_, ?_, ?_⟩
      · rw [List.pairwise_map]
        refine List.pairwise_of_forall_mem_list ?_
        intro s hs t ht
        rw [← hR s (hgroupmem s hs), ← hR t (hgroupmem t ht), group_remaining _ _ _ _ hs,
          group_remaining _ _ _ _ ht]
      · exact ih _ _ (fun s hs => hR s (List.mem_cons_of_mem _ (hsub.subset hs)))
          ((List.pairwise_cons.mp hl).2.sublist hsub)
      · intro a ha b hb
        obtain ⟨s, hs, rfl⟩ := List.mem_map.mp ha
        obtain ⟨t, ht, rfl⟩ := tieLoop_mem _ _ _ _ _ hb
        have ht2 : t ∈ rest := hsub.subset ht
        rw [← hR s (hgroupmem s hs), ← hR t (List.mem_cons_of_mem _ ht2),
          group_remaining _ _ _ _ hs]
        exact (List.pairwise_cons.mp hl).1 t ht2

/-- A difference that fits into 64 bits is not changed by the wrap. -/
theorem wrapInt64_eq (x : Int) (h1 : -2 ^ 63 ≤ x) (h2 : x < 2 ^ 63) : wrapInt64 x = x := by
  unfold wrapInt64
  rw [Int.emod_eq_of_lt (by omega) (by omega)]
  omega

/-- Every candidate is a row of the table that passes the `Where` clause. -/
theorem Candidates_mem (srt : SliceSort) (rng : Nat → List (Nat × Nat)) (db : DB)
    (k : APIKey) (hk : k ∈ Candidates srt rng db) : k ∈ db.api_keys ∧ eligible k = true := by
  unfold Candidates at hk
  simp only at hk
  split at hk
  · simp at hk
  · obtain ⟨s, hs, rfl⟩ := tieLoop_mem _ _ _ _ _ hk
    have hs2 := (srt.perm _).mem_iff.mp hs
    obtain ⟨k, hk2, rfl⟩ := List.mem_map.mp hs2
    exact List.mem_filter.mp hk2

/-- C1: for every key store, every sort and every shuffle outcome, each key returned by
`Candidates` has `is_active = true`, `is_invalid = false` and `used_quota < total_quota`;
and when no row of the pool is such a key (in particular when the pool is empty) the
returned list is empty. -/
theorem Candidates_only_eligible (srt : SliceSort) (rng : Nat → List (Nat × Nat)) (db : DB) :
    (∀ k ∈ Candidates srt rng db,
      k.IsActive = true ∧ k.IsInvalid = false ∧ k.UsedQuota < k.TotalQuota) ∧
    ((∀ k ∈ db.api_keys, eligible k = false) → Candidates srt rng db = []) := by
  constructor
  · intro k hk
    have he := (Candidates_mem srt rng db k hk).2
    simp [eligible] at he
    exact ⟨he.1.1, he.1.2, he.2⟩
  · intro h
    unfold Candidates
    have : db.api_keys.filter eligible = [] := by
      rw [List.filter_eq_nil_iff]
      intro k hk
      simp [h k hk]
    simp [this]

/-- C1 at a concrete pool: `spentPool` holds an exhausted and a disabled row, so no row is
eligible and `Candidates` returns the empty list. -/
theorem Candidates_only_eligible_witness :
    (∀ k ∈ spentPool.api_keys, eligible k = false) ∧
    Candidates insertionSlice (fun _ => [(1, 0)]) spentPool = [] :=
  ⟨by decide, (Candidates_only_eligible insertionSlice (fun _ => [(1, 0)]) spentPool).2
    (by decide)⟩

/-- C2 (as amended): for every key store, every sort and every outcome of the tie shuffle,
the list returned by `Candidates` is sorted non-increasing by the remaining quota as the Go
`int` expression `TotalQuota - UsedQuota` holds it (wrapped to 64 bits); and for every store
whose eligible rows have a difference below `2^63` (as all rows with `used_quota ≥ 0` have)
it is sorted non-increasing by remaining quota: an earlier key never has a smaller
`TotalQuota - UsedQuota` than a later one. -/
theorem Candidates_sorted (srt : SliceSort) (rng : Nat → List (Nat × Nat)) (db : DB) :
    (Candidates srt rng db).Pairwise (fun a b =>
      wrapInt64 (a.TotalQuota - a.UsedQuota) ≥ wrapInt64 (b.TotalQuota - b.UsedQuota)) ∧
    ((∀ k ∈ db.api_keys, eligible k = true → k.TotalQuota - k.UsedQuota < 2 ^ 63) →
      (Candidates srt rng db).Pairwise (fun a b =>
        a.TotalQuota - a.UsedQuota ≥ b.TotalQuota - b.UsedQuota)) := by
  have hsorted : (Candidates srt rng db).Pairwise (fun a b =>
      wrapInt64 (a.TotalQuota - a.UsedQuota) ≥ wrapInt64 (b.TotalQuota - b.UsedQuota)) := by
    unfold Candidates
    simp only
    split
    · exact List.Pairwise.nil
    · apply tieLoop_sorted (fun k => wrapInt64 (k.TotalQuota - k.UsedQuota))
      · intro s hs
        have hs2 := (srt.perm _).mem_iff.mp hs
        obtain ⟨k, _, rfl⟩ := List.mem_map.mp hs2
        rfl
      · refine (srt.sorted _).imp ?_
        intro a b hab
        simpa [less] using hab
  refine ⟨hsorted, fun hfit => ?_⟩
  have hw : ∀ k ∈ Candidates srt rng db,
      wrapInt64 (k.TotalQuota - k.UsedQuota) = k.TotalQuota - k.UsedQuota := by
    intro k hk
    obtain ⟨hmem, he⟩ := Candidates_mem srt rng db k hk
    have hlt := hfit k hmem he
    have hpos : k.UsedQuota < k.TotalQuota := by
      simp [eligible] at he
      exact he.2
    exact wrapInt64_eq _ (by omega) hlt
  refine hsorted.imp_of_mem ?_
  intro a b ha hb hab
  rw [hw a ha, hw b hb] at hab
  exact hab

/-- C2 at a concrete pool: the eligible rows of `samplePool` have differences 950 and
400 (twice), far below `2^63`, and the candidates come out in non-increasing order. -/
theorem Candidates_sorted_witness :
    (∀ k ∈ samplePool.api_keys, eligible k = true → k.TotalQuota - k.UsedQuota < 2 ^ 63) ∧
    (Candidates insertionSlice (fun _ => [(1, 0)]) samplePool).Pairwise (fun a b =>
      a.TotalQuota - a.UsedQuota ≥ b.TotalQuota - b.UsedQuota) :=
  ⟨by decide, (Candidates_sorted insertionSlice (fun _ => [(1, 0)]) samplePool).2 (by decide)⟩

/-- C2 as stated fails when a difference does not fit 64 bits: in `wrapPool` the key 1 has
`2^63` left and the key 2 has 10 left, both are eligible, and `Candidates` returns the key 2
before the key 1, so the list is not sorted non-increasing by remaining quota. -/
theorem Candidates_sorted_wraps :
    (wrapPool.api_keys.map (fun k => (k.ID, k.TotalQuota - k.UsedQuota, eligible k))) =
      [(1, 2 ^ 63, true), (2, 10, true)] ∧
    (Candidates insertionSlice (fun _ => []) wrapPool).map (fun k => k.ID) = [2, 1] ∧
    ¬ (Candidates insertionSlice (fun _ => []) wrapPool).Pairwise (fun a b =>
      a.TotalQuota - a.UsedQuota ≥ b.TotalQuota - b.UsedQuota) := by
  refine ⟨by decide, by decide, by decide⟩

end KeyService

/-! ## Key store invariants -/

namespace KeyService

/-- The row `First` finds is a row of the table and has the identifier asked for. -/
theorem First_some (db : DB) (id : Nat) (key : APIKey) (h : db.First id = some key) :
    key ∈ db.api_keys ∧ key.ID = id := by
  unfold DB.First at h
  refine ⟨List.mem_of_find?_eq_some h, ?_⟩
  have := List.find?_some h
  simpa using this

/-- A `Where("id = ?")` update keeps the quota invariant when the new value of every
matching row satisfies it. -/
theorem QuotaInv_updateWhereID (db : DB) (id : Nat) (f : APIKey → APIKey) (h : QuotaInv db)
    (hf : ∀ k ∈ db.api_keys, k.ID = id → 0 ≤ (f k).UsedQuota ∧ (f k).UsedQuota ≤ (f k).TotalQuota) :
    QuotaInv (db.updateWhereID id f) := by
  intro k' hk'
  simp only [DB.updateWhereID, List.mem_map] at hk'
  obtain ⟨k, hk, rfl⟩ := hk'
  split
  · exact hf k hk (by assumption)
  · exact h k hk

/-- The key `Update` returns: its `used_quota` is never negative when the row it read
had a non-negative one, and the table written is the old one with that key saved. -/
theorem Update_ok (db db' : DB) (id : Nat) (upd : KeyUpdate) (key' : APIKey)
    (h : Update db id upd = .ok (db', key')) :
    ∃ key, db.First id = some key ∧ db' = db.Save key' ∧ key'.ID = key.ID ∧
      key'.IsInvalid = key.IsInvalid ∧
      (0 ≤ key.UsedQuota → 0 ≤ key'.UsedQuota) ∧
      (upd.ResetQuota = true → key'.UsedQuota = 0) ∧
      (0 ≤ key.TotalQuota → 0 ≤ key'.TotalQuota) ∧
      (upd.IsActive = none → key'.IsActive = key.IsActive) ∧
      (key.IsInvalid = true → upd.IsActive = some true → key'.IsActive = false) ∧
      (key.IsInvalid = true → key.IsActive = false → key'.IsActive = false) := by
  revert h
  unfold Update
  split
  · intro h
    exact absurd h (by simp)
  · rename_i key hf
    intro h
    lift_lets at h
    extract_lets k1 k2 k3 k4 k5 at h
    simp only [Except.ok.injEq, Prod.mk.injEq] at h
    obtain ⟨h1, h2⟩ := h
    have p1 : k1.ID = key.ID ∧ k1.TotalQuota = key.TotalQuota ∧ k1.UsedQuota = key.UsedQuota ∧
        k1.IsActive = key.IsActive ∧ k1.IsInvalid = key.IsInvalid := by
      cases ha : upd.Alias <;> simp [k1, ha]
    clear_value k1
    have p2 : k2.ID = k1.ID ∧ (0 ≤ k1.TotalQuota → 0 ≤ k2.TotalQuota) ∧
        k2.UsedQuota = k1.UsedQuota ∧ k2.IsActive = k1.IsActive ∧
        k2.IsInvalid = k1.IsInvalid := by
      cases ht : upd.TotalQuota with
      | none => simp [k2, ht]
      | some t =>
        by_cases h0 : t > 0
        · simp [k2, ht, h0]; intro; omega
        · simp [k2, ht, h0]
    clear_value k2
    have p3 : k3.ID = k2.ID ∧ k3.TotalQuota = k2.TotalQuota ∧
        (0 ≤ k2.UsedQuota → 0 ≤ k3.UsedQuota) ∧ k3.IsActive = k2.IsActive ∧
        k3.IsInvalid = k2.IsInvalid := by
      cases hu : upd.UsedQuota with
      | none => simp [k3, hu]
      | some u =>
        by_cases h0 : u ≥ 0
        · simp [k3, hu, h0]
        · simp [k3, hu, h0]
    clear_value k3
    have p4 : k4.ID = k3.ID ∧ k4.TotalQuota = k3.TotalQuota ∧ k4.UsedQuota = k3.UsedQuota ∧
        k4.IsInvalid = k3.IsInvalid ∧
        (upd.IsActive = none → k4.IsActive = k3.IsActive) ∧
        (k3.IsInvalid = true → upd.IsActive = some true → k4.IsActive = false) ∧
        (k3.IsInvalid = true → k3.IsActive = false → k4.IsActive = false) := by
      cases hi : upd.IsActive with
      | none => simp [k4, hi]
      | some a =>
        cases hinv : k3.IsInvalid <;> cases a <;> simp [k4, hi, hinv]
    clear_value k4
    have p5 : k5.ID = k4.ID ∧ k5.TotalQuota = k4.TotalQuota ∧
        (0 ≤ k4.UsedQuota → 0 ≤ k5.UsedQuota) ∧ (upd.ResetQuota = true → k5.UsedQuota = 0) ∧
        k5.IsActive = k4.IsActive ∧ k5.IsInvalid = k4.IsInvalid := by
      cases hr : upd.ResetQuota <;> simp [k5, hr]
    clear_value k5
    subst h2
    obtain ⟨a1, a2, a3, a4, a5⟩ := p1
    obtain ⟨b1, b2, b3, b4, b5⟩ := p2
    obtain ⟨c1, c2, c3, c4, c5⟩ := p3
    obtain ⟨d1, d2, d3, d4, d5, d6, d7⟩ := p4
    obtain ⟨e1, e2, e3, e4, e5, e6⟩ := p5
    refine ⟨key, hf, h1.symm, ?_, ?_, ?_, e4, ?_, ?_, ?_, ?_⟩
    · rw [e1, d1, c1, b1, a1]
    · rw [e6, d4, c5, b5, a5]
    · intro h; exact e3 (d3 ▸ c3 (b3 ▸ a3 ▸ h))
    · intro h; rw [e2, d2, c2]; exact b2 (a2 ▸ h)
    · intro h; rw [e5, d5 h, c4, b4, a4]
    · intro h h'; rw [e5]; exact d6 (by rw [c5, b5, a5]; exact h) h'
    · intro h h'; rw [e5]; exact d7 (by rw [c5, b5, a5]; exact h) (by rw [c4, b4, a4]; exact h')

/-- The table `SetUsage` writes keeps the quota invariant when `used` is not negative
and either a positive `total` comes with it or `used` does not exceed the stored total. -/
theorem SetUsage_QuotaInv (db : DB) (id : Nat) (used : Int) (total : Option Int)
    (h : QuotaInv db) (hused : 0 ≤ used)
    (hcl : (∃ t, total = some t ∧ 0 < t) ∨ ∀ k ∈ db.api_keys, k.ID = id → used ≤ k.TotalQuota) :
    QuotaInv (SetUsage db id used total) := by
  unfold SetUsage
  cases total with
  | none =>
    rcases hcl with ⟨t, ht, _⟩ | hcl
    · simp at ht
    · exact QuotaInv_updateWhereID _ _ _ h (fun k hk hid => ⟨hused, hcl k hk hid⟩)
  | some t =>
    simp only
    split
    · rename_i ht
      refine QuotaInv_updateWhereID _ _ _ h (fun k _ _ => ?_)
      simp only
      split <;> omega
    · rename_i ht
      rcases hcl with ⟨t', ht', hpos⟩ | hcl
      · simp only [Option.some.injEq] at ht'
        omega
      · exact QuotaInv_updateWhereID _ _ _ h (fun k hk hid => ⟨hused, hcl k hk hid⟩)

end KeyService

namespace QuotaSyncService

open KeyService

/-- C3 (as amended): starting from a store in which every key has
`0 ≤ used_quota ≤ total_quota`, the store still has that property after `Create`,
`MarkInactive`, `MarkInvalid`, `MarkExhausted`, `IncrementUsed` and `ResetAllUsage` with any
arguments; after a successful `Update` whose patch sets `reset_quota` or whose returned key
has `used_quota ≤ total_quota`; after `SetUsage` with `used ≥ 0` and either a positive
`total` or `used` not above the stored total; and after `syncKey` whenever a successful
upstream answer has `usage ≥ 0` and either the key's `total_quota` or the reported limit is
positive or `usage` is not above the stored total. -/
theorem quota_invariant_preserved (db : DB) (h : QuotaInv db) :
    (∀ key aliasName totalQuota, QuotaInv (Create db key aliasName totalQuota).1) ∧
    (∀ id, QuotaInv (MarkInactive db id)) ∧
    (∀ id, QuotaInv (MarkInvalid db id)) ∧
    (∀ id, QuotaInv (MarkExhausted db id)) ∧
    (∀ id now, QuotaInv (IncrementUsed db id now)) ∧
    (∀ allowGlobalUpdate, QuotaInv (ResetAllUsage allowGlobalUpdate db)) ∧
    (∀ id upd db' key', Update db id upd = .ok (db', key') →
      (upd.ResetQuota = true ∨ key'.UsedQuota ≤ key'.TotalQuota) → QuotaInv db') ∧
    (∀ id used total, 0 ≤ used →
      ((∃ t, total = some t ∧ 0 < t) ∨ ∀ k ∈ db.api_keys, k.ID = id → used ≤ k.TotalQuota) →
      QuotaInv (SetUsage db id used total)) ∧
    (∀ GetUsage key,
      (∀ usage limit, GetUsage key.Key = .ok (usage, limit) →
        0 ≤ usage ∧ (0 < key.TotalQuota ∨ (∃ l, limit = some l ∧ 0 < l) ∨
          ∀ k ∈ db.api_keys, k.ID = key.ID → usage ≤ k.TotalQuota)) →
      QuotaInv (syncKey GetUsage db key).1) := by
  have hInactive : ∀ id, QuotaInv (MarkInactive db id) := fun id =>
    QuotaInv_updateWhereID _ _ _ h (fun k hk _ => h k hk)
  have hInvalid : ∀ id, QuotaInv (MarkInvalid db id) := fun id =>
    QuotaInv_updateWhereID _ _ _ h (fun k hk _ => h k hk)
  have hExhausted : ∀ id, QuotaInv (MarkExhausted db id) := fun id =>
    QuotaInv_updateWhereID _ _ _ h (fun k hk _ => by
      have := h k hk
      exact ⟨by simp only; omega, le_refl _⟩)
  refine ⟨?_, hInactive, hInvalid, hExhausted, ?_, ?_, ?_, ?_, ?_⟩
  · intro key aliasName totalQuota k hk
    simp only [Create, List.mem_append, List.mem_singleton] at hk
    rcases hk with hk | rfl
    · exact h k hk
    · simp only
      split <;> omega
  · intro id now
    refine QuotaInv_updateWhereID _ _ _ h (fun k hk _ => ?_)
    have := h k hk
    simp only
    split <;> omega
  · intro allowGlobalUpdate
    unfold ResetAllUsage
    split
    · intro k' hk'
      simp only [List.mem_map] at hk'
      obtain ⟨k, hk, rfl⟩ := hk'
      have := h k hk
      simp only
      omega
    · exact h
  · intro id upd db' key' hupd hcond
    obtain ⟨key, hfirst, hsave, _, _, hused, hreset, htotal, _⟩ := Update_ok _ _ _ _ _ hupd
    obtain ⟨hmem, _⟩ := First_some _ _ _ hfirst
    have hk := h key hmem
    subst hsave
    refine QuotaInv_updateWhereID _ _ _ h (fun k _ _ => ?_)
    have h0 := hused hk.1
    have ht := htotal (by omega)
    rcases hcond with hr | hle
    · have := hreset hr
      omega
    · omega
  · intro id used total hused hcl
    exact SetUsage_QuotaInv db id used total h hused hcl
  · intro GetUsage key hresp
    unfold syncKey
    cases hg : GetUsage key.Key with
    | error err =>
      cases err with
      | status code msg =>
        simp only
        split
        · exact hInvalid _
        · split
          · exact hExhausted _
          · exact h
      | other msg => exact h
    | ok r =>
      obtain ⟨usage, limit⟩ := r
      obtain ⟨hu, hcases⟩ := hresp usage limit hg
      simp only
      apply SetUsage_QuotaInv _ _ _ _ h
      · split <;> omega
      · have hkey : 0 < key.TotalQuota → ∃ t, some key.TotalQuota = some t ∧ 0 < t :=
          fun hp => ⟨_, rfl, hp⟩
        have hstored : ¬ 0 < key.TotalQuota → ¬ (∃ l, limit = some l ∧ 0 < l) →
            ∀ k ∈ db.api_keys, k.ID = key.ID → usage ≤ k.TotalQuota := by
          intro h1 h2
          rcases hcases with hc | hc | hc
          · exact absurd hc h1
          · exact absurd hc h2
          · exact hc
        cases limit with
        | none =>
          simp only
          by_cases hp : 0 < key.TotalQuota
          · exact Or.inl (hkey hp)
          · refine Or.inr (fun k hk hid => ?_)
            have := hstored hp (by simp) k hk hid
            split <;> omega
        | some l =>
          simp only
          by_cases hl : l > 0
          · simp only [hl, if_true]
            exact Or.inl ⟨_, rfl, hl⟩
          · simp only [hl, if_false]
            by_cases hp : 0 < key.TotalQuota
            · exact Or.inl (hkey hp)
            · refine Or.inr (fun k hk hid => ?_)
              have := hstored hp (by simp; omega) k hk hid
              split <;> omega

/-- C3 at a concrete store: `testDB` satisfies the invariant, and so do the stores after
a debit, after marking the key exhausted, after `SetUsage 1 2000 (some 1500)` and after a
reconciliation that reports usage 700 of limit 500. -/
theorem quota_invariant_preserved_witness :
    QuotaInv testDB ∧ QuotaInv (IncrementUsed testDB 1 5) ∧ QuotaInv (MarkExhausted testDB 1) ∧
    QuotaInv (SetUsage testDB 1 2000 (some 1500)) ∧
    QuotaInv (syncKey (fun _ => .ok (700, some 500)) testDB (sampleKey 1 1000 7 true false)).1 :=
  have h0 : QuotaInv testDB := by decide
  have h := quota_invariant_preserved testDB h0
  ⟨h0, h.2.2.2.2.1 1 5, h.2.2.2.1 1,
    h.2.2.2.2.2.2.2.1 1 2000 (some 1500) (by decide) (Or.inl ⟨1500, rfl, by decide⟩),
    h.2.2.2.2.2.2.2.2 (fun _ => .ok (700, some 500)) (sampleKey 1 1000 7 true false)
      (fun usage limit hresp => by
        simp only [Except.ok.injEq, Prod.mk.injEq] at hresp
        obtain ⟨rfl, rfl⟩ := hresp
        exact ⟨by decide, Or.inl (by decide)⟩)⟩

/-- C3 as stated fails: `testDB` (one key, `used_quota = 7`, `total_quota = 1000`)
satisfies the invariant, yet it is broken by `SetUsage 1 2000 nil` (stores
`used_quota = 2000`), by `Update` with the patch `used_quota = 2000`, by `Update` with the
patch `total_quota = 5`, and by `syncKey` on an upstream answer with `usage = -1`. -/
theorem quota_invariant_broken :
    QuotaInv testDB ∧
    ¬ QuotaInv (SetUsage testDB 1 2000 none) ∧
    ¬ QuotaInv (KeyOp.apply testDB (.update 1 { KeyUpdate.none with UsedQuota := some 2000 })) ∧
    ¬ QuotaInv (KeyOp.apply testDB (.update 1 { KeyUpdate.none with TotalQuota := some 5 })) ∧
    ¬ QuotaInv (syncKey (fun _ => .ok (-1, none)) testDB (sampleKey 1 1000 7 true false)).1 := by
  refine ⟨by decide, by decide, by decide, by decide, by decide⟩

end QuotaSyncService

namespace KeyService

/-- A `Where("id = ?")` update keeps the flag invariant when the new value of every
matching row satisfies it. -/
theorem InvalidInactive_updateWhereID (db : DB) (id : Nat) (f : APIKey → APIKey)
    (h : InvalidInactive db)
    (hf : ∀ k ∈ db.api_keys, k.ID = id → (f k).IsInvalid = true → (f k).IsActive = false) :
    InvalidInactive (db.updateWhereID id f) := by
  intro k' hk'
  simp only [DB.updateWhereID, List.mem_map] at hk'
  obtain ⟨k, hk, rfl⟩ := hk'
  split
  · exact hf k hk (by assumption)
  · exact h k hk

/-- Every table-writing operation of the key service keeps the flag invariant. -/
theorem KeyOp.apply_InvalidInactive (db : DB) (op : KeyOp) (h : InvalidInactive db) :
    InvalidInactive (KeyOp.apply db op) := by
  cases op with
  | create key aliasName totalQuota =>
    intro k hk
    simp only [KeyOp.apply, Create, List.mem_append, List.mem_singleton] at hk
    rcases hk with hk | rfl
    · exact h k hk
    · simp
  | update id upd =>
    simp only [KeyOp.apply]
    split
    · rename_i db' key' hupd
      obtain ⟨key, hfirst, hsave, _, hinv, _, _, _, _, _, hkeep⟩ := Update_ok _ _ _ _ _ hupd
      obtain ⟨hmem, _⟩ := First_some _ _ _ hfirst
      subst hsave
      refine InvalidInactive_updateWhereID _ _ _ h (fun k _ _ hi => ?_)
      rw [hinv] at hi
      exact hkeep hi (h key hmem hi)
    · exact h
  | markInactive id =>
    exact InvalidInactive_updateWhereID _ _ _ h (fun k _ _ _ => rfl)
  | markInvalid id =>
    exact InvalidInactive_updateWhereID _ _ _ h (fun k _ _ _ => rfl)
  | markExhausted id =>
    exact InvalidInactive_updateWhereID _ _ _ h (fun k hk _ hi => h k hk hi)
  | incrementUsed id now =>
    exact InvalidInactive_updateWhereID _ _ _ h (fun k hk _ hi => h k hk hi)
  | resetAllUsage allowGlobalUpdate =>
    simp only [KeyOp.apply, ResetAllUsage]
    split
    · intro k' hk'
      simp only [List.mem_map] at hk'
      obtain ⟨k, hk, rfl⟩ := hk'
      exact h k hk
    · exact h
  | setUsage id used total =>
    simp only [KeyOp.apply, SetUsage]
    split
    · split
      · exact InvalidInactive_updateWhereID _ _ _ h (fun k hk _ hi => h k hk hi)
      · exact InvalidInactive_updateWhereID _ _ _ h (fun k hk _ hi => h k hk hi)
    · exact InvalidInactive_updateWhereID _ _ _ h (fun k hk _ hi => h k hk hi)

/-- The flag invariant holds after any sequence of operations started from a store that
has it. -/
theorem foldl_InvalidInactive (ops : List KeyOp) (db : DB) (h : InvalidInactive db) :
    InvalidInactive (ops.foldl KeyOp.apply db) := by
  induction ops generalizing db with
  | nil => exact h
  | cons op ops ih => exact ih _ (KeyOp.apply_InvalidInactive db op h)

/-- C4: in every store reached from the empty store by a sequence of `Create`, `Update`,
`MarkInactive`, `MarkInvalid`, `MarkExhausted`, `IncrementUsed`, `ResetAllUsage` and
`SetUsage` calls, every key with `is_invalid = true` has `is_active = false`; and in any
store, `Update` with `is_active = true` on a key that is invalid succeeds, returns a key
with `is_active = false`, and every stored row with that identifier has
`is_active = false`. -/
theorem invalid_implies_inactive (ops : List KeyOp) :
    InvalidInactive (runOps ops) ∧
    ∀ (db : DB) (id : Nat) (upd : KeyUpdate) (key : APIKey),
      db.First id = some key → key.IsInvalid = true → upd.IsActive = some true →
      ∃ db' key', Update db id upd = .ok (db', key') ∧ key'.IsActive = false ∧
        key'.IsInvalid = true ∧ ∀ k ∈ db'.api_keys, k.ID = id → k.IsActive = false := by
  refine ⟨foldl_InvalidInactive ops DB.empty (by decide), ?_⟩
  intro db id upd key hfirst hinv hact
  cases hupd : Update db id upd with
  | error e =>
    unfold Update at hupd
    rw [hfirst] at hupd
    simp at hupd
  | ok r =>
    obtain ⟨db', key'⟩ := r
    obtain ⟨key2, hfirst2, hsave, hid, hinv2, _, _, _, _, hclamp, _⟩ := Update_ok _ _ _ _ _ hupd
    rw [hfirst] at hfirst2
    cases hfirst2
    have hact' : key'.IsActive = false := hclamp hinv hact
    refine ⟨db', key', rfl, hact', by rw [hinv2, hinv], ?_⟩
    intro k hk hkid
    subst hsave
    simp only [DB.Save, DB.updateWhereID, List.mem_map] at hk
    obtain ⟨k0, _, rfl⟩ := hk
    split at hkid
    · rename_i h1
      simp only [h1, if_true]
      exact hact'
    · rename_i h1
      exfalso
      apply h1
      rw [hid, (First_some _ _ _ hfirst).2]
      exact hkid

/-- C4 at a concrete store: key 1 is created, marked invalid, and then patched with
`is_active = true`; the invariant holds and the stored flag stays `false`. -/
theorem invalid_implies_inactive_witness :
    InvalidInactive (runOps [.create "tvly-a" "a" 1000, .markInvalid 1,
      .update 1 { KeyUpdate.none with IsActive := some true }]) ∧
    ∃ db' key', Update (runOps [.create "tvly-a" "a" 1000, .markInvalid 1]) 1
        { KeyUpdate.none with IsActive := some true } = .ok (db', key') ∧
      key'.IsActive = false ∧ key'.IsInvalid = true ∧
      ∀ k ∈ db'.api_keys, k.ID = 1 → k.IsActive = false :=
  ⟨(invalid_implies_inactive _).1,
    (invalid_implies_inactive []).2 (runOps [.create "tvly-a" "a" 1000, .markInvalid 1]) 1
      { KeyUpdate.none with IsActive := some true }
      { ID := 1, Key := "tvly-a", Alias := "a", TotalQuota := 1000, UsedQuota := 0,
        IsActive := false, IsInvalid := true, LastUsedAt := none }
      (by decide) rfl rfl⟩

/-- C5: for every store and every identifier, `IncrementUsed` leaves the counter of the
table alone and changes the table row by row: a row with that identifier gets
`used_quota = min(used_quota + 1, total_quota)` and `last_used_at = now` and keeps its
identifier, secret, alias, `total_quota`, `is_active` and `is_invalid`; every other row is
unchanged. -/
theorem IncrementUsed_saturating (db : DB) (id : Nat) (now : Nat) :
    (IncrementUsed db id now).nextID = db.nextID ∧
    List.Forall₂ (fun k k' =>
        if k.ID = id then
          k'.UsedQuota = min (k.UsedQuota + 1) k.TotalQuota ∧ k'.LastUsedAt = some now ∧
          k'.TotalQuota = k.TotalQuota ∧ k'.IsActive = k.IsActive ∧
          k'.IsInvalid = k.IsInvalid ∧ k'.ID = k.ID ∧ k'.Key = k.Key ∧ k'.Alias = k.Alias
        else k' = k)
      db.api_keys (IncrementUsed db id now).api_keys := by
  refine ⟨rfl, ?_⟩
  simp only [IncrementUsed, DB.updateWhereID]
  rw [List.forall₂_map_right_iff, List.forall₂_same]
  intro k _
  split
  · refine ⟨?_, rfl, rfl, rfl, rfl, rfl, rfl, rfl⟩
    simp only
    split
    · rw [min_eq_right (by omega)]
    · rw [min_eq_left (by omega)]
  · rfl

end KeyService

/-! ## Quota reconciler: `syncKey` and `SyncOne` -/

namespace QuotaSyncService

open KeyService

/-- The row at position `i` after a `Where("id = ?")` update. -/
theorem updateWhereID_getElem? (db : DB) (id : Nat) (f : APIKey → APIKey) (i : Nat) :
    (db.updateWhereID id f).api_keys[i]? =
      (db.api_keys[i]?).map (fun k => if k.ID = id then f k else k) := by
  simp [DB.updateWhereID]

/-- What a successful `syncKey` stores in the row of its key, in terms of the total `T`
it settles on (the positive limit, else the total of the key). -/
theorem syncKey_ok_row (GetUsage : String → Except UpstreamError (Int × Option Int))
    (db : DB) (key : APIKey) (usage : Int) (limit : Option Int) (i : Nat)
    (hresp : GetUsage key.Key = .ok (usage, limit)) (hrow : db.api_keys[i]? = some key) :
    ∃ r, (syncKey GetUsage db key).1.api_keys[i]? = some r ∧
      r.TotalQuota = ((limit.filter (fun l => decide (0 < l))).getD key.TotalQuota) ∧
      r.UsedQuota =
        (if 0 < (limit.filter (fun l => decide (0 < l))).getD key.TotalQuota then
          min usage ((limit.filter (fun l => decide (0 < l))).getD key.TotalQuota)
        else usage) := by
  unfold syncKey
  rw [hresp]
  simp only
  clear hresp
  have hT : (match limit with
      | some l => if l > 0 then l else key.TotalQuota
      | none => key.TotalQuota) =
      (limit.filter (fun l => decide (0 < l))).getD key.TotalQuota := by
    cases limit with
    | none => rfl
    | some l =>
      by_cases hl : 0 < l
      · simp [Option.filter, hl]
      · simp [Option.filter, hl]
  rw [hT]
  have hTk : ¬ 0 < (limit.filter (fun l => decide (0 < l))).getD key.TotalQuota →
      key.TotalQuota = (limit.filter (fun l => decide (0 < l))).getD key.TotalQuota := by
    cases limit with
    | none => intro _; rfl
    | some l =>
      by_cases hl : 0 < l
      · simp [Option.filter, hl]
      · simp [Option.filter, hl]
  clear hT
  generalize (limit.filter (fun l => decide (0 < l))).getD key.TotalQuota = T at hTk ⊢
  unfold SetUsage
  simp only
  by_cases hpos : 0 < T
  · simp only [gt_iff_lt, hpos, true_and, if_true, updateWhereID_getElem?, hrow, Option.map_some']
    refine ⟨_, rfl, ?_, ?_⟩
    · simp
    · simp only [if_true]
      by_cases hgt : T < usage
      · simp [hgt, min_eq_right (le_of_lt hgt)]
      · simp [hgt, min_eq_left (not_lt.mp hgt)]
  · simp only [gt_iff_lt, hpos, false_and, if_false, updateWhereID_getElem?, hrow,
      Option.map_some']
    refine ⟨_, rfl, ?_, ?_⟩
    · simpa using hTk hpos
    · simp

/-- C6 (as amended): for every key stored at some position of the table and every
successful upstream answer `(usage, limit)`, `syncKey` reports status `ok` and writes back
into that row `total_quota = T` and `used_quota = min(usage, T)`, where `T` is the limit
when the limit is positive and the key's `total_quota` otherwise; only when that `T` is
not positive the row keeps its `total_quota` and gets `used_quota = usage`. -/
theorem syncKey_writes_back (GetUsage : String → Except UpstreamError (Int × Option Int))
    (db : DB) (key : APIKey) (usage : Int) (limit : Option Int) (i : Nat)
    (hresp : GetUsage key.Key = .ok (usage, limit)) (hrow : db.api_keys[i]? = some key) :
    ∃ r, (syncKey GetUsage db key).1.api_keys[i]? = some r ∧
      (syncKey GetUsage db key).2.Status = "ok" ∧
      (∀ l, limit = some l → 0 < l → r.TotalQuota = l ∧ r.UsedQuota = min usage l) ∧
      ((∀ l, limit = some l → l ≤ 0) → 0 < key.TotalQuota →
        r.TotalQuota = key.TotalQuota ∧ r.UsedQuota = min usage key.TotalQuota) ∧
      ((∀ l, limit = some l → l ≤ 0) → key.TotalQuota ≤ 0 →
        r.TotalQuota = key.TotalQuota ∧ r.UsedQuota = usage) := by
  obtain ⟨r, hr, htot, hused⟩ := syncKey_ok_row GetUsage db key usage limit i hresp hrow
  refine ⟨r, hr, ?_, ?_, ?_, ?_⟩
  · unfold syncKey
    rw [hresp]
  · intro l hl hpos
    subst hl
    simp only [Option.filter, hpos, decide_True, if_true, Option.getD_some] at htot hused
    exact ⟨htot, hused⟩
  · intro hno hpos
    have hT : (limit.filter (fun l => decide (0 < l))).getD key.TotalQuota = key.TotalQuota := by
      cases limit with
      | none => rfl
      | some l =>
        have := hno l rfl
        simp [Option.filter, not_lt.mpr this]
    rw [hT] at htot hused
    simp only [hpos, if_true] at hused
    exact ⟨htot, hused⟩
  · intro hno hnp
    have hT : (limit.filter (fun l => decide (0 < l))).getD key.TotalQuota = key.TotalQuota := by
      cases limit with
      | none => rfl
      | some l =>
        have := hno l rfl
        simp [Option.filter, not_lt.mpr this]
    rw [hT] at htot hused
    simp only [not_lt.mpr hnp, if_false] at hused
    exact ⟨htot, hused⟩

/-- C6 at the store of the tests: upstream reports usage 700 of limit 500 for the key
with total 1000; the row gets `total_quota = 500` and `used_quota = min(700, 500)`. -/
theorem syncKey_writes_back_witness :
    ∃ r, (syncKey (fun _ => .ok (700, some 500)) testDB
        (sampleKey 1 1000 7 true false)).1.api_keys[0]? = some r ∧
      r.TotalQuota = 500 ∧ r.UsedQuota = min 700 500 := by
  obtain ⟨r, hr, _, h, _⟩ := syncKey_writes_back (fun _ => .ok (700, some 500)) testDB
    (sampleKey 1 1000 7 true false) 700 (some 500) 0 rfl rfl
  exact ⟨r, hr, h 500 rfl (by decide)⟩

/-- C6 as stated fails: for the key with `total_quota = 1000`, an upstream answer
`usage = 700`, `limit = 500` makes `syncKey` store `used_quota = 500`, not
`min(usage, max(limit, total_quota)) = 700`. -/
theorem syncKey_not_min_max :
    ∃ r, (syncKey (fun _ => .ok (700, some 500)) testDB
        (sampleKey 1 1000 7 true false)).1.api_keys[0]? = some r ∧
      r.UsedQuota = 500 ∧ r.TotalQuota = 500 ∧
      r.UsedQuota ≠ min 700 (max 500 (sampleKey 1 1000 7 true false).TotalQuota) :=
  ⟨sampleKey 1 500 500 true false, by decide, by decide, by decide, by decide⟩

/-- C7 (as amended): for every key stored at some position of the table and every
successful upstream answer `(usage, limit)` such that the key's `total_quota` is positive,
or the answer carries a positive limit, or `usage` does not exceed the key's
`total_quota`, the row has `used_quota ≤ total_quota` after `syncKey`. -/
theorem syncKey_used_le_total (GetUsage : String → Except UpstreamError (Int × Option Int))
    (db : DB) (key : APIKey) (usage : Int) (limit : Option Int) (i : Nat)
    (hresp : GetUsage key.Key = .ok (usage, limit)) (hrow : db.api_keys[i]? = some key)
    (hknown : 0 < key.TotalQuota ∨ (∃ l, limit = some l ∧ 0 < l) ∨ usage ≤ key.TotalQuota) :
    ∃ r, (syncKey GetUsage db key).1.api_keys[i]? = some r ∧ r.UsedQuota ≤ r.TotalQuota := by
  obtain ⟨r, hr, htot, hused⟩ := syncKey_ok_row GetUsage db key usage limit i hresp hrow
  refine ⟨r, hr, ?_⟩
  rw [htot, hused]
  split
  · exact min_le_right _ _
  · rename_i hnp
    have hT : (limit.filter (fun l => decide (0 < l))).getD key.TotalQuota = key.TotalQuota ∧
        ¬ ∃ l, limit = some l ∧ 0 < l := by
      cases limit with
      | none => exact ⟨rfl, by simp⟩
      | some l =>
        by_cases hl : 0 < l
        · simp [Option.filter, hl] at hnp
        · simp [Option.filter, hl]
    rw [hT.1] at hnp ⊢
    rcases hknown with h | h | h
    · exact absurd h hnp
    · exact absurd h hT.2
    · exact h

/-- C7 at the store of the tests: the key has `total_quota = 1000`, upstream reports
usage 5000 without a limit, and the row ends with `used_quota ≤ total_quota`. -/
theorem syncKey_used_le_total_witness :
    (0 : Int) < (sampleKey 1 1000 7 true false).TotalQuota ∧
    ∃ r, (syncKey (fun _ => .ok (5000, none)) testDB
        (sampleKey 1 1000 7 true false)).1.api_keys[0]? = some r ∧
      r.UsedQuota ≤ r.TotalQuota :=
  ⟨by decide, syncKey_used_le_total (fun _ => .ok (5000, none)) testDB
    (sampleKey 1 1000 7 true false) 5000 none 0 rfl rfl (Or.inl (by decide))⟩

/-- C7 as stated fails at `total_quota = 0`: for a key with `total_quota = 0` and an
upstream answer `usage = 5` without a limit, `syncKey` stores `used_quota = 5` and leaves
`total_quota = 0`. -/
theorem syncKey_zero_total_exceeds :
    (0 : Int) ≤ (sampleKey 1 0 0 true false).TotalQuota ∧
    ∃ r, (syncKey (fun _ => .ok (5, none)) { api_keys := [sampleKey 1 0 0 true false], nextID := 2 }
        (sampleKey 1 0 0 true false)).1.api_keys[0]? = some r ∧
      r.UsedQuota = 5 ∧ r.TotalQuota = 0 ∧ ¬ r.UsedQuota ≤ r.TotalQuota :=
  ⟨by decide, sampleKey 1 0 5 true false, by decide, by decide, by decide, by decide⟩

/-- `Get` returns the row `First` finds. -/
theorem Get_of_First (db : DB) (id : Nat) (key : APIKey) (h : db.First id = some key) :
    Get db id = .ok key := by
  unfold Get
  rw [h]

/-- C8: for every key and every upstream failure that is not an `UpstreamStatusError`
(a transport error) or carries a status other than 401, 432 and 433 (for instance 429),
`syncKey` returns an item with status `error` and leaves the store as it was; and
`SyncOne` on the identifier of that key returns a non-nil error, the same item status and
the unchanged store. -/
theorem sync_other_failure_keeps_store
    (GetUsage : String → Except UpstreamError (Int × Option Int)) (db : DB) (key : APIKey)
    (err : UpstreamError) (hresp : GetUsage key.Key = .error err)
    (hcode : ∀ code msg, err = .status code msg → code ≠ 401 ∧ code ≠ 432 ∧ code ≠ 433) :
    (syncKey GetUsage db key).2.Status = "error" ∧ (syncKey GetUsage db key).1 = db ∧
    ∀ id, db.First id = some key →
      (SyncOne GetUsage db id).1 = db ∧ (SyncOne GetUsage db id).2.2 = some err.Error ∧
      (SyncOne GetUsage db id).2.1.Status = "error" := by
  have hsync : syncKey GetUsage db key =
      (db, { QuotaSyncItemResult.zero with
        ID := key.ID, Alias := key.Alias, Status := "error", Error := err.Error }) := by
    unfold syncKey
    rw [hresp]
    cases err with
    | other msg => rfl
    | status code msg =>
      obtain ⟨h1, h2, h3⟩ := hcode code msg rfl
      simp [h1, h2, h3]
  refine ⟨by rw [hsync], by rw [hsync], ?_⟩
  intro id hfirst
  unfold SyncOne
  rw [Get_of_First db id key hfirst]
  simp only [hsync]
  refine ⟨?_, ?_, ?_⟩ <;> simp

/-- C8 at the store of the tests: upstream answers 429, the store of `SyncOne 1` is
`testDB` again and an error comes back. -/
theorem sync_other_failure_keeps_store_witness :
    (SyncOne (fun _ => .error (.status 429 "rate_limit")) testDB 1).1 = testDB ∧
    (SyncOne (fun _ => .error (.status 429 "rate_limit")) testDB 1).2.2 = some "rate_limit" ∧
    (SyncOne (fun _ => .error (.status 429 "rate_limit")) testDB 1).2.1.Status = "error" :=
  (sync_other_failure_keeps_store (fun _ => .error (.status 429 "rate_limit")) testDB
    (sampleKey 1 1000 7 true false) (.status 429 "rate_limit") rfl
    (fun code msg h => by
      simp only [UpstreamError.status.injEq] at h
      obtain ⟨rfl, _⟩ := h
      decide)).2.2 1 (by decide)

/-- C9: for every stored key, when the upstream usage call fails with status 432 or
433, `SyncOne` returns a non-nil error and the table changes row by row as follows: a row
with the identifier of the key ends with `used_quota` equal to its `total_quota` and keeps
its `total_quota`, `is_active` and `is_invalid`; every other row is unchanged. -/
theorem SyncOne_exhausted_status
    (GetUsage : String → Except UpstreamError (Int × Option Int)) (db : DB) (id : Nat)
    (key : APIKey) (code : Int) (msg : String) (hfirst : db.First id = some key)
    (hresp : GetUsage key.Key = .error (.status code msg)) (hcode : code = 432 ∨ code = 433) :
    (SyncOne GetUsage db id).2.2 = some msg ∧
    (SyncOne GetUsage db id).1.nextID = db.nextID ∧
    List.Forall₂ (fun k k' =>
        if k.ID = id then
          k'.UsedQuota = k'.TotalQuota ∧ k'.TotalQuota = k.TotalQuota ∧
          k'.IsActive = k.IsActive ∧ k'.IsInvalid = k.IsInvalid ∧ k'.ID = k.ID
        else k' = k)
      db.api_keys (SyncOne GetUsage db id).1.api_keys := by
  have hid : key.ID = id := (First_some db id key hfirst).2
  have hne : code ≠ 401 := by omega
  have hsync : syncKey GetUsage db key =
      (MarkExhausted db id, { QuotaSyncItemResult.zero with
        ID := key.ID, Alias := key.Alias, Status := "error", Error := msg }) := by
    unfold syncKey
    rw [hresp]
    simp [hne, hcode, hid, UpstreamError.Error]
  unfold SyncOne
  rw [Get_of_First db id key hfirst]
  simp only [hsync]
  refine ⟨by simp, by simp [MarkExhausted, DB.updateWhereID], ?_⟩
  have hdb : (if ("error" != "ok") = true then
      (MarkExhausted db id, ({ QuotaSyncItemResult.zero with
        ID := key.ID, Alias := key.Alias, Status := "error", Error := msg } :
          QuotaSyncItemResult), some msg)
      else (MarkExhausted db id, { QuotaSyncItemResult.zero with
        ID := key.ID, Alias := key.Alias, Status := "error", Error := msg }, none)).1 =
      MarkExhausted db id := by
    split <;> rfl
  rw [hdb]
  simp only [MarkExhausted, DB.updateWhereID]
  rw [List.forall₂_map_right_iff, List.forall₂_same]
  intro k _
  split
  · exact ⟨rfl, rfl, rfl, rfl, rfl⟩
  · rfl

/-- C9 at the store of the tests: upstream answers 433 and the key ends with
`used_quota = total_quota = 1000`. -/
theorem SyncOne_exhausted_status_witness :
    (SyncOne (fun _ => .error (.status 433 "quota_exhausted")) testDB 1).2.2 =
      some "quota_exhausted" ∧
    List.Forall₂ (fun k k' =>
        if k.ID = 1 then
          k'.UsedQuota = k'.TotalQuota ∧ k'.TotalQuota = k.TotalQuota ∧
          k'.IsActive = k.IsActive ∧ k'.IsInvalid = k.IsInvalid ∧ k'.ID = k.ID
        else k' = k)
      testDB.api_keys
      (SyncOne (fun _ => .error (.status 433 "quota_exhausted")) testDB 1).1.api_keys :=
  have h := SyncOne_exhausted_status (fun _ => .error (.status 433 "quota_exhausted")) testDB 1
    (sampleKey 1 1000 7 true false) 433 "quota_exhausted" (by decide) rfl (Or.inr rfl)
  ⟨h.1, h.2.2⟩

/-- C10: for every stored key, when the upstream usage call fails with status 401,
`SyncOne` returns a non-nil error and the table changes row by row as follows: a row with
the identifier of the key ends with `is_active = false` and `is_invalid = true` and keeps
its `used_quota` and `total_quota`; every other row is unchanged. -/
theorem SyncOne_unauthorized_status
    (GetUsage : String → Except UpstreamError (Int × Option Int)) (db : DB) (id : Nat)
    (key : APIKey) (msg : String) (hfirst : db.First id = some key)
    (hresp : GetUsage key.Key = .error (.status 401 msg)) :
    (SyncOne GetUsage db id).2.2 = some msg ∧
    (SyncOne GetUsage db id).1.nextID = db.nextID ∧
    List.Forall₂ (fun k k' =>
        if k.ID = id then
          k'.IsActive = false ∧ k'.IsInvalid = true ∧ k'.UsedQuota = k.UsedQuota ∧
          k'.TotalQuota = k.TotalQuota ∧ k'.ID = k.ID
        else k' = k)
      db.api_keys (SyncOne GetUsage db id).1.api_keys := by
  have hid : key.ID = id := (First_some db id key hfirst).2
  have hsync : syncKey GetUsage db key =
      (MarkInvalid db id, { QuotaSyncItemResult.zero with
        ID := key.ID, Alias := key.Alias, Status := "error", Error := msg }) := by
    unfold syncKey
    rw [hresp]
    simp [hid, UpstreamError.Error]
  unfold SyncOne
  rw [Get_of_First db id key hfirst]
  simp only [hsync]
  refine ⟨by simp, by simp [MarkInvalid, DB.updateWhereID], ?_⟩
  have hdb : (if ("error" != "ok") = true then
      (MarkInvalid db id, ({ QuotaSyncItemResult.zero with
        ID := key.ID, Alias := key.Alias, Status := "error", Error := msg } :
          QuotaSyncItemResult), some msg)
      else (MarkInvalid db id, { QuotaSyncItemResult.zero with
        ID := key.ID, Alias := key.Alias, Status := "error", Error := msg }, none)).1 =
      MarkInvalid db id := by
    split <;> rfl
  rw [hdb]
  simp only [MarkInvalid, DB.updateWhereID]
  rw [List.forall₂_map_right_iff, List.forall₂_same]
  intro k _
  split
  · exact ⟨rfl, rfl, rfl, rfl, rfl⟩
  · rfl

/-- C10 at the store of the tests: upstream answers 401 and the key ends inactive and
invalid with `used_quota = 7` as before. -/
theorem SyncOne_unauthorized_status_witness :
    (SyncOne (fun _ => .error (.status 401 "unauthorized")) testDB 1).2.2 =
      some "unauthorized" ∧
    List.Forall₂ (fun k k' =>
        if k.ID = 1 then
          k'.IsActive = false ∧ k'.IsInvalid = true ∧ k'.UsedQuota = k.UsedQuota ∧
          k'.TotalQuota = k.TotalQuota ∧ k'.ID = k.ID
        else k' = k)
      testDB.api_keys
      (SyncOne (fun _ => .error (.status 401 "unauthorized")) testDB 1).1.api_keys :=
  have h := SyncOne_unauthorized_status (fun _ => .error (.status 401 "unauthorized")) testDB 1
    (sampleKey 1 1000 7 true false) "unauthorized" (by decide) rfl
  ⟨h.1, h.2.2⟩

end QuotaSyncService

/-! ## Fan-out of the reconciler: workers and pacing -/

namespace QuotaSyncService

open KeyService

/-- One pass through the critical section with a positive interval: the sleep is not
negative, it is zero on the first pass, the caller starts no earlier than the `nextStart`
it found, and the new `nextStart` is its own start plus the interval. -/
theorem waitForSlot_next (interval : Int) (nextStart : Option Int) (now : Int)
    (hI : 0 < interval) :
    (waitForSlot interval nextStart now).1 =
      some (now + (waitForSlot interval nextStart now).2 + interval) ∧
    0 ≤ (waitForSlot interval nextStart now).2 ∧
    (nextStart = none → (waitForSlot interval nextStart now).2 = 0) ∧
    (∀ x, nextStart = some x → x ≤ now + (waitForSlot interval nextStart now).2) := by
  unfold waitForSlot
  rw [if_neg (by omega)]
  cases nextStart with
  | none => simp
  | some next =>
    simp only
    by_cases h : now > next
    · simp only [h, if_true, Option.some.injEq, reduceCtorEq, false_implies, true_and]
      refine ⟨by omega, by omega, ?_⟩
      intro x hx
      omega
    · simp only [h, if_false, Option.some.injEq, reduceCtorEq, false_implies, true_and]
      refine ⟨by omega, by omega, ?_⟩
      intro x hx
      omega

/-- With a positive interval, consecutive granted starts are at least the interval apart,
and the first one is not before the `nextStart` the sequence began with. -/
theorem grantedStarts_chain (interval : Int) (hI : 0 < interval) (nextStart : Option Int)
    (nows : List Int) :
    (grantedStarts interval nextStart nows).Chain' (fun a b => a + interval ≤ b) ∧
    ∀ g x, (grantedStarts interval nextStart nows).head? = some g → nextStart = some x →
      x ≤ g := by
  induction nows generalizing nextStart with
  | nil => simp [grantedStarts]
  | cons now rest ih =>
    obtain ⟨hnext, _, _, hle⟩ := waitForSlot_next interval nextStart now hI
    obtain ⟨hchain, hhead⟩ := ih (waitForSlot interval nextStart now).1
    simp only [grantedStarts]
    refine ⟨?_, ?_⟩
    · rw [List.chain'_cons']
      refine ⟨?_, hchain⟩
      intro g hg
      exact hhead g _ hg hnext
    · intro g x hg hx
      simp only [List.head?_cons, Option.some.injEq] at hg
      subst hg
      exact hle x hx

/-- In a list whose consecutive entries are at least `d` apart, the `k`-th entry is at
least `k * d` after the first. -/
theorem chain_spacing (d : Int) (l : List Int) (h : l.Chain' (fun a b => a + d ≤ b))
    (k : Nat) (first gk : Int) (h0 : l[0]? = some first) (hk : l[k]? = some gk) :
    first + k * d ≤ gk := by
  induction k generalizing gk with
  | zero =>
    rw [h0] at hk
    simp only [Option.some.injEq] at hk
    simp [hk]
  | succ n ih =>
    have hlt : n + 1 < l.length := (List.getElem?_eq_some_iff.mp hk).1
    have hn : l[n]? = some l[n] := List.getElem?_eq_getElem (by omega)
    have hstep := List.chain'_iff_get.mp h n (by omega)
    simp only [List.get_eq_getElem] at hstep
    have hgk : l[n + 1] = gk := (List.getElem?_eq_some_iff.mp hk).2
    have := ih l[n] hn
    push_cast
    rw [hgk] at hstep
    linarith

/-- Every slot request is granted a start. -/
theorem grantedStarts_length (interval : Int) (nextStart : Option Int) (nows : List Int) :
    (grantedStarts interval nextStart nows).length = nows.length := by
  induction nows generalizing nextStart with
  | nil => rfl
  | cons now rest ih => simp [grantedStarts, ih]

end QuotaSyncService

/-! ## Fan-out of the reconciler: results -/

namespace QuotaSyncService

open KeyService

/-- The item `syncKey` returns carries the identifier of the key and the status `ok` or
`error`. -/
theorem syncKey_item (GetUsage : String → Except UpstreamError (Int × Option Int)) (db : DB)
    (key : APIKey) :
    (syncKey GetUsage db key).2.ID = key.ID ∧
    ((syncKey GetUsage db key).2.Status = "ok" ∨ (syncKey GetUsage db key).2.Status = "error") ∧
    ((syncKey GetUsage db key).2.Status = "ok" ↔ ∃ r, GetUsage key.Key = .ok r) := by
  unfold syncKey
  cases h : GetUsage key.Key with
  | error err =>
    cases err with
    | status code msg =>
      simp only
      split
      · exact ⟨rfl, Or.inr rfl, by simp⟩
      · split
        · exact ⟨rfl, Or.inr rfl, by simp⟩
        · exact ⟨rfl, Or.inr rfl, by simp⟩
    | other msg => exact ⟨rfl, Or.inr rfl, by simp⟩
  | ok r =>
    obtain ⟨usage, limit⟩ := r
    exact ⟨rfl, Or.inl rfl, by simp⟩

/-- The jobs built from a key list: their indices are distinct, and the job with index
`i` carries the `i - start`-th key. -/
theorem mkJobs_spec (start : Nat) (keyItems : List APIKey) :
    (mkJobs start keyItems).length = keyItems.length ∧
    ((mkJobs start keyItems).map job.idx).Nodup ∧
    (∀ j ∈ mkJobs start keyItems, start ≤ j.idx ∧ keyItems[j.idx - start]? = some j.key) ∧
    (∀ i k, keyItems[i]? = some k → ∃ j ∈ mkJobs start keyItems, j.idx = start + i) := by
  induction keyItems generalizing start with
  | nil => simp [mkJobs]
  | cons k ks ih =>
    obtain ⟨h1, h2, h3, h4⟩ := ih (start + 1)
    simp only [mkJobs, List.length_cons, List.map_cons, List.nodup_cons, List.mem_map,
      List.mem_cons, forall_eq_or_imp]
    refine ⟨by omega, ⟨?_, h2⟩, ⟨⟨le_refl _, by simp⟩, ?_⟩, ?_⟩
    · rintro ⟨j, hj, hidx⟩
      have := (h3 j hj).1
      omega
    · intro j hj
      obtain ⟨hle, hget⟩ := h3 j hj
      refine ⟨by omega, ?_⟩
      have : j.idx - start = (j.idx - (start + 1)) + 1 := by omega
      rw [this, List.getElem?_cons_succ]
      exact hget
    · intro i k' hk'
      cases i with
      | zero => exact ⟨_, Or.inl rfl, rfl⟩
      | succ i =>
        rw [List.getElem?_cons_succ] at hk'
        obtain ⟨j, hj, hidx⟩ := h4 i k' hk'
        exact ⟨j, Or.inr hj, by omega⟩

end QuotaSyncService

namespace QuotaSyncService

open KeyService

/-- What the worker does with one job: it writes one item, which carries the identifier of
the job's key, into the slot of the job, and adds one to `succeeded` when the status of the
item is `ok` and to `failed` otherwise; the queues are not touched. -/
theorem worker_effect (GetUsage : Nat → String → Except UpstreamError (Int × Option Int))
    (ctxErr : Nat → Option String) (interval : Int) (st : fanOut) (j : job) :
    ∃ item : QuotaSyncItemResult, item.ID = j.key.ID ∧
      (worker GetUsage ctxErr interval st j).results = st.results.set j.idx item ∧
      (worker GetUsage ctxErr interval st j).jobs = st.jobs ∧
      (worker GetUsage ctxErr interval st j).inFlight = st.inFlight ∧
      (worker GetUsage ctxErr interval st j).idle = st.idle ∧
      (worker GetUsage ctxErr interval st j).succeeded =
        st.succeeded + (if item.Status == "ok" then 1 else 0) ∧
      (worker GetUsage ctxErr interval st j).failed =
        st.failed + (if item.Status == "ok" then 0 else 1) := by
  unfold worker
  split
  · rename_i err _
    exact ⟨_, rfl, rfl, rfl, rfl, rfl, by simp, by simp⟩
  · simp only
    split
    · rename_i hok
      exact ⟨_, (syncKey_item _ _ _).1, rfl, rfl, rfl, rfl, by simp [hok], by simp [hok]⟩
    · rename_i hok
      exact ⟨_, (syncKey_item _ _ _).1, rfl, rfl, rfl, rfl, by simp [hok], by simp [hok]⟩

/-- Taking the entry at a position out of a list leaves a rearrangement of the rest. -/
theorem perm_cons_eraseIdx {α : Type} (l : List α) (w : Nat) (a : α) (h : l[w]? = some a) :
    l.Perm (a :: l.eraseIdx w) := by
  induction l generalizing w with
  | nil => simp at h
  | cons x xs ih =>
    cases w with
    | zero =>
      simp only [List.getElem?_cons_zero, Option.some.injEq] at h
      subst h
      simp
    | succ w =>
      rw [List.getElem?_cons_succ] at h
      simp only [List.eraseIdx_cons_succ]
      exact ((ih w h).cons x).trans (List.Perm.swap a x _)

/-- The invariant holds when the workers have been started. -/
theorem init_Inv (db : DB) (keyItems : List APIKey) (concurrency : Int) :
    fanOut.Inv keyItems (fanOut.init db keyItems concurrency) := by
  obtain ⟨h1, h2, h3, h4⟩ := mkJobs_spec 0 keyItems
  refine ⟨by simp [fanOut.init], by simpa [fanOut.init] using h2, ?_, ?_, ?_, ?_, ?_⟩
  · intro j hj
    simp only [fanOut.init, List.nil_append] at hj
    simpa using (h3 j hj).2
  · intro j hj
    simp only [fanOut.init, List.nil_append] at hj ⊢
    have hget := (h3 j hj).2
    have hlt : j.idx < keyItems.length := by
      have := (List.getElem?_eq_some_iff.mp hget).1
      omega
    simp [List.getElem?_replicate, hlt]
  · intro i k hk
    left
    obtain ⟨j, hj, hidx⟩ := h4 i k hk
    exact ⟨j, by simpa [fanOut.init] using hj, by omega⟩
  · simp [fanOut.init, List.countP_replicate, QuotaSyncItemResult.zero]
  · simp [fanOut.init, h1]

/-- Every event keeps the invariant. -/
theorem step_Inv (GetUsage : Nat → String → Except UpstreamError (Int × Option Int))
    (ctxErr : Nat → Option String) (interval : Int) (keyItems : List APIKey)
    (st st' : fanOut) (e : fanOutEvent) (hinv : fanOut.Inv keyItems st)
    (h : st.step GetUsage ctxErr interval e = some st') : fanOut.Inv keyItems st' := by
  cases e with
  | receive =>
    simp only [fanOut.step] at h
    split at h
    · simp at h
    · rename_i j rest hjobs
      split at h
      · simp at h
      · simp only [Option.some.injEq] at h
        subst h
        have hW : (st.inFlight ++ [j]) ++ rest = st.inFlight ++ st.jobs := by
          rw [hjobs, List.append_assoc, List.singleton_append]
        exact ⟨hinv.len, by simpa only [hW] using hinv.nodup,
          by simpa only [hW] using hinv.valid, by simpa only [hW] using hinv.fresh,
          by simpa only [hW] using hinv.done, hinv.succ, by simpa only [hW] using hinv.total⟩
  | record w =>
    simp only [fanOut.step] at h
    split at h
    · simp at h
    · rename_i j hj
      simp only [Option.some.injEq] at h
      obtain ⟨item, hid, hres, hjobs, hfl, _, hsucc, hfail⟩ := worker_effect GetUsage ctxErr
        interval { st with inFlight := st.inFlight.eraseIdx w, idle := st.idle + 1 } j
      rw [h] at hres hjobs hfl hsucc hfail
      simp only at hres hjobs hfl hsucc hfail
      have hperm : (st.inFlight ++ st.jobs).Perm (j :: (st'.inFlight ++ st'.jobs)) := by
        rw [hfl, hjobs, ← List.cons_append]
        exact (perm_cons_eraseIdx st.inFlight w j hj).append_right _
      have hnd : (j.idx :: (st'.inFlight ++ st'.jobs).map job.idx).Nodup :=
        (hperm.map job.idx).nodup_iff.mp hinv.nodup
      have hjW : j ∈ st.inFlight ++ st.jobs := hperm.mem_iff.mpr (List.mem_cons_self _ _)
      have hsub : ∀ j' ∈ st'.inFlight ++ st'.jobs, j' ∈ st.inFlight ++ st.jobs :=
        fun j' hj' => hperm.mem_iff.mpr (List.mem_cons_of_mem _ hj')
      have hne : ∀ j' ∈ st'.inFlight ++ st'.jobs, j.idx ≠ j'.idx := by
        intro j' hj' heq
        exact (List.nodup_cons.mp hnd).1 (heq ▸ List.mem_map_of_mem _ hj')
      have hlt : j.idx < st.results.length := by
        rw [hinv.len]
        exact (List.getElem?_eq_some_iff.mp (hinv.valid j hjW)).1
      have hzero : st.results[j.idx] = QuotaSyncItemResult.zero := by
        have := hinv.fresh j hjW
        rw [List.getElem?_eq_getElem hlt] at this
        exact Option.some.inj this
      refine ⟨?_, (List.nodup_cons.mp hnd).2, fun j' hj' => hinv.valid j' (hsub j' hj'),
        ?_, ?_, ?_, ?_⟩
      · rw [hres, List.length_set]
        exact hinv.len
      · intro j' hj'
        rw [hres, List.getElem?_set_ne (hne j' hj')]
        exact hinv.fresh j' (hsub j' hj')
      · intro i k hk
        by_cases hi : i = j.idx
        · right
          subst hi
          refine ⟨item, ?_, ?_⟩
          · rw [hres, List.getElem?_set_self hlt]
          · have := hinv.valid j hjW
            rw [hk] at this
            rw [hid, Option.some.inj this]
        · rcases hinv.done i k hk with ⟨j', hj', hidx⟩ | ⟨it, hit, hitid⟩
          · left
            rcases List.mem_cons.mp (hperm.mem_iff.mp hj') with heq | hmem
            · exact absurd (heq ▸ hidx).symm hi
            · exact ⟨j', hmem, hidx⟩
          · right
            refine ⟨it, ?_, hitid⟩
            rw [hres, List.getElem?_set_ne (Ne.symm hi)]
            exact hit
      · rw [hsucc, hres, List.countP_set _ _ _ _ hlt, hzero, hinv.succ]
        simp [QuotaSyncItemResult.zero]
      · have hlen := hperm.length_eq
        simp only [List.length_cons] at hlen
        have := hinv.total
        rw [hsucc, hfail]
        split <;> omega

/-- Every schedule keeps the invariant. -/
theorem run_Inv (GetUsage : Nat → String → Except UpstreamError (Int × Option Int))
    (ctxErr : Nat → Option String) (interval : Int) (keyItems : List APIKey)
    (sched : List fanOutEvent) (st st' : fanOut) (hinv : fanOut.Inv keyItems st)
    (h : st.run GetUsage ctxErr interval sched = some st') : fanOut.Inv keyItems st' := by
  induction sched generalizing st with
  | nil =>
    simp only [fanOut.run, Option.some.injEq] at h
    exact h ▸ hinv
  | cons e es ih =>
    simp only [fanOut.run] at h
    split at h
    · simp at h
    · rename_i st1 hstep
      exact ih st1 (step_Inv GetUsage ctxErr interval keyItems st st1 e hinv hstep) h

/-- For a non-empty key list at least one worker is started. -/
theorem workerCount_pos (c : Int) (n : Nat) (hn : 1 ≤ n) : 0 < (workerCount c n).toNat := by
  simp only [workerCount, defaultQuotaSyncConcurrency, maxQuotaSyncConcurrency]
  split_ifs <;> omega

/-- With a worker waiting and nothing in flight, the schedule in which one worker takes
every job in turn runs to the end: every job is sent and recorded. -/
theorem run_oneByOne (GetUsage : Nat → String → Except UpstreamError (Int × Option Int))
    (ctxErr : Nat → Option String) (interval : Int) (st : fanOut)
    (hfl : st.inFlight = []) (hidle : 0 < st.idle) :
    ∃ st', st.run GetUsage ctxErr interval (oneByOne st.jobs.length) = some st' ∧
      st'.jobs = [] ∧ st'.inFlight = [] := by
  generalize hjs : st.jobs = js
  induction js generalizing st with
  | nil => exact ⟨st, rfl, hjs, hfl⟩
  | cons j rest ih =>
    obtain ⟨item, _, _, hjobs, hfl', hidle', _, _⟩ := worker_effect GetUsage ctxErr interval
      { st with jobs := rest, inFlight := [], idle := st.idle - 1 + 1 } j
    obtain ⟨st', hrun, h1, h2⟩ := ih (worker GetUsage ctxErr interval
      { st with jobs := rest, inFlight := [], idle := st.idle - 1 + 1 } j) hfl'
      (by rw [hidle']; simp) hjobs
    refine ⟨st', ?_, h1, h2⟩
    simp only [List.length_cons, oneByOne, fanOut.run, fanOut.step, hjs, hfl,
      Nat.ne_of_gt hidle, if_false, List.nil_append, List.getElem?_cons_zero,
      List.eraseIdx_cons_zero]
    exact hrun

/-- C11: for every store, every upstream and wait outcome per job, every requested
concurrency and interval: some schedule runs the call to the end, and whenever the call
returns, under any schedule, its result has `Total` equal to the number `n` of listed keys
and to `len(Items)`, `Succeeded` equal to the number of items with status `ok`,
`Succeeded + Failed = Total`, and `Items[i].ID` is the identifier of the `i`-th listed key
for every `i < n`. -/
theorem SyncAll_result (GetUsage : Nat → String → Except UpstreamError (Int × Option Int))
    (ctxErr : Nat → Option String) (started ended : Int) (db : DB)
    (concurrency interval : Int) :
    (∃ sched, (SyncAllWithConcurrencyAndInterval GetUsage ctxErr sched started ended
      db concurrency interval).isSome = true) ∧
    ∀ sched db' res, SyncAllWithConcurrencyAndInterval GetUsage ctxErr sched started ended
        db concurrency interval = some (db', res) →
      res.Total = (ListKeys db).length ∧ res.Items.length = res.Total ∧
      res.Succeeded = res.Items.countP (fun it => it.Status == "ok") ∧
      res.Succeeded + res.Failed = res.Total ∧
      ∀ (i : Nat) (k : APIKey), (ListKeys db)[i]? = some k →
        ∃ it : QuotaSyncItemResult, res.Items[i]? = some it ∧ it.ID = k.ID := by
  refine ⟨?_, ?_⟩
  · by_cases hn : (ListKeys db).length = 0
    · refine ⟨[], ?_⟩
      simp only [SyncAllWithConcurrencyAndInterval, hn, if_true, Option.isSome_some]
    · have hw := (workerCount_pos concurrency (ListKeys db).length (by omega))
      obtain ⟨st', hrun, h1, h2⟩ := run_oneByOne GetUsage ctxErr (clampInterval interval)
        (fanOut.init db (ListKeys db) (workerCount concurrency (ListKeys db).length)) rfl
        (by simp only [fanOut.init]; omega)
      refine ⟨oneByOne (fanOut.init db (ListKeys db)
        (workerCount concurrency (ListKeys db).length)).jobs.length, ?_⟩
      simp only [SyncAllWithConcurrencyAndInterval, hn, if_false]
      rw [hrun]
      simp only [h1, h2, and_self, if_true, Option.isSome_some]
  · intro sched db' res h
    simp only [SyncAllWithConcurrencyAndInterval] at h
    split at h
    · rename_i hn
      simp only [Option.some.injEq, Prod.mk.injEq] at h
      obtain ⟨_, rfl⟩ := h
      refine ⟨hn.symm, by simp [hn], by simp [hn], rfl, ?_⟩
      intro i k hk
      have := (List.getElem?_eq_some_iff.mp hk).1
      omega
    · split at h
      · simp at h
      · rename_i st hrun
        split at h
        · rename_i hend
          simp only [Option.some.injEq, Prod.mk.injEq] at h
          obtain ⟨_, rfl⟩ := h
          have hinv := run_Inv GetUsage ctxErr _ (ListKeys db) sched _ st
            (init_Inv db (ListKeys db) _) hrun
          have htot := hinv.total
          simp only [hend.1, hend.2, List.append_nil, List.length_nil] at htot
          refine ⟨rfl, hinv.len, hinv.succ, by simpa using htot, ?_⟩
          intro i k hk
          rcases hinv.done i k hk with ⟨j, hj, _⟩ | hit
          · simp [hend.1, hend.2] at hj
          · exact hit
        · simp at h

end QuotaSyncService

namespace QuotaSyncService

open KeyService

/-- C11 at a concrete call: two keys, two workers, the second job recorded first; the
upstream fails the first job.  The result lists key 2 before key 1, one succeeded, one
failed. -/
theorem SyncAll_result_witness :
    SyncAllWithConcurrencyAndInterval sampleUpstream (fun _ => none)
        [.receive, .receive, .record 1, .record 0] 10 20 twoKeys 2 0 =
      some ({ api_keys := [sampleKey 1 2000 5 true false, sampleKey 2 500 0 true false],
              nextID := 3 },
            { Total := 2, Succeeded := 1, Failed := 1,
              Items := [{ ID := 2, Alias := "test", Status := "error", Error := "rate_limit",
                          UsedQuota := 0, TotalQuota := 0 },
                        { ID := 1, Alias := "test", Status := "ok", Error := "",
                          UsedQuota := 5, TotalQuota := 2000 }],
              StartedAt := 10, EndedAt := 20 }) ∧
    (ListKeys twoKeys).map (fun k => k.ID) = [2, 1] ∧
    (2 : Nat) = (ListKeys twoKeys).length :=
  have h : SyncAllWithConcurrencyAndInterval sampleUpstream (fun _ => none)
        [.receive, .receive, .record 1, .record 0] 10 20 twoKeys 2 0 =
      some ({ api_keys := [sampleKey 1 2000 5 true false, sampleKey 2 500 0 true false],
              nextID := 3 },
            { Total := 2, Succeeded := 1, Failed := 1,
              Items := [{ ID := 2, Alias := "test", Status := "error", Error := "rate_limit",
                          UsedQuota := 0, TotalQuota := 0 },
                        { ID := 1, Alias := "test", Status := "ok", Error := "",
                          UsedQuota := 5, TotalQuota := 2000 }],
              StartedAt := 10, EndedAt := 20 }) := by decide
  ⟨h, by decide, ((SyncAll_result sampleUpstream (fun _ => none) 10 20 twoKeys 2 0).2 _ _ _ h).1⟩

/-- No event changes the number of workers: those holding a job and those waiting on the
channel. -/
theorem step_workers (GetUsage : Nat → String → Except UpstreamError (Int × Option Int))
    (ctxErr : Nat → Option String) (interval : Int) (st st' : fanOut) (e : fanOutEvent)
    (h : st.step GetUsage ctxErr interval e = some st') :
    st'.inFlight.length + st'.idle = st.inFlight.length + st.idle := by
  cases e with
  | receive =>
    simp only [fanOut.step] at h
    split at h
    · simp at h
    · split at h
      · simp at h
      · rename_i hidle
        simp only [Option.some.injEq] at h
        subst h
        simp only [List.length_append, List.length_singleton]
        omega
  | record w =>
    simp only [fanOut.step] at h
    split at h
    · simp at h
    · rename_i j hj
      simp only [Option.some.injEq] at h
      obtain ⟨_, _, _, _, hfl, hidle, _, _⟩ := worker_effect GetUsage ctxErr
        interval { st with inFlight := st.inFlight.eraseIdx w, idle := st.idle + 1 } j
      rw [h] at hfl hidle
      have hlt : w < st.inFlight.length := (List.getElem?_eq_some_iff.mp hj).1
      rw [hfl, hidle]
      simp only [List.length_eraseIdx, hlt, if_true]
      omega

/-- No schedule changes the number of workers. -/
theorem run_workers (GetUsage : Nat → String → Except UpstreamError (Int × Option Int))
    (ctxErr : Nat → Option String) (interval : Int) (sched : List fanOutEvent)
    (st st' : fanOut) (h : st.run GetUsage ctxErr interval sched = some st') :
    st'.inFlight.length + st'.idle = st.inFlight.length + st.idle := by
  induction sched generalizing st with
  | nil =>
    simp only [fanOut.run, Option.some.injEq] at h
    rw [h]
  | cons e es ih =>
    simp only [fanOut.run] at h
    split at h
    · simp at h
    · rename_i st1 hstep
      rw [ih st1 h, step_workers GetUsage ctxErr interval st st1 e hstep]

end QuotaSyncService

/-! ## Sync job supervisor -/

namespace QuotaSyncJobService

open KeyService QuotaSyncService

/-- C15: for every supervisor state whose slot holds a job with status `running`, and for
every interval, identifier drawn and clock reading, `Start` returns
`alreadyRunning = true`, no error and a status equal to the running job (in particular
with the same id), spawns nothing and leaves the state, the job slot included, as it
was. -/
theorem Start_already_running (s : QuotaSyncJobService) (job : QuotaSyncJobStatus)
    (interval : Int) (newID : String) (now : Int) (hjob : s.job = some job)
    (hrun : job.Status = "running") :
    (Start s interval newID now).alreadyRunning = true ∧
    (Start s interval newID now).err = none ∧
    (Start s interval newID now).status = job ∧
    (Start s interval newID now).status.ID = job.ID ∧
    (Start s interval newID now).spawned = none ∧
    (Start s interval newID now).svc = s ∧
    (Start s interval newID now).svc.job = some job := by
  have hf : s.job.filter (fun job => job.Status == "running") = some job := by
    rw [hjob]
    simp [Option.filter, hrun]
  unfold Start
  simp only [hf, cloneQuotaSyncJobStatus, and_self, true_and]
  exact hjob

/-- C15 at the store of the tests: `Start` on an idle supervisor creates the job `job-1`;
a second `Start` that draws the id `job-2` returns the status of `job-1` with
`alreadyRunning = true` and changes nothing. -/
theorem Start_already_running_witness :
    (Start (Start { db := testDB, job := none } 0 "job-1" 100).svc 0 "job-2" 200).alreadyRunning
      = true ∧
    (Start (Start { db := testDB, job := none } 0 "job-1" 100).svc 0 "job-2" 200).status.ID
      = "job-1" ∧
    (Start (Start { db := testDB, job := none } 0 "job-1" 100).svc 0 "job-2" 200).svc
      = (Start { db := testDB, job := none } 0 "job-1" 100).svc :=
  have h := Start_already_running (Start { db := testDB, job := none } 0 "job-1" 100).svc
    (Start { db := testDB, job := none } 0 "job-1" 100).status 0 "job-2" 200 rfl rfl
  ⟨h.1, h.2.2.2.1, h.2.2.2.2.2.1⟩

end QuotaSyncJobService

namespace QuotaSyncJobService

open KeyService QuotaSyncService

/-- The loop of `runJob` on a slot that holds its job: it runs to its end, keeps the
identity, status, total and instants of the job, adds the number of keys to `completed`
and to `succeeded + failed`, leaves the items outside its range alone and gives every item
in its range the status `ok` or `error`; when every upstream call in its range succeeds,
only `succeeded` grows and every item in its range has status `ok`. -/
theorem runJobLoop_spec (GetUsage : Nat → String → Except UpstreamError (Int × Option Int))
    (jobID : String) (ks : List APIKey) (i : Nat) (s : QuotaSyncJobService)
    (job : QuotaSyncJobStatus) (hjob : s.job = some job) (hid : job.ID = jobID)
    (hlen : i + ks.length ≤ job.Items.length) :
    ∃ job', (runJobLoop GetUsage jobID i ks s).1.job = some job' ∧
      (runJobLoop GetUsage jobID i ks s).2 = true ∧
      (job'.ID = job.ID ∧ job'.Status = job.Status ∧ job'.Total = job.Total ∧
        job'.StartedAt = job.StartedAt ∧ job'.EndedAt = job.EndedAt) ∧
      job'.Completed = job.Completed + ks.length ∧
      job'.Succeeded + job'.Failed = job.Succeeded + job.Failed + ks.length ∧
      job'.Items.length = job.Items.length ∧
      (∀ m, (m < i ∨ i + ks.length ≤ m) → job'.Items[m]? = job.Items[m]?) ∧
      (∀ m it, job'.Items[m]? = some it → i ≤ m → m < i + ks.length →
        it.Status = "ok" ∨ it.Status = "error") ∧
      ((∀ m k, ks[m]? = some k → ∃ r, GetUsage (i + m) k.Key = .ok r) →
        job'.Succeeded = job.Succeeded + ks.length ∧ job'.Failed = job.Failed ∧
        ∀ m it, job'.Items[m]? = some it → i ≤ m → m < i + ks.length → it.Status = "ok") := by
  induction ks generalizing i s job with
  | nil =>
    refine ⟨job, hjob, rfl, ⟨rfl, rfl, rfl, rfl, rfl⟩, rfl, rfl, rfl, fun _ _ => rfl, ?_, ?_⟩
    · intro m it _ h1 h2
      simp only [List.length_nil] at h2
      omega
    · intro _
      refine ⟨rfl, rfl, ?_⟩
      intro m it _ h1 h2
      simp only [List.length_nil] at h2
      omega
  | cons k ks ih =>
    simp only [List.length_cons] at hlen ⊢
    obtain ⟨_, hstat, hok⟩ := syncKey_item (GetUsage i) s.db k
    have hne : (job.ID != jobID) = false := by simp [hid]
    have hilt : i < job.Items.length := by omega
    by_cases hs : (syncKey (GetUsage i) s.db k).2.Status = "ok"
    · have hb : ((syncKey (GetUsage i) s.db k).2.Status == "ok") = true := by simp [hs]
      obtain ⟨job', h1, h2, h3, h4, h5, h6, h7, h8, h9⟩ := ih (i + 1)
        { db := (syncKey (GetUsage i) s.db k).1,
          job := some { job with
            Items := job.Items.set i (syncKey (GetUsage i) s.db k).2,
            Completed := job.Completed + 1, Succeeded := job.Succeeded + 1 } }
        _ rfl hid (by simp only [List.length_set]; omega)
      simp only [List.length_set] at h4 h5 h6 h7 h8 h9 h3
      refine ⟨job', ?_, ?_, h3, by omega, by omega, h6, ?_, ?_, ?_⟩
      · simp only [runJobLoop, hjob, hne, hb, if_true, Bool.false_eq_true, if_false]
        exact h1
      · simp only [runJobLoop, hjob, hne, hb, if_true, Bool.false_eq_true, if_false]
        exact h2
      · intro m hm
        rw [h7 m (by omega), List.getElem?_set_ne (by omega)]
      · intro m it hit hm1 hm2
        by_cases hmi : m = i
        · subst hmi
          rw [h7 m (by omega), List.getElem?_set_self hilt] at hit
          rw [← Option.some.inj hit]
          exact hstat
        · exact h8 m it hit (by omega) (by omega)
      · intro hall
        obtain ⟨g1, g2, g3⟩ := h9 (by
          intro m k' hk'
          have := hall (m + 1) k' (by simpa using hk')
          rw [show i + 1 + m = i + (m + 1) by omega]
          exact this)
        refine ⟨by omega, g2, ?_⟩
        intro m it hit hm1 hm2
        by_cases hmi : m = i
        · subst hmi
          rw [h7 m (by omega), List.getElem?_set_self hilt] at hit
          rw [← Option.some.inj hit]
          exact hs
        · exact g3 m it hit (by omega) (by omega)
    · have hb : ((syncKey (GetUsage i) s.db k).2.Status == "ok") = false := by simp [hs]
      obtain ⟨job', h1, h2, h3, h4, h5, h6, h7, h8, h9⟩ := ih (i + 1)
        { db := (syncKey (GetUsage i) s.db k).1,
          job := some { job with
            Items := job.Items.set i (syncKey (GetUsage i) s.db k).2,
            Completed := job.Completed + 1, Failed := job.Failed + 1 } }
        _ rfl hid (by simp only [List.length_set]; omega)
      simp only [List.length_set] at h4 h5 h6 h7 h8 h9 h3
      refine ⟨job', ?_, ?_, h3, by omega, by omega, h6, ?_, ?_, ?_⟩
      · simp only [runJobLoop, hjob, hne, hb, if_true, Bool.false_eq_true, if_false]
        exact h1
      · simp only [runJobLoop, hjob, hne, hb, if_true, Bool.false_eq_true, if_false]
        exact h2
      · intro m hm
        rw [h7 m (by omega), List.getElem?_set_ne (by omega)]
      · intro m it hit hm1 hm2
        by_cases hmi : m = i
        · subst hmi
          rw [h7 m (by omega), List.getElem?_set_self hilt] at hit
          rw [← Option.some.inj hit]
          exact hstat
        · exact h8 m it hit (by omega) (by omega)
      · intro hall
        exfalso
        apply hs
        rw [hok]
        have := hall 0 k (by simp)
        simpa using this

/-- C16: for every supervisor state whose slot holds no running job, `Start` seeds a job
on the snapshot of the `K` listed keys (status `running`, `total = K`, every item
`pending`, counters 0) and spawns `runJob`; once that `runJob` has gone through its `K`
items the slot holds the same job with status `completed`, `completed = total = K`,
`succeeded + failed = K`, `started_at` and `ended_at` set, `K` items and none of them
`pending`; and if every upstream call succeeded then `succeeded = total`, `failed = 0` and
every item has status `ok`. -/
theorem runJob_completes (GetUsage : Nat → String → Except UpstreamError (Int × Option Int))
    (s : QuotaSyncJobService) (interval : Int) (newID : String) (now endedAt : Int)
    (hfree : s.job.filter (fun job => job.Status == "running") = none) :
    ((Start s interval newID now).alreadyRunning = false ∧
      (Start s interval newID now).status.Status = "running" ∧
      (Start s interval newID now).status.Total = (ListKeys s.db).length ∧
      (Start s interval newID now).status.Completed = 0 ∧
      (Start s interval newID now).status.Succeeded = 0 ∧
      (Start s interval newID now).status.Failed = 0 ∧
      (∀ it ∈ (Start s interval newID now).status.Items, it.Status = "pending") ∧
      (Start s interval newID now).svc.job = some (Start s interval newID now).status) ∧
    ∃ call job, (Start s interval newID now).spawned = some call ∧
      call.keyItems = ListKeys s.db ∧
      (runJob GetUsage (Start s interval newID now).svc call endedAt).job = some job ∧
      job.ID = newID ∧ job.Status = "completed" ∧ job.Completed = job.Total ∧
      job.Total = (ListKeys s.db).length ∧ job.Succeeded + job.Failed = job.Total ∧
      job.StartedAt = some now ∧ job.EndedAt = some endedAt ∧
      job.Items.length = job.Total ∧ (∀ it ∈ job.Items, it.Status ≠ "pending") ∧
      ((∀ (i : Nat) (k : APIKey), (ListKeys s.db)[i]? = some k →
          ∃ r, GetUsage i k.Key = .ok r) →
        job.Succeeded = job.Total ∧ job.Failed = 0 ∧ ∀ it ∈ job.Items, it.Status = "ok") := by
  have hstart : Start s interval newID now =
      { svc :=
          { db := s.db, job := some (seedJob (ListKeys s.db) (clampInterval interval) newID now) },
        status := seedJob (ListKeys s.db) (clampInterval interval) newID now,
        alreadyRunning := false, err := none,
        spawned := some { jobID := newID, keyItems := ListKeys s.db,
                          interval := clampInterval interval } } := by
    unfold Start
    simp only [hfree, cloneQuotaSyncJobStatus]
    rfl
  rw [hstart]
  refine ⟨⟨rfl, rfl, rfl, rfl, rfl, rfl, ?_, rfl⟩, ?_⟩
  · intro it hit
    simp only [seedJob, List.mem_map] at hit
    obtain ⟨k, _, rfl⟩ := hit
    rfl
  · obtain ⟨job', h1, h2, ⟨h3a, h3b, h3c, h3d, h3e⟩, h4, h5, h6, h7, h8, h9⟩ :=
      runJobLoop_spec GetUsage newID (ListKeys s.db) 0
        { db := s.db, job := some (seedJob (ListKeys s.db) (clampInterval interval) newID now) }
        _ rfl rfl (by simp [seedJob])
    simp only [seedJob] at h3a h3b h3c h3d h3e h4 h5 h6 h7 h8 h9
    simp only [List.length_map, Nat.zero_add, Nat.zero_le, true_implies] at h4 h5 h6 h7 h8 h9
    have hitems : ∀ it ∈ job'.Items, ∃ m, job'.Items[m]? = some it ∧
        m < (ListKeys s.db).length := by
      intro it hit
      obtain ⟨m, hm, hget⟩ := List.getElem_of_mem hit
      exact ⟨m, by rw [List.getElem?_eq_getElem hm, hget], by omega⟩
    refine ⟨_, { job' with Status := "completed", EndedAt := some endedAt }, rfl, rfl, ?_,
      h3a, rfl, by simp only; omega, h3c, by simp only; omega, h3d, rfl, by simp only; omega,
      ?_, ?_⟩
    · simp only [runJob, h1, h2, if_true, h3a, beq_self_eq_true]
    · intro it hit
      obtain ⟨m, hget, hm⟩ := hitems it hit
      rcases h8 m it hget hm with h | h <;> simp [h]
    · intro hall
      obtain ⟨g1, g2, g3⟩ := h9 (by simpa using hall)
      refine ⟨by simp only; omega, g2, ?_⟩
      intro it hit
      obtain ⟨m, hget, hm⟩ := hitems it hit
      exact g3 m it hget hm

/-- C16 at a concrete run: an idle supervisor over two keys, an upstream that answers
every call with usage 5 of limit 2000; the job ends `completed` with
`completed = total = succeeded = 2`, `failed = 0` and every item `ok`. -/
theorem runJob_completes_witness :
    ∃ call job, (Start { db := twoKeys, job := none } 0 "job-1" 100).spawned = some call ∧
      (runJob (fun _ _ => .ok (5, some 2000))
        (Start { db := twoKeys, job := none } 0 "job-1" 100).svc call 900).job = some job ∧
      job.Status = "completed" ∧ job.Completed = job.Total ∧ job.Total = 2 ∧
      job.Succeeded = job.Total ∧ job.Failed = 0 ∧ job.StartedAt = some 100 ∧
      job.EndedAt = some 900 ∧ ∀ it ∈ job.Items, it.Status = "ok" := by
  obtain ⟨_, call, job, h1, _, h3, _, h5, h6, h7, _, h9, h10, _, _, h13⟩ :=
    runJob_completes (fun _ _ => .ok (5, some 2000)) { db := twoKeys, job := none } 0 "job-1"
      100 900 rfl
  obtain ⟨g1, g2, g3⟩ := h13 (fun _ _ _ => ⟨_, rfl⟩)
  exact ⟨call, job, h1, h3, h5, h6, h7.trans (by decide), g1, g2, h9, h10, g3⟩

end QuotaSyncJobService

/-! ## Stats aggregator -/

namespace StatsService

/-- The row found under a key after one upsert: under the key of the upsert there is a
row and its count is the old count (0 when there was none) plus the increment; under any
other key the lookup is as before. -/
theorem lookup_upsertIncrement (table : List RequestStat) (granularity bucket endpoint : String)
    (inc updatedAt : Int) (key : String × String × String) :
    (key = (granularity, bucket, endpoint) →
      (lookup (upsertIncrement table granularity bucket endpoint inc updatedAt) key).isSome
        = true ∧
      countOf (upsertIncrement table granularity bucket endpoint inc updatedAt) key =
        countOf table key + inc) ∧
    (key ≠ (granularity, bucket, endpoint) →
      lookup (upsertIncrement table granularity bucket endpoint inc updatedAt) key =
        lookup table key) := by
  unfold upsertIncrement
  simp only [statKey]
  by_cases hany : table.any (fun r => (r.Granularity, r.Bucket, r.Endpoint) ==
      (granularity, bucket, endpoint)) = true
  · simp only [hany, if_true]
    have hmap : ∀ k : String × String × String,
        lookup (table.map (fun r =>
          if ((r.Granularity, r.Bucket, r.Endpoint) == (granularity, bucket, endpoint)) = true
          then { r with Count := r.Count + inc, UpdatedAt := updatedAt } else r)) k =
        (lookup table k).map (fun r =>
          if ((r.Granularity, r.Bucket, r.Endpoint) == (granularity, bucket, endpoint)) = true
          then { r with Count := r.Count + inc, UpdatedAt := updatedAt } else r) := by
      intro k
      unfold lookup
      rw [List.find?_map]
      congr 1
      congr 1
      funext r
      simp only [Function.comp, statKey]
      split <;> rfl
    constructor
    · intro hkey
      subst hkey
      obtain ⟨r, hr, hrk⟩ := List.any_eq_true.mp hany
      have hsome : (lookup table (granularity, bucket, endpoint)).isSome = true := by
        unfold lookup
        rw [List.find?_isSome]
        exact ⟨r, hr, by simpa [statKey] using hrk⟩
      obtain ⟨r0, hr0⟩ := Option.isSome_iff_exists.mp hsome
      have hr0k : (r0.Granularity, r0.Bucket, r0.Endpoint) = (granularity, bucket, endpoint) := by
        have := List.find?_some (by unfold lookup at hr0; exact hr0)
        simpa [statKey] using this
      unfold countOf
      rw [hmap, hr0]
      simp only [Option.map_some']
      rw [if_pos (by simpa only [beq_iff_eq] using hr0k)]
      exact ⟨rfl, rfl⟩
    · intro hkey
      rw [hmap]
      cases hl : lookup table key with
      | none => rfl
      | some r0 =>
        have hr0k : (r0.Granularity, r0.Bucket, r0.Endpoint) = key := by
          have := List.find?_some (by unfold lookup at hl; exact hl)
          simpa [statKey] using this
        have hne : ¬ (r0.Granularity, r0.Bucket, r0.Endpoint) = (granularity, bucket, endpoint) :=
          fun h => hkey (hr0k.symm.trans h)
        simp only [Option.map_some']
        rw [if_neg (by simpa only [beq_iff_eq] using hne)]
  · simp only [hany, Bool.false_eq_true, if_false]
    have hnone : lookup table (granularity, bucket, endpoint) = none := by
      unfold lookup
      rw [List.find?_eq_none]
      intro r hr hk
      apply hany
      exact List.any_eq_true.mpr ⟨r, hr, by simpa [statKey] using hk⟩
    constructor
    · intro hkey
      subst hkey
      unfold countOf
      unfold lookup at hnone ⊢
      rw [List.find?_append, hnone]
      simp [statKey]
    · intro hkey
      unfold lookup
      rw [List.find?_append]
      have : List.find? (fun r => statKey r == key)
          [({ Granularity := granularity, Bucket := bucket, Endpoint := endpoint,
              Count := inc, UpdatedAt := updatedAt } : RequestStat)] = none := by
        simp only [List.find?_cons, statKey]
        have hne : ((granularity, bucket, endpoint) == key) = false := by
          simpa using fun h => hkey h.symm
        simp [hne]
      rw [this]
      simp

/-- A series of upserts by one: the count under a key grows by the number of upserts of
that key; a key that is not upserted keeps its row; a key that is upserted, or had a row,
has a row afterwards. -/
theorem foldl_upsertIncrement (keys : List (String × String × String))
    (table : List RequestStat) (updatedAt : Int) (key : String × String × String) :
    countOf (keys.foldl (fun t k => upsertIncrement t k.1 k.2.1 k.2.2 1 updatedAt) table) key =
      countOf table key + (keys.count key : Int) ∧
    (key ∉ keys →
      lookup (keys.foldl (fun t k => upsertIncrement t k.1 k.2.1 k.2.2 1 updatedAt) table) key =
        lookup table key) ∧
    (key ∈ keys ∨ (lookup table key).isSome = true →
      (lookup (keys.foldl (fun t k => upsertIncrement t k.1 k.2.1 k.2.2 1 updatedAt) table)
        key).isSome = true) := by
  induction keys generalizing table with
  | nil => simp
  | cons k ks ih =>
    obtain ⟨h1, h2, h3⟩ := ih (upsertIncrement table k.1 k.2.1 k.2.2 1 updatedAt)
    obtain ⟨g1, g2⟩ := lookup_upsertIncrement table k.1 k.2.1 k.2.2 1 updatedAt key
    simp only [List.foldl_cons]
    by_cases hk : key = k
    · have hk' : key = (k.1, k.2.1, k.2.2) := hk
      obtain ⟨g3, g4⟩ := g1 hk'
      refine ⟨?_, ?_, ?_⟩
      · rw [h1, g4, hk, List.count_cons_self]
        push_cast
        ring
      · intro hnot
        exact absurd (hk ▸ List.mem_cons_self _ _) hnot
      · intro _
        exact h3 (Or.inr g3)
    · have hk' : key ≠ (k.1, k.2.1, k.2.2) := hk
      have g5 := g2 hk'
      have hc : countOf (upsertIncrement table k.1 k.2.1 k.2.2 1 updatedAt) key =
          countOf table key := by
        unfold countOf
        rw [g5]
      refine ⟨?_, ?_, ?_⟩
      · rw [h1, hc, List.count_cons_of_ne hk]
      · intro hnot
        rw [h2 (fun h => hnot (List.mem_cons_of_mem _ h)), g5]
      · intro h
        apply h3
        rcases h with h | h
        · rcases List.mem_cons.mp h with h | h
          · exact absurd h hk
          · exact Or.inl h
        · exact Or.inr (g5 ▸ h)

/-- In a list without repetition an entry occurs once. -/
theorem count_one_of_nodup {α : Type} [BEq α] [LawfulBEq α] (l : List α) (a : α)
    (hnd : l.Nodup) (ha : a ∈ l) : l.count a = 1 := by
  induction l with
  | nil => simp at ha
  | cons x xs ih =>
    obtain ⟨hx, hxs⟩ := List.nodup_cons.mp hnd
    by_cases hax : a = x
    · subst hax
      rw [List.count_cons_self, List.count_eq_zero_of_not_mem hx]
    · rw [List.count_cons_of_ne hax]
      rcases List.mem_cons.mp ha with h | h
      · exact absurd h hax
      · exact ih hxs h

/-- `RecordRequest` is the series of upserts of its keys. -/
theorem RecordRequest_eq_foldl (cal : Calendar) (table : List RequestStat) (endpoint : String)
    (occurredAt updatedAt : Int) :
    RecordRequest cal table endpoint occurredAt updatedAt =
      (recordKeys cal endpoint occurredAt).foldl
        (fun t k => upsertIncrement t k.1 k.2.1 k.2.2 1 updatedAt) table := by
  unfold RecordRequest recordKeys
  by_cases h : endpoint = "/search"
  · simp [h]
  · simp [h]

/-- The keys of one `RecordRequest` are distinct. -/
theorem recordKeys_nodup (cal : Calendar) (endpoint : String) (occurredAt : Int) :
    (recordKeys cal endpoint occurredAt).Nodup := by
  unfold recordKeys
  by_cases h : endpoint = "/search"
  · simp [h]
  · simp [h]

/-- C17: for every calendar, stats table, endpoint `e` and instant `t`, and for every
primary key: if the key is one of `(hour, hourBucket(t), "")`, `(day, dayBucket(t), "")`,
`(month, monthBucket(t), "")`, or `e = "/search"` and it is one of the three corresponding
`"/search"` keys, then after `RecordRequest(e, t)` there is a row under the key and its
count is the count before (0 when there was no row) plus exactly 1; under every other key
the lookup, and so the count, is as before. -/
theorem RecordRequest_counts (cal : Calendar) (table : List RequestStat) (e : String)
    (t updatedAt : Int) (key : String × String × String) :
    ((key = ("hour", hourBucket cal t, "") ∨ key = ("day", dayBucket cal t, "") ∨
        key = ("month", monthBucket cal t, "") ∨
        (e = "/search" ∧ (key = ("hour", hourBucket cal t, "/search") ∨
          key = ("day", dayBucket cal t, "/search") ∨
          key = ("month", monthBucket cal t, "/search")))) →
      (lookup (RecordRequest cal table e t updatedAt) key).isSome = true ∧
      countOf (RecordRequest cal table e t updatedAt) key = countOf table key + 1) ∧
    (¬ (key = ("hour", hourBucket cal t, "") ∨ key = ("day", dayBucket cal t, "") ∨
        key = ("month", monthBucket cal t, "") ∨
        (e = "/search" ∧ (key = ("hour", hourBucket cal t, "/search") ∨
          key = ("day", dayBucket cal t, "/search") ∨
          key = ("month", monthBucket cal t, "/search")))) →
      lookup (RecordRequest cal table e t updatedAt) key = lookup table key ∧
      countOf (RecordRequest cal table e t updatedAt) key = countOf table key) := by
  have hmem : key ∈ recordKeys cal e t ↔
      (key = ("hour", hourBucket cal t, "") ∨ key = ("day", dayBucket cal t, "") ∨
        key = ("month", monthBucket cal t, "") ∨
        (e = "/search" ∧ (key = ("hour", hourBucket cal t, "/search") ∨
          key = ("day", dayBucket cal t, "/search") ∨
          key = ("month", monthBucket cal t, "/search")))) := by
    unfold recordKeys
    by_cases h : e = "/search"
    · simp [h]
    · simp [h]
  rw [← hmem, RecordRequest_eq_foldl]
  obtain ⟨h1, h2, h3⟩ := foldl_upsertIncrement (recordKeys cal e t) table updatedAt key
  constructor
  · intro hk
    refine ⟨h3 (Or.inl hk), ?_⟩
    have hc := count_one_of_nodup _ _ (recordKeys_nodup cal e t) hk
    rw [h1, hc]
    rfl
  · intro hk
    refine ⟨h2 hk, ?_⟩
    have hc := List.count_eq_zero_of_not_mem hk
    rw [h1, hc]
    simp

/-- C17 at a concrete request: a `/search` request at 2026-03-01 00:30 UTC on the sample
table; the row `(month, 2026-03, /search)` is inserted with count 1 and the row
`(month, 2026-02, "")` keeps its count 2. -/
theorem RecordRequest_counts_witness :
    (lookup (RecordRequest utc sampleStats "/search" sampleNow 5)
      ("month", "2026-03", "/search")).isSome = true ∧
    countOf (RecordRequest utc sampleStats "/search" sampleNow 5)
      ("month", "2026-03", "/search") = 0 + 1 ∧
    countOf (RecordRequest utc sampleStats "/search" sampleNow 5) ("month", "2026-02", "")
      = 2 :=
  have h1 := (RecordRequest_counts utc sampleStats "/search" sampleNow 5
    ("month", "2026-03", "/search")).1
      (Or.inr (Or.inr (Or.inr ⟨rfl, Or.inr (Or.inr (by decide))⟩)))
  have h2 := (RecordRequest_counts utc sampleStats "/search" sampleNow 5
    ("month", "2026-02", "")).2 (by decide)
  ⟨h1.1, h1.2.trans (by decide), h2.2.trans (by decide)⟩

end StatsService

namespace StatsService

/-- Building the Go map from a list of rows: a bucket that no row carries keeps the value
it had. -/
theorem foldl_counts_absent (l : List RequestStat) (init : String → Int) (b : String)
    (hb : ∀ r ∈ l, r.Bucket ≠ b) :
    l.foldl (fun out r => fun bucket => if bucket = r.Bucket then r.Count else out bucket)
      init b = init b := by
  induction l generalizing init with
  | nil => rfl
  | cons x xs ih =>
    simp only [List.foldl_cons]
    rw [ih _ (fun r hr => hb r (List.mem_cons_of_mem _ hr))]
    have := hb x (List.mem_cons_self _ _)
    simp [Ne.symm this]

/-- Building the Go map from rows with distinct buckets: the bucket of a row maps to the
count of that row. -/
theorem foldl_counts_present (l : List RequestStat) (init : String → Int) (r : RequestStat)
    (hnd : (l.map (fun x => x.Bucket)).Nodup) (hr : r ∈ l) :
    l.foldl (fun out r => fun bucket => if bucket = r.Bucket then r.Count else out bucket)
      init r.Bucket = r.Count := by
  induction l generalizing init with
  | nil => simp at hr
  | cons x xs ih =>
    simp only [List.map_cons, List.nodup_cons, List.mem_map, not_exists, not_and] at hnd
    simp only [List.foldl_cons]
    rcases List.mem_cons.mp hr with h | h
    · subst h
      rw [foldl_counts_absent xs _ r.Bucket (fun y hy => hnd.1 y hy)]
      simp
    · exact ih _ hnd.2 h

/-- The rows `bucketCountsFromStats` reads: those of the granularity and endpoint whose
bucket is not below the start bucket. -/
theorem mem_selected (table : List RequestStat) (granularity endpoint startBucket : String)
    (r : RequestStat) :
    r ∈ (table.filter (fun r => r.Granularity == granularity && r.Endpoint == endpoint &&
        textLE startBucket r.Bucket)).insertionSort
        (fun a b => textLE a.Bucket b.Bucket = true) ↔
      r ∈ table ∧ r.Granularity = granularity ∧ r.Endpoint = endpoint ∧
        textLE startBucket r.Bucket = true := by
  rw [(List.perm_insertionSort _ _).mem_iff]
  simp [List.mem_filter, and_assoc]

/-- `bucketCountsFromStats` answers 0 for a bucket when the table has no row of that
granularity, bucket and endpoint. -/
theorem foldl_counts_absent_table (table : List RequestStat)
    (granularity endpoint startBucket bucket : String)
    (hno : ∀ r ∈ table, statKey r ≠ (granularity, bucket, endpoint)) :
    bucketCountsFromStats table granularity endpoint startBucket bucket = 0 := by
  unfold bucketCountsFromStats
  apply foldl_counts_absent
  intro r hr hb
  have hr' := (mem_selected table granularity endpoint startBucket r).mp hr
  exact hno r hr'.1 (by simp [statKey, hr'.2.1, hr'.2.2.1, hb])

/-- On a table whose primary keys are distinct, `bucketCountsFromStats` answers the count
of the row of that granularity, bucket and endpoint when the bucket is not below the start
bucket. -/
theorem bucketCountsFromStats_spec (table : List RequestStat)
    (granularity endpoint startBucket bucket : String)
    (hpk : (table.map statKey).Nodup) :
    (∀ r ∈ table, statKey r = (granularity, bucket, endpoint) →
      textLE startBucket bucket = true →
      bucketCountsFromStats table granularity endpoint startBucket bucket = r.Count) ∧
    ((∀ r ∈ table, statKey r ≠ (granularity, bucket, endpoint)) →
      bucketCountsFromStats table granularity endpoint startBucket bucket = 0) := by
  refine ⟨?_, foldl_counts_absent_table table granularity endpoint startBucket bucket⟩
  unfold bucketCountsFromStats
  have hperm := List.perm_insertionSort (fun a b : RequestStat => textLE a.Bucket b.Bucket = true)
    (table.filter (fun r => r.Granularity == granularity && r.Endpoint == endpoint &&
      textLE startBucket r.Bucket))
  intro r hr hkey hle
  simp only [statKey, Prod.mk.injEq] at hkey
  obtain ⟨hg, hb, he⟩ := hkey
  have hmem := (mem_selected table granularity endpoint startBucket r).mpr
    ⟨hr, hg, he, hb ▸ hle⟩
  have hnd : (((table.filter (fun r => r.Granularity == granularity &&
      r.Endpoint == endpoint && textLE startBucket r.Bucket)).insertionSort
      (fun a b => textLE a.Bucket b.Bucket = true)).map (fun x => x.Bucket)).Nodup := by
    refine ((hperm.map _).nodup_iff).mpr ?_
    have h1 : ((table.filter (fun r => r.Granularity == granularity &&
        r.Endpoint == endpoint && textLE startBucket r.Bucket)).map statKey).Nodup :=
      hpk.sublist ((List.filter_sublist _).map _)
    have h2 : (table.filter (fun r => r.Granularity == granularity &&
        r.Endpoint == endpoint && textLE startBucket r.Bucket)).map statKey =
        ((table.filter (fun r => r.Granularity == granularity &&
          r.Endpoint == endpoint && textLE startBucket r.Bucket)).map
            (fun x => x.Bucket)).map (fun b => (granularity, b, endpoint)) := by
      rw [List.map_map]
      apply List.map_congr_left
      intro x hx
      have hx' := List.mem_filter.mp hx
      simp only [Bool.and_eq_true, beq_iff_eq] at hx'
      simp [statKey, hx'.2.1.1, hx'.2.1.2]
    rw [h2] at h1
    exact List.Nodup.of_map _ h1
  have := foldl_counts_present _ (fun _ => 0) r hnd hmem
  rw [hb] at this
  exact this

/-- The loop of `TimeSeries` appends one label and one value per series for each of its
`n` points; the `i`-th point is the instant reached from the start by `i` steps. -/
theorem seriesLoop_spec (p : seriesPlan) (totalCounts searchCounts : String → Int) (n : Nat)
    (t : Int) :
    (seriesLoop p totalCounts searchCounts n t).1.length = n ∧
    (seriesLoop p totalCounts searchCounts n t).2.1.length = n ∧
    (seriesLoop p totalCounts searchCounts n t).2.2.length = n ∧
    ∀ i, i < n →
      (seriesLoop p totalCounts searchCounts n t).1[i]? = some (p.labelFormat (p.step^[i] t)) ∧
      (seriesLoop p totalCounts searchCounts n t).2.1[i]? =
        some (totalCounts (p.bucketKey (p.step^[i] t))) ∧
      (seriesLoop p totalCounts searchCounts n t).2.2[i]? =
        some (searchCounts (p.bucketKey (p.step^[i] t))) := by
  induction n generalizing t with
  | zero => simp [seriesLoop]
  | succ n ih =>
    obtain ⟨h1, h2, h3, h4⟩ := ih (p.step t)
    simp only [seriesLoop, List.length_cons, h1, h2, h3, true_and]
    intro i hi
    cases i with
    | zero => simp
    | succ i =>
      simp only [List.getElem?_cons_succ, Function.iterate_succ, Function.comp]
      exact h4 i (by omega)

/-- C18: for every calendar, stats table and clock reading, `TimeSeries(g)` for `g` one
of `hour`, `day`, `month` succeeds with 24, 30 and 12 labels respectively and the two series
`All Requests` and `Search`, each with as many data points as there are labels.  The `i`-th
label and data points belong to the instant `i` steps after the start, whose bucket is the
bucket key of that instant: the data point is 0 when the table has no row of that
granularity, bucket and endpoint, and it is the count of that row when there is one, the
primary keys of the table being distinct and the bucket not below the start bucket in
text order (the query reads the rows with `bucket >= startBucket`). -/
theorem TimeSeries_points (cal : Calendar) (table : List RequestStat) (now : Int) (g : String)
    (hg : g = "hour" ∨ g = "day" ∨ g = "month") :
    ∃ (p : seriesPlan) (ts : TavilyProxy.TimeSeries) (d1 d2 : List Int),
      plan cal now g = .ok p ∧ p.granularity = g ∧
      p.points = (if g = "hour" then 24 else if g = "day" then 30 else 12) ∧
      TimeSeries cal table now g = .ok ts ∧ ts.Granularity = g ∧
      ts.Labels.length = p.points ∧
      ts.Series = [{ Name := "All Requests", Data := d1 }, { Name := "Search", Data := d2 }] ∧
      d1.length = p.points ∧ d2.length = p.points ∧
      ∀ i, i < p.points →
        ∃ c1 c2, ts.Labels[i]? = some (p.labelFormat (p.step^[i] p.start)) ∧
          d1[i]? = some c1 ∧ d2[i]? = some c2 ∧
          ((∀ r ∈ table, statKey r ≠ (g, p.bucketKey (p.step^[i] p.start), "")) → c1 = 0) ∧
          ((∀ r ∈ table, statKey r ≠ (g, p.bucketKey (p.step^[i] p.start), "/search")) →
            c2 = 0) ∧
          ((table.map statKey).Nodup →
            textLE (p.bucketKey p.start) (p.bucketKey (p.step^[i] p.start)) = true →
            (∀ r ∈ table, statKey r = (g, p.bucketKey (p.step^[i] p.start), "") →
              c1 = r.Count) ∧
            (∀ r ∈ table, statKey r = (g, p.bucketKey (p.step^[i] p.start), "/search") →
              c2 = r.Count)) := by
  have hplan : ∃ p, plan cal now g = .ok p ∧ p.granularity = g ∧
      p.points = (if g = "hour" then 24 else if g = "day" then 30 else 12) := by
    rcases hg with h | h | h <;> subst h <;> simp [plan]
  obtain ⟨p, hp, hpg, hpts⟩ := hplan
  obtain ⟨h1, h2, h3, h4⟩ := seriesLoop_spec p
    (bucketCountsFromStats table p.granularity "" (p.bucketKey p.start))
    (bucketCountsFromStats table p.granularity "/search" (p.bucketKey p.start)) p.points p.start
  have hts : ∃ ts : TavilyProxy.TimeSeries,
      TimeSeries cal table now g = .ok ts ∧ ts.Granularity = p.granularity ∧
      ts.Labels = (seriesLoop p
        (bucketCountsFromStats table p.granularity "" (p.bucketKey p.start))
        (bucketCountsFromStats table p.granularity "/search" (p.bucketKey p.start))
        p.points p.start).1 ∧
      ts.Series = [⟨"All Requests", (seriesLoop p
        (bucketCountsFromStats table p.granularity "" (p.bucketKey p.start))
        (bucketCountsFromStats table p.granularity "/search" (p.bucketKey p.start))
        p.points p.start).2.1⟩, ⟨"Search", (seriesLoop p
        (bucketCountsFromStats table p.granularity "" (p.bucketKey p.start))
        (bucketCountsFromStats table p.granularity "/search" (p.bucketKey p.start))
        p.points p.start).2.2⟩] := by
    unfold TimeSeries
    rw [hp]
    exact ⟨_, rfl, rfl, rfl, rfl⟩
  obtain ⟨ts, hts1, hts2, hts3, hts4⟩ := hts
  refine ⟨p, ts, _, _, hp, hpg, hpts, hts1, hts2.trans hpg, by rw [hts3]; exact h1, hts4,
    h2, h3, ?_⟩
  rw [hts3]
  intro i hi
  obtain ⟨g1, g2, g3⟩ := h4 i hi
  refine ⟨_, _, g1, g2, g3, ?_, ?_, ?_⟩
  · intro hno
    rw [hpg]
    exact foldl_counts_absent_table table g "" _ _ hno
  · intro hno
    rw [hpg]
    exact foldl_counts_absent_table table g "/search" _ _ hno
  · intro hpk hle
    rw [hpg]
    exact ⟨fun r hr hkey => (bucketCountsFromStats_spec table g "" _ _ hpk).1 r hr hkey hle,
      fun r hr hkey => (bucketCountsFromStats_spec table g "/search" _ _ hpk).1 r hr hkey hle⟩

set_option maxRecDepth 8000 in
/-- C18 at a concrete call: the month series at 2026-03-01 00:30 UTC over the sample
table has 12 labels and 12 points per series; the first bucket, `2025-04`, has no row and
reads 0, the bucket `2026-02` reads the count 2 of its row. -/
theorem TimeSeries_points_witness :
    ∃ (ts : TavilyProxy.TimeSeries) (d1 d2 : List Int),
      TimeSeries utc sampleStats sampleNow "month" = .ok ts ∧ ts.Labels.length = 12 ∧
      ts.Series = [{ Name := "All Requests", Data := d1 }, { Name := "Search", Data := d2 }] ∧
      d1.length = 12 ∧ d2.length = 12 ∧ ts.Labels[0]? = some "2025-04" ∧ d1[0]? = some 0 ∧
      ts.Labels[10]? = some "2026-02" ∧ d1[10]? = some 2 := by
  obtain ⟨p, ts, d1, d2, hp, _, _, hts, _, hlab, hser, hd1, hd2, hpoint⟩ :=
    TimeSeries_points utc sampleStats sampleNow "month" (Or.inr (Or.inr rfl))
  have hp0 : plan utc sampleNow "month" = .ok
      { granularity := "month",
        start := utc.AddDate (utc.Date (utc.Year sampleNow) (utc.Month sampleNow) 1 0) 0 (-11) 0,
        points := 12, step := fun t => utc.AddDate t 0 1 0,
        bucketKey := fun t => utc.Format t "2006-01",
        labelFormat := fun t => utc.Format t "2006-01" } := by
    simp [plan]
  rw [hp0] at hp
  cases hp
  obtain ⟨a1, a2, ha1, ha2, _, ha4, _, _⟩ := hpoint 0 (by decide)
  obtain ⟨b1, b2, hb1, hb2, _, _, _, hb6⟩ := hpoint 10 (by decide)
  refine ⟨ts, d1, d2, hts, hlab, hser, hd1, hd2, ?_, ?_, ?_, ?_⟩
  · rw [ha1]
    decide
  · rw [ha2, ha4 (by decide)]
  · rw [hb1]
    decide
  · rw [hb2, (hb6 (by decide) (by decide)).1
      { Granularity := "month", Bucket := "2026-02", Endpoint := "", Count := 2, UpdatedAt := 0 }
      (by decide) (by decide)]

end StatsService

namespace StatsService

/-- With the empty granularity `TimeSeries` takes the `hour` branch of its `switch` and
succeeds with 24 labels. -/
theorem TimeSeries_empty_granularity (cal : Calendar) (table : List RequestStat) (now : Int) :
    ∃ ts : TavilyProxy.TimeSeries, TimeSeries cal table now "" = .ok ts ∧
      ts.Granularity = "hour" ∧ ts.Labels.length = 24 ∧ ts.Series.length = 2 := by
  have hp : ∃ p, plan cal now "" = .ok p ∧ p.granularity = "hour" ∧ p.points = 24 := by
    simp [plan]
  obtain ⟨p, hp, hpg, hpts⟩ := hp
  unfold TimeSeries
  rw [hp]
  refine ⟨_, rfl, hpg, ?_, rfl⟩
  simp only
  rw [(seriesLoop_spec p _ _ p.points p.start).1, hpts]

/-- C19 (as amended): for every granularity string `g` that is none of `""`, `hour`, `day`
and `month`, `TimeSeries(g)` fails with the error `invalid granularity: g` and returns no
series. -/
theorem TimeSeries_invalid_granularity (cal : Calendar) (table : List RequestStat) (now : Int)
    (g : String) (h0 : g ≠ "") (h1 : g ≠ "hour") (h2 : g ≠ "day") (h3 : g ≠ "month") :
    TimeSeries cal table now g = .error ("invalid granularity: " ++ g) := by
  unfold TimeSeries
  simp [plan, h0, h1, h2, h3]

/-- C19 at a concrete call: the granularity `week` is refused. -/
theorem TimeSeries_invalid_granularity_witness :
    TimeSeries utc sampleStats sampleNow "week" = .error "invalid granularity: week" :=
  TimeSeries_invalid_granularity utc sampleStats sampleNow "week" (by decide) (by decide)
    (by decide) (by decide)

/-- C19 as stated fails for the empty string: it is none of `hour`, `day`, `month`, yet
`TimeSeries("")` succeeds, with granularity `hour`, 24 labels and two series. -/
theorem TimeSeries_empty_is_hour :
    "" ≠ "hour" ∧ "" ≠ "day" ∧ "" ≠ "month" ∧
    ∃ ts : TavilyProxy.TimeSeries, TimeSeries utc sampleStats sampleNow "" = .ok ts ∧
      ts.Granularity = "hour" ∧ ts.Labels.length = 24 ∧ ts.Series.length = 2 :=
  ⟨by decide, by decide, by decide, TimeSeries_empty_granularity utc sampleStats sampleNow⟩

/-- One round of the loop of `BackfillFromLogsIfEmpty` appends the rows of its entry of
`specs` and leaves the logs alone: the two `len(rows) > 0` guards only skip empty inserts. -/
theorem backfill_round (cal : Calendar) (updatedAt : Int) (sp : String × String)
    (store : StatsDB) :
    (let allRows := groupCount (store.request_logs.map (fun l => cal.strftime sp.2 l.CreatedAt))
     let searchRows := groupCount
        ((store.request_logs.filter (fun l => l.Endpoint == "/search")).map
          (fun l => cal.strftime sp.2 l.CreatedAt))
     let store :=
        if allRows.length > 0 then
          { store with request_stats := store.request_stats ++ allRows.map (fun r =>
              { Granularity := sp.1, Bucket := r.1, Endpoint := "", Count := r.2,
                UpdatedAt := updatedAt }) }
        else store
     if searchRows.length > 0 then
        { store with request_stats := store.request_stats ++ searchRows.map (fun r =>
            { Granularity := sp.1, Bucket := r.1, Endpoint := "/search", Count := r.2,
              UpdatedAt := updatedAt }) }
     else store) =
    ({ request_stats := store.request_stats ++ backfillRows cal store.request_logs sp updatedAt,
       request_logs := store.request_logs } : StatsDB) := by
  generalize hA : groupCount (store.request_logs.map
    (fun l => cal.strftime sp.2 l.CreatedAt)) = allRows
  generalize hS : groupCount ((store.request_logs.filter (fun l => l.Endpoint == "/search")).map
    (fun l => cal.strftime sp.2 l.CreatedAt)) = searchRows
  have hrows : backfillRows cal store.request_logs sp updatedAt =
      allRows.map (fun r =>
        ({ Granularity := sp.1, Bucket := r.1, Endpoint := "", Count := r.2,
           UpdatedAt := updatedAt } : RequestStat)) ++
      searchRows.map (fun r =>
        ({ Granularity := sp.1, Bucket := r.1, Endpoint := "/search", Count := r.2,
           UpdatedAt := updatedAt } : RequestStat)) := by
    rw [← hA, ← hS]; rfl
  rw [hrows]
  clear hrows hA hS
  cases store
  cases allRows <;> cases searchRows <;> simp

/-- The loop of `BackfillFromLogsIfEmpty` over a list of specs appends the rows of every
spec, in order, and leaves the logs alone. -/
theorem backfill_fold (cal : Calendar) (updatedAt : Int) (sps : List (String × String))
    (store : StatsDB) :
    sps.foldl (fun store sp =>
      let allRows := groupCount (store.request_logs.map (fun l => cal.strftime sp.2 l.CreatedAt))
      let searchRows := groupCount
        ((store.request_logs.filter (fun l => l.Endpoint == "/search")).map
          (fun l => cal.strftime sp.2 l.CreatedAt))
      let store :=
        if allRows.length > 0 then
          { store with request_stats := store.request_stats ++ allRows.map (fun r =>
              { Granularity := sp.1, Bucket := r.1, Endpoint := "", Count := r.2,
                UpdatedAt := updatedAt }) }
        else store
      if searchRows.length > 0 then
        { store with request_stats := store.request_stats ++ searchRows.map (fun r =>
            { Granularity := sp.1, Bucket := r.1, Endpoint := "/search", Count := r.2,
              UpdatedAt := updatedAt }) }
      else store) store =
    { request_stats := store.request_stats ++
        (sps.map (fun sp => backfillRows cal store.request_logs sp updatedAt)).flatten,
      request_logs := store.request_logs } := by
  induction sps generalizing store with
  | nil => simp
  | cons sp sps ih =>
    rw [List.foldl_cons, backfill_round, ih]
    simp only [List.map_cons, List.flatten_cons, List.append_assoc]

/-- On a store without stats rows `BackfillFromLogsIfEmpty` inserts the rows of the three
specs and leaves the logs alone. -/
theorem Backfill_empty (cal : Calendar) (store : StatsDB) (updatedAt : Int)
    (h : store.request_stats = []) :
    BackfillFromLogsIfEmpty cal store updatedAt =
      { request_stats :=
          (specs.map (fun sp => backfillRows cal store.request_logs sp updatedAt)).flatten,
        request_logs := store.request_logs } := by
  unfold BackfillFromLogsIfEmpty
  rw [if_neg (by simp [h]), backfill_fold, h, List.nil_append]

/-- The number of rows a backfill inserts does not depend on the clock reading stamped
on them. -/
theorem backfillRows_length (cal : Calendar) (logs : List RequestLog) (t1 t2 : Int)
    (sps : List (String × String)) :
    ((sps.map (fun sp => backfillRows cal logs sp t1)).flatten).length =
      ((sps.map (fun sp => backfillRows cal logs sp t2)).flatten).length := by
  induction sps with
  | nil => rfl
  | cons sp sps ih =>
    simp only [List.map_cons, List.flatten_cons, List.length_append, ih]
    simp only [backfillRows, List.length_append, List.length_map]

/-- C20: `BackfillFromLogsIfEmpty` returns the store unchanged whenever the stats table
already holds a row, and calling it a second time (at any clock reading) changes nothing:
the stats table and the logs after two calls are those after one call. -/
theorem Backfill_idempotent (cal : Calendar) (store : StatsDB) (t1 t2 : Int) :
    (store.request_stats ≠ [] → BackfillFromLogsIfEmpty cal store t1 = store) ∧
    BackfillFromLogsIfEmpty cal (BackfillFromLogsIfEmpty cal store t1) t2 =
      BackfillFromLogsIfEmpty cal store t1 := by
  have hne : ∀ (s : StatsDB) (t : Int), s.request_stats ≠ [] →
      BackfillFromLogsIfEmpty cal s t = s := by
    intro s t hs
    unfold BackfillFromLogsIfEmpty
    rw [if_pos (by
      cases hrs : s.request_stats with
      | nil => exact absurd hrs hs
      | cons a l => simp)]
  refine ⟨hne store t1, ?_⟩
  by_cases h : store.request_stats = []
  · rw [Backfill_empty cal store t1 h]
    by_cases hr : (specs.map (fun sp => backfillRows cal store.request_logs sp t1)).flatten = []
    · rw [Backfill_empty cal _ t2 (by simpa only using hr)]
      have hlen := backfillRows_length cal store.request_logs t1 t2 specs
      rw [hr, List.length_nil] at hlen
      rw [hr, List.length_eq_zero.mp hlen.symm]
    · exact hne _ t2 hr
  · rw [hne store t1 h, hne store t2 h]

/-- C20 at concrete stores: a store that already has the sample stats rows is returned as
it is, and on a store with two logs and no stats the first call inserts six rows and the
second call changes nothing. -/
theorem Backfill_idempotent_witness :
    BackfillFromLogsIfEmpty utc { request_stats := sampleStats, request_logs := sampleLogs } 7 =
      { request_stats := sampleStats, request_logs := sampleLogs } ∧
    BackfillFromLogsIfEmpty utc
        (BackfillFromLogsIfEmpty utc { request_stats := [], request_logs := sampleLogs } 7) 9 =
      BackfillFromLogsIfEmpty utc { request_stats := [], request_logs := sampleLogs } 7 ∧
    (BackfillFromLogsIfEmpty utc
      { request_stats := [], request_logs := sampleLogs } 7).request_stats.length = 6 :=
  ⟨(Backfill_idempotent utc { request_stats := sampleStats, request_logs := sampleLogs } 7 9).1
      (by decide),
   (Backfill_idempotent utc { request_stats := [], request_logs := sampleLogs } 7 9).2,
   by decide⟩

end StatsService

/-! ## Key store: admin writes -/

namespace KeyService

/-- After a `Where("id = ?")` update that keeps the identifier, `First` finds the updated
image of the row it found before. -/
theorem First_updateWhereID (db : DB) (id : Nat) (f : APIKey → APIKey)
    (hf : ∀ k, k.ID = id → (f k).ID = id) (id' : Nat) :
    (db.updateWhereID id f).First id' =
      (db.First id').map (fun k => if k.ID = id then f k else k) := by
  unfold DB.First DB.updateWhereID
  simp only
  induction db.api_keys with
  | nil => rfl
  | cons k rest ih =>
    simp only [List.map_cons, List.find?_cons]
    by_cases hk : k.ID = id
    · have hfk := hf k hk
      simp only [hk, if_true, hfk]
      by_cases hid : id = id'
      · subst hid
        simp [hk]
      · have hb : (id == id') = false := by simpa using hid
        simp only [hb]
        exact ih
    · simp only [hk, if_false]
      by_cases hid : k.ID = id'
      · have hb : (k.ID == id') = true := by simpa using hid
        simp only [hb, Option.map_some', hk, if_false]
      · have hb : (k.ID == id') = false := by simpa using hid
        simp only [hb]
        exact ih

/-- C21: for every store, every key `First` finds under `id` and every patch, `Update`
succeeds, saves the key it returns under the same `id`, and that key has: the patch alias
if one is provided; the patch `total_quota` if provided and positive, otherwise the old
one; `used_quota = 0` if `reset_quota` is set (whatever `used_quota` the patch carries),
otherwise the patch value if provided and not negative, otherwise the old one;
`is_active` the provided flag, or `false` when the key is invalid, or the old flag when
none is provided; and the old identifier, secret, `is_invalid` and `last_used_at`. -/
theorem Update_fields (db : DB) (id : Nat) (upd : KeyUpdate) (key : APIKey)
    (h : db.First id = some key) :
    ∃ db' key', Update db id upd = .ok (db', key') ∧ db' = db.Save key' ∧
      db'.First id = some key' ∧
      key'.Alias = (match upd.Alias with
        | some a => a
        | none => key.Alias) ∧
      key'.TotalQuota = (match upd.TotalQuota with
        | some t => if t > 0 then t else key.TotalQuota
        | none => key.TotalQuota) ∧
      key'.UsedQuota = (if upd.ResetQuota = true then 0 else
        match upd.UsedQuota with
        | some u => if u ≥ 0 then u else key.UsedQuota
        | none => key.UsedQuota) ∧
      key'.IsActive = (match upd.IsActive with
        | some a => if key.IsInvalid = true then false else a
        | none => key.IsActive) ∧
      key'.IsInvalid = key.IsInvalid ∧ key'.Key = key.Key ∧ key'.ID = key.ID ∧
      key'.LastUsedAt = key.LastUsedAt := by
  have hid : key.ID = id := (First_some db id key h).2
  have hex : ∃ r, Update db id upd = .ok r := by
    unfold Update
    simp only [h]
    exact ⟨_, rfl⟩
  obtain ⟨⟨db', key'⟩, hupd⟩ := hex
  refine ⟨db', key', hupd, ?_⟩
  revert hupd
  unfold Update
  split
  · intro hupd
    exact absurd hupd (by simp)
  · rename_i key0 hf
    have hk0 : key0 = key := by
      rw [h] at hf
      exact (Option.some.inj hf).symm
    subst hk0
    intro hupd
    lift_lets at hupd
    extract_lets k1 k2 k3 k4 k5 at hupd
    simp only [Except.ok.injEq, Prod.mk.injEq] at hupd
    obtain ⟨hdb, hkey⟩ := hupd
    have p1 : k1 = { key0 with Alias := (match upd.Alias with
        | some a => a
        | none => key0.Alias) } := by
      cases ha : upd.Alias <;> simp [k1, ha]
    clear_value k1
    have p2 : k2 = { k1 with TotalQuota := (match upd.TotalQuota with
        | some t => if t > 0 then t else k1.TotalQuota
        | none => k1.TotalQuota) } := by
      cases ht : upd.TotalQuota with
      | none => simp [k2, ht]
      | some t => by_cases h0 : t > 0 <;> simp [k2, ht, h0]
    clear_value k2
    have p3 : k3 = { k2 with UsedQuota := (match upd.UsedQuota with
        | some u => if u ≥ 0 then u else k2.UsedQuota
        | none => k2.UsedQuota) } := by
      cases hu : upd.UsedQuota with
      | none => simp [k3, hu]
      | some u => by_cases h0 : u ≥ 0 <;> simp [k3, hu, h0]
    clear_value k3
    have p4 : k4 = { k3 with IsActive := (match upd.IsActive with
        | some a => if k3.IsInvalid = true then false else a
        | none => k3.IsActive) } := by
      cases hi : upd.IsActive with
      | none => simp [k4, hi]
      | some a => cases hinv : k3.IsInvalid <;> cases a <;> simp [k4, hi, hinv]
    clear_value k4
    have p5 : k5 = { k4 with UsedQuota := if upd.ResetQuota = true then 0 else k4.UsedQuota } := by
      cases hr : upd.ResetQuota <;> simp [k5, hr]
    clear_value k5
    subst hkey hdb
    have hkid : k5.ID = id := by rw [p5, p4, p3, p2, p1]; exact hid
    refine ⟨rfl, ?_, ?_, ?_, ?_, ?_, ?_, ?_, ?_, ?_⟩
    · unfold DB.Save
      rw [First_updateWhereID db k5.ID (fun _ => k5) (fun _ _ => rfl) id, h]
      simp [hkid, hid]
    · rw [p5, p4, p3, p2, p1]
    · rw [p5, p4, p3, p2, p1]
    · rw [p5, p4, p3, p2, p1]
    · rw [p5, p4, p3, p2, p1]
    · rw [p5, p4, p3, p2, p1]
    · rw [p5, p4, p3, p2, p1]
    · rw [p5, p4, p3, p2, p1]
    · rw [p5, p4, p3, p2, p1]

/-- C21 at the store of the tests: the patch `samplePatch` (new alias, a quota of 0, a
usage of 5, `reset_quota`) on the key 7/1000 stores usage 0, keeps the quota 1000 and sets
the new alias. -/
theorem Update_fields_witness :
    testDB.First 1 = some (sampleKey 1 1000 7 true false) ∧
    ∃ db' key', Update testDB 1 samplePatch = .ok (db', key') ∧
      db'.First 1 = some key' ∧ key'.Alias = "new" ∧ key'.TotalQuota = 1000 ∧
      key'.UsedQuota = 0 ∧ key'.IsActive = true ∧ key'.Key = "tvly-test" := by
  refine ⟨by decide, ?_⟩
  obtain ⟨db', key', h1, _, h3, h4, h5, h6, h7, _, h9, _⟩ :=
    Update_fields testDB 1 samplePatch (sampleKey 1 1000 7 true false) (by decide)
  exact ⟨db', key', h1, h3, h4, h5, h6, h7, h9⟩

end KeyService

namespace KeyService

/-- A `Where("id = ?", id)` update that keeps the identifier turns the row `First` finds
under `id` into its image. -/
theorem First_updateWhereID_self (db : DB) (id : Nat) (f : APIKey → APIKey) (key : APIKey)
    (hf : ∀ k, (f k).ID = k.ID) (h : db.First id = some key) :
    (db.updateWhereID id f).First id = some (f key) := by
  rw [First_updateWhereID db id f (fun k hk => (hf k).trans hk) id, h]
  simp [(First_some db id key h).2]

/-- C22 (as amended): for every store, every key `First` finds under `id`, every `used`
and every provided `total`: when `total > 0`, `SetUsage(id, used, total)` stores
`total_quota = total` and `used_quota = min(used, total)` for that key; when `total ≤ 0`
the total is ignored, `total_quota` stays as it was and `used_quota = used` is stored.
No other field of the key changes. -/
theorem SetUsage_total (db : DB) (id : Nat) (used t : Int) (key : APIKey)
    (h : db.First id = some key) :
    (0 < t → (SetUsage db id used (some t)).First id =
      some { key with UsedQuota := min used t, TotalQuota := t }) ∧
    (t ≤ 0 → (SetUsage db id used (some t)).First id =
      some { key with UsedQuota := used }) := by
  have hid : key.ID = id := (First_some db id key h).2
  constructor
  · intro ht
    have hpos : t > 0 := ht
    simp only [SetUsage, hpos, if_true]
    refine Eq.trans (First_updateWhereID_self db id _ key ?_ h) ?_
    · intro k
      rfl
    · by_cases hu : used > t
      · simp only [if_pos hu, min_eq_right (le_of_lt hu)]
      · simp only [if_neg hu, min_eq_left (not_lt.mp hu)]
  · intro ht
    have hneg : ¬ t > 0 := by omega
    simp only [SetUsage, hneg, if_false]
    exact First_updateWhereID_self db id _ key (fun _ => rfl) h

/-- C22 at the store of the tests: on the key 7/1000, `SetUsage(1, 1200, 500)` stores
500/500. -/
theorem SetUsage_total_witness :
    testDB.First 1 = some (sampleKey 1 1000 7 true false) ∧
    (SetUsage testDB 1 1200 (some 500)).First 1 = some (sampleKey 1 500 500 true false) :=
  ⟨by decide,
    ((SetUsage_total testDB 1 1200 500 (sampleKey 1 1000 7 true false) (by decide)).1
      (by decide)).trans (by decide)⟩

/-- C22 as stated fails for a provided total of 0: on the key 7/1000,
`SetUsage(1, 5, 0)` leaves `total_quota = 1000`, not 0, and stores `used_quota = 5`, not
`min(5, 0) = 0`. -/
theorem SetUsage_total_zero_ignored :
    (SetUsage testDB 1 5 (some 0)).First 1 = some (sampleKey 1 1000 5 true false) ∧
    (1000 : Int) ≠ 0 ∧ (5 : Int) ≠ min 5 0 := by
  refine ⟨by decide, by decide, by decide⟩

/-- C23 (as amended): for every store, every key `First` finds under `id` and every
`used`, `SetUsage(id, used, nil)` stores `used_quota = used` and changes nothing else; it
does not clamp, so when `used` is greater than the key's `total_quota` the stored row has
`used_quota > total_quota` and the quota invariant of the store is broken. -/
theorem SetUsage_nil_total (db : DB) (id : Nat) (used : Int) (key : APIKey)
    (h : db.First id = some key) :
    (SetUsage db id used none).First id = some { key with UsedQuota := used } ∧
    (key.TotalQuota < used → ¬ QuotaInv (SetUsage db id used none)) := by
  have hid : key.ID = id := (First_some db id key h).2
  have hfirst : (SetUsage db id used none).First id = some { key with UsedQuota := used } := by
    simp only [SetUsage]
    exact First_updateWhereID_self db id _ key (fun _ => rfl) h
  refine ⟨hfirst, ?_⟩
  intro hlt hinv
  have hmem := (First_some _ _ _ hfirst).1
  have := (hinv _ hmem).2
  simp only at this
  omega

/-- C23 at the store of the tests: on the key 7/1000, `SetUsage(1, 1500, nil)` stores
1500/1000 and the store no longer satisfies the quota invariant. -/
theorem SetUsage_nil_total_witness :
    testDB.First 1 = some (sampleKey 1 1000 7 true false) ∧
    (SetUsage testDB 1 1500 none).First 1 = some (sampleKey 1 1000 1500 true false) ∧
    ¬ QuotaInv (SetUsage testDB 1 1500 none) :=
  have h := SetUsage_nil_total testDB 1 1500 (sampleKey 1 1000 7 true false) (by decide)
  ⟨by decide, h.1.trans (by decide), h.2 (by decide)⟩

/-- C23 as stated fails: on the key 7/1000, `SetUsage(1, 2000, nil)` stores
`used_quota = 2000`, not the existing `total_quota = 1000`, and the invariant
`used_quota ≤ total_quota` does not hold afterwards. -/
theorem SetUsage_nil_total_no_clamp :
    (SetUsage testDB 1 2000 none).First 1 = some (sampleKey 1 1000 2000 true false) ∧
    (2000 : Int) ≠ 1000 ∧ ¬ QuotaInv (SetUsage testDB 1 2000 none) := by
  refine ⟨by decide, by decide, by decide⟩

end KeyService

/-! ## Log listing -/

namespace LogService

/-- C24: for every log table, page, page size and status code `c`, `List` with the filter
`c` returns only logs of the table whose `status_code` is `c`, in descending `id` order
(strictly descending when the ids of the table are distinct), at most `size` of them,
where `size` is the requested size, or 20 when that is `≤ 0` or `> 200`, and the page is
the requested one, or 1 when that is `< 1`; `Total` is the number of all logs of the
table with `status_code = c`, whatever page is requested. -/
theorem List_filtered (logs : List RequestLog) (page size c : Int) :
    (∀ l ∈ (ListLogs logs page size (some c)).Items, l ∈ logs ∧ l.StatusCode = c) ∧
    (ListLogs logs page size (some c)).Items.Pairwise (fun a b => a.ID ≥ b.ID) ∧
    ((logs.map (fun l => l.ID)).Nodup →
      (ListLogs logs page size (some c)).Items.Pairwise (fun a b => a.ID > b.ID)) ∧
    (ListLogs logs page size (some c)).Size = (if size ≤ 0 ∨ size > 200 then 20 else size) ∧
    (ListLogs logs page size (some c)).Page = (if page < 1 then 1 else page) ∧
    ((ListLogs logs page size (some c)).Items.length : Int) ≤ (ListLogs logs page size (some c)).Size ∧
    (ListLogs logs page size (some c)).Total = (logs.countP (fun l => l.StatusCode == c) : Int) ∧
    ∀ page2 : Int, (ListLogs logs page2 size (some c)).Total = (ListLogs logs page size (some c)).Total := by
  have hsub : ∀ (page size : Int), (ListLogs logs page size (some c)).Items.Sublist
      ((logs.filter (selected (some c))).insertionSort (fun a b => a.ID ≥ b.ID)) := by
    intro page size
    simp only [ListLogs]
    exact (List.take_sublist _ _).trans (List.drop_sublist _ _)
  have hsorted : ((logs.filter (selected (some c))).insertionSort
      (fun a b => a.ID ≥ b.ID)).Pairwise (fun a b => a.ID ≥ b.ID) := by
    haveI : IsTotal RequestLog (fun a b => a.ID ≥ b.ID) := ⟨fun a b => le_total b.ID a.ID⟩
    haveI : IsTrans RequestLog (fun a b => a.ID ≥ b.ID) := ⟨fun _ _ _ hab hbc => le_trans hbc hab⟩
    exact List.sorted_insertionSort (fun a b : RequestLog => a.ID ≥ b.ID) _
  have hperm := List.perm_insertionSort (fun a b : RequestLog => a.ID ≥ b.ID)
    (logs.filter (selected (some c)))
  refine ⟨?_, hsorted.sublist (hsub page size), ?_, rfl, rfl, ?_, ?_, ?_⟩
  · intro l hl
    have h1 := hperm.mem_iff.mp ((hsub page size).subset hl)
    have h2 := List.mem_filter.mp h1
    refine ⟨h2.1, ?_⟩
    simpa [selected] using h2.2
  · intro hnd
    have hnd1 : ((logs.filter (selected (some c))).map (fun l => l.ID)).Nodup :=
      hnd.sublist ((List.filter_sublist _).map _)
    have hnd2 : (((logs.filter (selected (some c))).insertionSort
        (fun a b => a.ID ≥ b.ID)).map (fun l => l.ID)).Nodup :=
      (hperm.map _).nodup_iff.mpr hnd1
    have hnd3 : ((ListLogs logs page size (some c)).Items.map (fun l => l.ID)).Nodup :=
      hnd2.sublist ((hsub page size).map _)
    have hne := List.pairwise_map.mp hnd3
    refine ((hsorted.sublist (hsub page size)).and hne).imp ?_
    intro a b hab
    exact lt_of_le_of_ne hab.1 (Ne.symm hab.2)
  · simp only [ListLogs]
    rw [List.length_take]
    split_ifs <;> omega
  · have hsel : selected (some c) = fun l => l.StatusCode == c := rfl
    simp only [ListLogs, hsel, List.countP_eq_length_filter]
  · intro page2
    rfl

/-- C24 on the log table of the filter test (`[200, 429, 200]`, filter 200): the ids are
distinct, so the page is strictly descending; the total is 2 and the two items are the
logs 3 and 1 on page 1 with size 20, and the total is still 2 on page 5 with size 1,
where no item is left. -/
theorem List_filtered_witness :
    (threeLogs.map (fun l => l.ID)).Nodup ∧
    (ListLogs threeLogs 1 20 (some 200)).Items.Pairwise (fun a b => a.ID > b.ID) ∧
    (ListLogs threeLogs 1 20 (some 200)).Total = 2 ∧
    (ListLogs threeLogs 1 20 (some 200)).Items.map (fun l => l.ID) = [3, 1] ∧
    (ListLogs threeLogs 0 0 (some 200)).Items.map (fun l => l.StatusCode) = [200, 200] ∧
    (ListLogs threeLogs 5 1 (some 200)).Total = 2 ∧
    (ListLogs threeLogs 5 1 (some 200)).Items = [] :=
  ⟨by decide, (List_filtered threeLogs 1 20 200).2.2.1 (by decide), by decide, by decide,
    by decide, by decide, by decide⟩

end LogService

/-! ## Key export -/

namespace httpserver

open KeyService

/-- The rows `KeyService.List` returns are the rows of the table, by descending id. -/
theorem ListKeys_sorted (db : DB) :
    (ListKeys db).Perm db.api_keys ∧ (ListKeys db).Pairwise (fun a b => a.ID ≥ b.ID) := by
  haveI : IsTotal APIKey (fun a b => a.ID ≥ b.ID) := ⟨fun a b => le_total b.ID a.ID⟩
  haveI : IsTrans APIKey (fun a b => a.ID ≥ b.ID) := ⟨fun _ _ _ hab hbc => le_trans hbc hab⟩
  exact ⟨List.perm_insertionSort _ _, List.sorted_insertionSort (fun a b : APIKey => a.ID ≥ b.ID) _⟩

/-- C25: for every key store, the exported lines are the secrets of the rows with
`is_invalid = false`, one line per such row (exhausted and inactive rows included, no
invalid row), in descending id order; the body is these lines separated by newlines and
`X-Exported-Count` is the decimal number of exported lines, which is the number of rows
with `is_invalid = false`. -/
theorem export_valid_keys (db : DB) :
    ∃ rows : List APIKey,
      rows.Perm (db.api_keys.filter (fun k => !k.IsInvalid)) ∧
      rows.Pairwise (fun a b => a.ID ≥ b.ID) ∧
      exportedKeys db = rows.map (fun k => k.Key) ∧
      (∀ k ∈ db.api_keys, k.IsInvalid = false → k.Key ∈ exportedKeys db) ∧
      (∀ k ∈ rows, k ∈ db.api_keys ∧ k.IsInvalid = false) ∧
      (handleExportKeys db).Body = "\n".intercalate (exportedKeys db) ∧
      (handleExportKeys db).ExportedCount = toString (exportedKeys db).length ∧
      (exportedKeys db).length = db.api_keys.countP (fun k => !k.IsInvalid) ∧
      (handleExportKeys db).ContentDisposition = "attachment" := by
  obtain ⟨hperm, hsorted⟩ := ListKeys_sorted db
  have hp : ((ListKeys db).filter (fun k => !k.IsInvalid)).Perm
      (db.api_keys.filter (fun k => !k.IsInvalid)) := hperm.filter _
  refine ⟨(ListKeys db).filter (fun k => !k.IsInvalid), hp,
    hsorted.sublist (List.filter_sublist _), rfl, ?_, ?_, rfl, rfl, ?_, rfl⟩
  · intro k hk hinv
    refine List.mem_map.mpr ⟨k, ?_, rfl⟩
    exact hp.mem_iff.mpr (List.mem_filter.mpr ⟨hk, by simp [hinv]⟩)
  · intro k hk
    have := List.mem_filter.mp (hp.mem_iff.mp hk)
    exact ⟨this.1, by simpa using this.2⟩
  · simp only [exportedKeys, List.length_map, List.countP_eq_length_filter]
    exact hp.length_eq

/-- C25 on the store of the export test (active, exhausted and invalid key, created in this
order): the exhausted key is exported, the body is the exhausted secret, a newline and the
active secret, and `X-Exported-Count` is 2. -/
theorem export_valid_keys_witness :
    "tvly-exhausted" ∈ exportedKeys exportStore ∧
    (handleExportKeys exportStore).Body = "tvly-exhausted\ntvly-active" ∧
    (handleExportKeys exportStore).ExportedCount = "2" ∧
    exportedKeys exportStore = ["tvly-exhausted", "tvly-active"] := by
  refine ⟨?_, by decide, by decide, by decide⟩
  obtain ⟨rows, _, _, _, h, _⟩ := export_valid_keys exportStore
  exact h { ID := 2, Key := "tvly-exhausted", Alias := "exhausted", TotalQuota := 1000,
            UsedQuota := 1000, IsActive := true, IsInvalid := false, LastUsedAt := none }
    (by decide) rfl

end httpserver

/-! ## Master key check -/

namespace MasterKeyService

/-- A bitwise `or` is 0 only when both sides are. -/
theorem lor_eq_zero (a b : Nat) : a ||| b = 0 ↔ a = 0 ∧ b = 0 := by
  constructor
  · intro h
    have hbits : ∀ i, (a ||| b).testBit i = false := by
      intro i
      rw [h]
      exact Nat.zero_testBit i
    simp only [Nat.testBit_or, Bool.or_eq_false_iff] at hbits
    exact ⟨Nat.eq_of_testBit_eq (fun i => by simp [(hbits i).1]),
      Nat.eq_of_testBit_eq (fun i => by simp [(hbits i).2])⟩
  · rintro ⟨rfl, rfl⟩
    rfl

/-- The accumulator of `ConstantTimeCompare` ends at 0 exactly when it starts at 0 and every
difference is 0. -/
theorem foldl_lor_eq_zero (l : List Nat) (v : Nat) :
    l.foldl (fun v d => v ||| d) v = 0 ↔ v = 0 ∧ ∀ d ∈ l, d = 0 := by
  induction l generalizing v with
  | nil => simp
  | cons d ds ih =>
    rw [List.foldl_cons, ih, lor_eq_zero]
    simp only [List.mem_cons, forall_eq_or_imp]
    tauto

/-- Two slices of one length whose pairwise `xor` is 0 everywhere are equal. -/
theorem zipWith_xor_zero (x y : List Nat) (hlen : x.length = y.length) :
    (∀ d ∈ List.zipWith (fun a b => a ^^^ b) x y, d = 0) ↔ x = y := by
  induction x generalizing y with
  | nil =>
    cases y with
    | nil => simp
    | cons b ys => simp at hlen
  | cons a xs ih =>
    cases y with
    | nil => simp at hlen
    | cons b ys =>
      simp only [List.length_cons, Nat.add_right_cancel_iff] at hlen
      simp only [List.zipWith_cons_cons, List.mem_cons, forall_eq_or_imp, ih ys hlen,
        Nat.xor_eq_zero, List.cons.injEq]

/-- `ConstantTimeCompare` answers 1 exactly on equal slices. -/
theorem ConstantTimeCompare_eq_one (x y : List Nat) : ConstantTimeCompare x y = 1 ↔ x = y := by
  unfold ConstantTimeCompare ConstantTimeByteEq
  by_cases hlen : x.length = y.length
  · simp only [hlen, ne_eq, not_true_eq_false, if_false]
    rw [← zipWith_xor_zero x y hlen]
    constructor
    · intro h
      split at h
      · rename_i h0
        exact ((foldl_lor_eq_zero _ 0).mp h0).2
      · simp at h
    · intro h
      rw [if_pos ((foldl_lor_eq_zero _ 0).mpr ⟨rfl, h⟩)]
  · simp only [ne_eq, hlen, not_false_eq_true, if_true]
    constructor
    · intro h
      simp at h
    · intro h
      exact absurd (congrArg List.length h) hlen

/-- Two texts with the same bytes are the same text. -/
theorem bytes_inj (s t : String) : bytes s = bytes t ↔ s = t := by
  constructor
  · intro h
    unfold bytes at h
    have hinj : Function.Injective Char.toNat := by
      intro a b hab
      have := congrArg Char.ofNat hab
      simpa using this
    exact String.ext (List.map_injective_iff.mpr hinj h)
  · intro h
    rw [h]

end MasterKeyService

namespace mcpserver

open MasterKeyService

/-- C26: for every cached master key `m` and every presented credential `t`,
`Authenticate(t)` returns true if and only if `m` is not empty and `t` equals `m`.  Every
other credential (the empty one, a `tvly-` key, anything when no master key is cached) is
refused, and the handler of the tool server then answers 401 `unauthorized` without passing
the request on; it passes the request on exactly for the master key. -/
theorem Authenticate_iff (s : MasterKeyService) (t : String) :
    (s.Authenticate t = true ↔ s.key ≠ "" ∧ t = s.key) ∧
    s.Authenticate "" = false ∧
    (¬ (s.key ≠ "" ∧ t = s.key) → s.Authenticate t = false ∧
      NewHandler s t = .unauthorized 401 "unauthorized") ∧
    (NewHandler s t = .base ↔ s.key ≠ "" ∧ t = s.key) := by
  have hiff : s.Authenticate t = true ↔ s.key ≠ "" ∧ t = s.key := by
    unfold Authenticate Get
    simp only
    by_cases h0 : s.key = "" ∨ t = ""
    · rw [if_pos h0]
      constructor
      · intro h
        simp at h
      · rintro ⟨h1, h2⟩
        rcases h0 with h0 | h0
        · exact absurd h0 h1
        · exact absurd (h2 ▸ h0) h1
    · rw [if_neg h0]
      simp only [beq_iff_eq, ConstantTimeCompare_eq_one, bytes_inj]
      constructor
      · intro h
        exact ⟨fun hk => h0 (Or.inl hk), h.symm⟩
      · intro h
        exact h.2.symm
  have hempty : s.Authenticate "" = false := by
    unfold Authenticate
    simp
  refine ⟨hiff, hempty, ?_, ?_⟩
  · intro hno
    have hf : s.Authenticate t = false := by
      cases h : s.Authenticate t with
      | false => rfl
      | true => exact absurd (hiff.mp h) hno
    refine ⟨hf, ?_⟩
    unfold NewHandler
    simp [hf]
  · rw [← hiff]
    unfold NewHandler
    cases h : s.Authenticate t <;> simp

/-- C26 at a concrete master key: a `tvly-` key and the empty credential get the answer
401, the master key itself is passed on. -/
theorem Authenticate_iff_witness :
    NewHandler { key := "master-secret" } "tvly-abc" = .unauthorized 401 "unauthorized" ∧
    NewHandler { key := "master-secret" } "" = .unauthorized 401 "unauthorized" ∧
    NewHandler { key := "" } "" = .unauthorized 401 "unauthorized" ∧
    NewHandler { key := "master-secret" } "master-secret" = .base :=
  ⟨((Authenticate_iff { key := "master-secret" } "tvly-abc").2.2.1 (by decide)).2,
    by decide, by decide, by decide⟩

end mcpserver

/-! ## Tool-server facade: upstream failures -/

namespace mcpserver

/-- C27 (as amended): for every upstream response whose status is outside 200..299, every
body and every outcome of the JSON decoder, the tool result has `IsError = true`, one text
item `Upstream status <code>: <body>`, and as structured content the decoded body when the
body decodes to a JSON object, and `{"raw": <body text>}` in every other case: a body that
is not JSON, and also a body that is JSON but not an object (an array, a text, a number, a
boolean, `null`). -/
theorem addProxyTool_error_result (Unmarshal : String → Option JSONValue)
    (resp : ProxyResponse) (h : resp.StatusCode < 200 ∨ resp.StatusCode ≥ 300) :
    (addProxyTool Unmarshal (.ok resp)).IsError = true ∧
    (addProxyTool Unmarshal (.ok resp)).Content =
      ["Upstream status " ++ toString resp.StatusCode ++ ": " ++ resp.Body] ∧
    (∀ m, Unmarshal resp.Body = some (.object m) →
      (addProxyTool Unmarshal (.ok resp)).StructuredContent = .object m) ∧
    ((∀ m, Unmarshal resp.Body ≠ some (.object m)) →
      (addProxyTool Unmarshal (.ok resp)).StructuredContent =
        .object [("raw", .string resp.Body)]) := by
  unfold addProxyTool
  simp only [h, if_true, true_and]
  constructor
  · intro m hm
    rw [hm]
  · intro hno
    cases hu : Unmarshal resp.Body with
    | none => rfl
    | some v =>
      cases v with
      | object m => exact absurd hu (hno m)
      | null => rfl
      | bool b => rfl
      | number n => rfl
      | string s => rfl
      | array a => rfl

/-- C27 at concrete responses: a 432 with a JSON object as body carries the object, a 502
with a body that is not JSON carries `{"raw": ...}`. -/
theorem addProxyTool_error_result_witness :
    (addProxyTool sampleUnmarshal (.ok { StatusCode := 432, Body := quotaBody })).StructuredContent = .object [("error", .string "quota")] ∧
    (addProxyTool sampleUnmarshal (.ok { StatusCode := 432, Body := quotaBody })).Content =
      ["Upstream status 432: " ++ quotaBody] ∧
    (addProxyTool sampleUnmarshal (.ok { StatusCode := 502, Body := "Bad Gateway" })).StructuredContent = .object [("raw", .string "Bad Gateway")] :=
  ⟨(addProxyTool_error_result sampleUnmarshal
      { StatusCode := 432, Body := quotaBody } (Or.inr (by decide))).2.2.1 _ rfl,
    (addProxyTool_error_result sampleUnmarshal
      { StatusCode := 432, Body := quotaBody } (Or.inr (by decide))).2.1.trans
      (by decide),
    rfl⟩

/-- C27 as stated fails for a body that is valid JSON but not an object: on a 500 with the
body `[]`, which decodes to the empty array, the structured content is `{"raw": "[]"}` and
not the decoded array. -/
theorem addProxyTool_array_body_is_raw :
    sampleUnmarshal "[]" = some (.array []) ∧
    (addProxyTool sampleUnmarshal (.ok { StatusCode := 500, Body := "[]" })).IsError = true ∧
    (addProxyTool sampleUnmarshal (.ok { StatusCode := 500, Body := "[]" })).StructuredContent =
      .object [("raw", .string "[]")] ∧
    (addProxyTool sampleUnmarshal (.ok { StatusCode := 500, Body := "[]" })).StructuredContent ≠
      .array [] := by
  refine ⟨rfl, rfl, rfl, ?_⟩
  intro h
  cases h

end mcpserver

/-! ## Auto-sync driver: one tick -/

namespace jobs

open KeyService QuotaSyncService

/-- `time.Since` compared with a duration that fits 64 bits agrees with the comparison of
the instants. -/
theorem Since_lt (now t d : Int) (h0 : 0 < d) (h1 : d < 2 ^ 63) :
    Since now t < d ↔ now - d < t := by
  unfold Since
  simp only
  split_ifs <;> omega

/-- One tick whose three reads succeed, in closed form: it starts the run and sets the
latch when the latch is free, the setting is on and the last run is not too recent, and
otherwise it leaves everything as it was. -/
theorem tick_ok (running enabled : Bool) (m r : Int) (lastRunAt : Option Int) (now : Int) :
    ((running = false ∧ enabled = true ∧
        ∀ t, lastRunAt = some t → ¬ (Since now t < wrapInt64 (max 1 m * timeMinute))) →
      StartAutoQuotaSync.tick running (.ok enabled) (.ok m) (.ok r) lastRunAt now =
        { running := true,
          started := some { concurrency := 1, interval := max 0 (min r 60) * timeSecond } }) ∧
    (¬ (running = false ∧ enabled = true ∧
        ∀ t, lastRunAt = some t → ¬ (Since now t < wrapInt64 (max 1 m * timeMinute))) →
      StartAutoQuotaSync.tick running (.ok enabled) (.ok m) (.ok r) lastRunAt now =
        { running := running, started := none }) := by
  have hmax : (if m < 1 then 1 else m) = max 1 m := by
    split_ifs <;> omega
  have hclamp : (if (if r < 0 then 0 else r) > 60 then 60 else (if r < 0 then 0 else r)) =
      max 0 (min r 60) := by
    split_ifs <;> omega
  have hsec : wrapInt64 (max 0 (min r 60) * timeSecond) = max 0 (min r 60) * timeSecond := by
    apply wrapInt64_eq <;> simp only [timeSecond] <;> omega
  unfold StartAutoQuotaSync.tick
  simp only [hmax, hclamp, hsec]
  cases running <;> cases enabled <;> cases lastRunAt <;> simp [CompareAndSwap]

/-- C28 (as amended): on every tick whose three settings reads succeed and whose
`auto_sync_interval_minutes` is at most 153722867 (the interval then fits the 64-bit
`time.Duration`), a reconciliation run is started if and only if the latch `running` is not
set, `auto_sync_enabled` is true, and `auto_sync_last_run_at` is absent or not newer than
`now` minus `max(1, auto_sync_interval_minutes)` minutes; for every setting the run is
started exactly when `time.Since` of the last run is not below the interval as the tick
computes it.  A started run sets the latch and calls `SyncAllWithConcurrencyAndInterval`
with concurrency 1, which is one worker, and with the interval
`auto_sync_request_interval_seconds` clamped to `[0, 60]` seconds, which the reconciler uses
as it is.  A tick with a failed read starts nothing. -/
theorem tick_starts_iff (running enabled : Bool) (m r : Int) (lastRunAt : Option Int)
    (now : Int) :
    (((StartAutoQuotaSync.tick running (.ok enabled) (.ok m) (.ok r) lastRunAt now).started.isSome
        = true) ↔
      running = false ∧ enabled = true ∧
        ∀ t, lastRunAt = some t → ¬ (Since now t < wrapInt64 (max 1 m * timeMinute))) ∧
    (m ≤ 153722867 →
      (((StartAutoQuotaSync.tick running (.ok enabled) (.ok m) (.ok r) lastRunAt now
          ).started.isSome = true) ↔
        running = false ∧ enabled = true ∧
          ∀ t, lastRunAt = some t → t ≤ now - max 1 m * timeMinute)) ∧
    (∀ call, (StartAutoQuotaSync.tick running (.ok enabled) (.ok m) (.ok r) lastRunAt now).started
        = some call →
      (StartAutoQuotaSync.tick running (.ok enabled) (.ok m) (.ok r) lastRunAt now).running
        = true ∧
      call.concurrency = 1 ∧ call.interval = max 0 (min r 60) * timeSecond ∧
      clampInterval call.interval = call.interval ∧
      ∀ n : Nat, 1 ≤ n → workerCount call.concurrency n = 1) ∧
    (∀ (err : String) (e : Except String Bool) (mi ri : Except String Int),
      e = .error err ∨ mi = .error err ∨ ri = .error err →
      (StartAutoQuotaSync.tick running e mi ri lastRunAt now).started = none) := by
  obtain ⟨hyes, hno⟩ := tick_ok running enabled m r lastRunAt now
  have hexact : ((StartAutoQuotaSync.tick running (.ok enabled) (.ok m) (.ok r) lastRunAt now
      ).started.isSome = true) ↔
      running = false ∧ enabled = true ∧
        ∀ t, lastRunAt = some t → ¬ (Since now t < wrapInt64 (max 1 m * timeMinute)) := by
    constructor
    · intro h
      by_contra hc
      rw [hno hc] at h
      simp at h
    · intro h
      rw [hyes h]
      rfl
  refine ⟨hexact, ?_, ?_, ?_⟩
  · intro hm
    rw [hexact]
    have hw : wrapInt64 (max 1 m * timeMinute) = max 1 m * timeMinute := by
      apply wrapInt64_eq <;> simp only [timeMinute] <;> omega
    rw [hw]
    have hlt : ∀ t, Since now t < max 1 m * timeMinute ↔ now - max 1 m * timeMinute < t := by
      intro t
      apply Since_lt <;> simp only [timeMinute] <;> omega
    simp only [hlt, not_lt]
  · intro call hcall
    by_cases hc : running = false ∧ enabled = true ∧
        ∀ t, lastRunAt = some t → ¬ (Since now t < wrapInt64 (max 1 m * timeMinute))
    · rw [hyes hc] at hcall ⊢
      simp only [Option.some.injEq] at hcall
      subst hcall
      refine ⟨rfl, rfl, rfl, ?_, ?_⟩
      · unfold clampInterval maxQuotaSyncInterval
        simp only [timeSecond]
        split_ifs <;> omega
      · intro n hn
        simp only [workerCount, defaultQuotaSyncConcurrency, maxQuotaSyncConcurrency]
        split_ifs <;> omega
    · rw [hno hc] at hcall
      simp at hcall
  · intro err e mi ri h
    unfold StartAutoQuotaSync.tick
    rcases h with h | h | h
    · subst h
      cases running <;> simp
    · subst h
      cases running <;> cases e <;> simp
    · subst h
      cases running <;> cases e <;> cases mi <;> simp

/-- C28 at concrete ticks, interval 60 minutes and request interval 90 seconds: with the
last run two hours ago a run is started with concurrency 1 and an interval of 60 s; with
the last run ten minutes ago, with the latch set, or with the setting off, nothing is
started. -/
theorem tick_starts_iff_witness :
    (60 : Int) ≤ 153722867 ∧
    (StartAutoQuotaSync.tick false (.ok true) (.ok 60) (.ok 90) (some 0) 7200000000000
      ).started.isSome = true ∧
    StartAutoQuotaSync.tick false (.ok true) (.ok 60) (.ok 90) (some 0) 7200000000000 =
      { running := true, started := some { concurrency := 1, interval := 60000000000 } } ∧
    (StartAutoQuotaSync.tick false (.ok true) (.ok 60) (.ok 90) (some 0) 600000000000
      ).started = none ∧
    (StartAutoQuotaSync.tick true (.ok true) (.ok 60) (.ok 90) none 600000000000
      ).started = none ∧
    (StartAutoQuotaSync.tick false (.ok false) (.ok 60) (.ok 90) none 600000000000
      ).started = none :=
  ⟨by decide,
    ((tick_starts_iff false true 60 90 (some 0) 7200000000000).2.1 (by decide)).mpr
      ⟨rfl, rfl, fun t ht => by
        cases ht
        decide⟩,
    by decide, by decide, by decide, by decide⟩

/-- C28 as stated fails for an interval setting that does not fit a `time.Duration`: with
`auto_sync_interval_minutes = 153722868` the product with `time.Minute` wraps to a negative
duration, and a tick one nanosecond after the last run starts a run, although the last run
is newer than `now` minus the interval. -/
theorem tick_interval_wraps :
    (StartAutoQuotaSync.tick false (.ok true) (.ok 153722868) (.ok 0) (some 0) 1
      ).started.isSome = true ∧
    wrapInt64 (max 1 153722868 * timeMinute) = -9223371993709551616 ∧
    ¬ ((0 : Int) ≤ 1 - max 1 153722868 * timeMinute) := by
  refine ⟨by decide, by decide, by decide⟩

end jobs

namespace KeyService

/-- C29: for every key store, every sort and every outcome of the tie shuffle, the list
`Candidates` returns is a rearrangement of the eligible rows (`is_active`, not
`is_invalid`, `used_quota < total_quota`) of the table: every row occurs in it as often as
among the eligible rows, a key is returned exactly when it is an eligible row, and when
the rows of the table are distinct no key is returned twice and every eligible row is
returned exactly once. -/
theorem Candidates_perm (srt : SliceSort) (rng : Nat → List (Nat × Nat)) (db : DB) :
    (Candidates srt rng db).Perm (db.api_keys.filter eligible) ∧
    (∀ k, (Candidates srt rng db).count k = (db.api_keys.filter eligible).count k) ∧
    (∀ k, k ∈ Candidates srt rng db ↔ k ∈ db.api_keys ∧ eligible k = true) ∧
    (Candidates srt rng db).length = (db.api_keys.filter eligible).length ∧
    (db.api_keys.Nodup → (Candidates srt rng db).Nodup ∧
      ∀ k ∈ db.api_keys, eligible k = true → (Candidates srt rng db).count k = 1) := by
  have hperm : (Candidates srt rng db).Perm (db.api_keys.filter eligible) := by
    unfold Candidates
    simp only
    split
    · rename_i h0
      rw [List.length_eq_zero.mp h0]
    · refine (tieLoop_perm rng _ 0 _ (le_refl _)).trans ?_
      refine ((srt.perm _).map _).trans ?_
      rw [List.map_map]
      have hid : ((fun s : scored => s.key) ∘ fun k : APIKey =>
          ({ key := k, remaining := wrapInt64 (k.TotalQuota - k.UsedQuota) } : scored)) = id := rfl
      rw [hid, List.map_id]
  refine ⟨hperm, fun k => hperm.count_eq k, fun k => ?_, hperm.length_eq, fun hnd => ?_⟩
  · rw [hperm.mem_iff, List.mem_filter]
  · have hnd2 : (Candidates srt rng db).Nodup := hperm.nodup_iff.mpr (hnd.filter _)
    refine ⟨hnd2, fun k hk he => ?_⟩
    exact List.count_eq_one_of_mem hnd2 (hperm.mem_iff.mpr (List.mem_filter.mpr ⟨hk, he⟩))

/-- C29 at the sample pool, with a shuffle that swaps the first two entries of every
group: the three eligible rows come back, each once. -/
theorem Candidates_perm_witness :
    samplePool.api_keys.Nodup ∧
    (Candidates insertionSlice (fun _ => [(0, 1)]) samplePool).Nodup ∧
    (Candidates insertionSlice (fun _ => [(0, 1)]) samplePool).length = 3 ∧
    (Candidates insertionSlice (fun _ => [(0, 1)]) samplePool).count
      (sampleKey 4 400 0 true false) = 1 :=
  have h := Candidates_perm insertionSlice (fun _ => [(0, 1)]) samplePool
  ⟨by decide, (h.2.2.2.2 (by decide)).1, h.2.2.2.1.trans (by decide),
    (h.2.2.2.2 (by decide)).2 _ (by decide) (by decide)⟩

end KeyService

/-! ## Stats aggregator: totals -/

namespace StatsService

/-- The total of a table with one more row in front. -/
theorem sumCounts_cons (r : RequestStat) (rs : List RequestStat) (g e : String) :
    sumCounts (r :: rs) g e =
      (if r.Granularity = g ∧ r.Endpoint = e then r.Count else 0) + sumCounts rs g e := by
  unfold sumCounts
  by_cases h : r.Granularity = g ∧ r.Endpoint = e
  · obtain ⟨rfl, rfl⟩ := h
    simp
  · have hb : (r.Granularity == g && r.Endpoint == e) = false := by
      rw [Bool.eq_false_iff]
      simpa using h
    simp only [List.filter_cons, hb, if_neg h, Bool.false_eq_true, if_false, zero_add]

/-- The total of two tables put together. -/
theorem sumCounts_append (l1 l2 : List RequestStat) (g e : String) :
    sumCounts (l1 ++ l2) g e = sumCounts l1 g e + sumCounts l2 g e := by
  unfold sumCounts
  rw [List.filter_append, List.map_append, List.sum_append]

/-- Adding `inc` to the rows under one primary key of a table with distinct primary keys
adds `inc` to the total of that granularity and endpoint when there is such a row, and
changes no other total. -/
theorem sumCounts_bump (table : List RequestStat) (key : String × String × String)
    (inc updatedAt : Int) (g e : String) (hnd : (table.map statKey).Nodup) :
    sumCounts (table.map (fun r =>
        if statKey r == key then { r with Count := r.Count + inc, UpdatedAt := updatedAt }
        else r)) g e =
      sumCounts table g e +
        (if key ∈ table.map statKey ∧ key.1 = g ∧ key.2.2 = e then inc else 0) := by
  induction table with
  | nil => simp [sumCounts]
  | cons r rs ih =>
    simp only [List.map_cons, List.nodup_cons] at hnd
    obtain ⟨hr, hrs⟩ := hnd
    have ih2 := ih hrs
    simp only [List.map_cons, sumCounts_cons, ih2, List.mem_cons]
    by_cases hk : statKey r = key
    · subst hk
      simp only [beq_self_eq_true, if_true, hr, false_and, if_false, add_zero, true_or,
        true_and]
      simp only [statKey]
      by_cases hge : r.Granularity = g ∧ r.Endpoint = e
      · simp only [hge, and_self, if_true]
        ring
      · simp only [if_neg hge]
        ring
    · have hb : (statKey r == key) = false := by
        rw [Bool.eq_false_iff]
        simpa using hk
      have hne : ¬ key = statKey r := fun h => hk h.symm
      simp only [hb, Bool.false_eq_true, if_false, hne, false_or]
      omega

/-- One upsert on a table with distinct primary keys adds `inc` to the total of its
granularity and endpoint, changes no other total, and keeps the primary keys distinct. -/
theorem sumCounts_upsertIncrement (table : List RequestStat) (granularity bucket endpoint : String)
    (inc updatedAt : Int) (hnd : (table.map statKey).Nodup) :
    ((upsertIncrement table granularity bucket endpoint inc updatedAt).map statKey).Nodup ∧
    ∀ g e, sumCounts (upsertIncrement table granularity bucket endpoint inc updatedAt) g e =
      sumCounts table g e + (if granularity = g ∧ endpoint = e then inc else 0) := by
  unfold upsertIncrement
  simp only
  have hkey : ∀ c u : Int, statKey ⟨granularity, bucket, endpoint, c, u⟩ =
      (granularity, bucket, endpoint) := fun _ _ => rfl
  simp only [hkey]
  by_cases hany : table.any (fun r => statKey r == (granularity, bucket, endpoint)) = true
  · simp only [hany, if_true]
    have hmem : (granularity, bucket, endpoint) ∈ table.map statKey := by
      simp only [List.any_eq_true, beq_iff_eq] at hany
      obtain ⟨r, hr, hrk⟩ := hany
      exact List.mem_map.mpr ⟨r, hr, hrk⟩
    constructor
    · have hmap : (table.map (fun r =>
          if statKey r == (granularity, bucket, endpoint) then
            { r with Count := r.Count + inc, UpdatedAt := updatedAt }
          else r)).map statKey = table.map statKey := by
        rw [List.map_map]
        apply List.map_congr_left
        intro r _
        simp only [Function.comp]
        split <;> rfl
      rw [hmap]
      exact hnd
    · intro g e
      rw [sumCounts_bump table (granularity, bucket, endpoint) inc updatedAt g e hnd]
      simp only [hmem, true_and]
  · simp only [hany, Bool.false_eq_true, if_false]
    have hnot : (granularity, bucket, endpoint) ∉ table.map statKey := by
      intro hmem
      apply hany
      obtain ⟨r, hr, hrk⟩ := List.mem_map.mp hmem
      simp only [List.any_eq_true, beq_iff_eq]
      exact ⟨r, hr, hrk⟩
    constructor
    · rw [List.map_append, List.map_singleton, hkey]
      exact List.Nodup.append hnd (List.nodup_singleton _)
        (by
          intro k hk1 hk2
          rw [List.mem_singleton] at hk2
          exact hnot (hk2 ▸ hk1))
    · intro g e
      rw [sumCounts_append, sumCounts_cons]
      simp [sumCounts]

/-- A series of upserts by one on a table with distinct primary keys adds to every total
the number of upserts of its granularity and endpoint, and keeps the keys distinct. -/
theorem sumCounts_foldl (keys : List (String × String × String)) (table : List RequestStat)
    (updatedAt : Int) (hnd : (table.map statKey).Nodup) :
    ((keys.foldl (fun t k => upsertIncrement t k.1 k.2.1 k.2.2 1 updatedAt) table).map
      statKey).Nodup ∧
    ∀ g e, sumCounts (keys.foldl (fun t k => upsertIncrement t k.1 k.2.1 k.2.2 1 updatedAt) table)
        g e =
      sumCounts table g e + (keys.countP (fun k => k.1 == g && k.2.2 == e) : Int) := by
  induction keys generalizing table with
  | nil => exact ⟨hnd, fun g e => by simp⟩
  | cons k ks ih =>
    obtain ⟨h1, h2⟩ := sumCounts_upsertIncrement table k.1 k.2.1 k.2.2 1 updatedAt hnd
    obtain ⟨h3, h4⟩ := ih _ h1
    refine ⟨h3, fun g e => ?_⟩
    rw [List.foldl_cons, h4, h2, List.countP_cons]
    by_cases hk : k.1 = g ∧ k.2.2 = e
    · have hb : (k.1 == g && k.2.2 == e) = true := by simpa using hk
      rw [if_pos hk, if_pos hb]
      push_cast
      ring
    · have hb : ¬ (k.1 == g && k.2.2 == e) = true := by simpa using hk
      rw [if_neg hk, if_neg hb]
      push_cast
      ring

/-- One `RecordRequest` on a table with distinct primary keys keeps the keys distinct, adds
1 to the total of the endpoint `""` of each of the three granularities, and adds 1 to the
`/search` totals exactly when the endpoint is `/search`. -/
theorem sumCounts_RecordRequest (cal : Calendar) (table : List RequestStat) (endpoint : String)
    (occurredAt updatedAt : Int) (hnd : (table.map statKey).Nodup) (g : String)
    (hg : g = "hour" ∨ g = "day" ∨ g = "month") :
    ((RecordRequest cal table endpoint occurredAt updatedAt).map statKey).Nodup ∧
    sumCounts (RecordRequest cal table endpoint occurredAt updatedAt) g "" =
      sumCounts table g "" + 1 ∧
    sumCounts (RecordRequest cal table endpoint occurredAt updatedAt) g "/search" =
      sumCounts table g "/search" + (if endpoint = "/search" then 1 else 0) := by
  rw [RecordRequest_eq_foldl]
  obtain ⟨h1, h2⟩ := sumCounts_foldl (recordKeys cal endpoint occurredAt) table updatedAt hnd
  refine ⟨h1, ?_, ?_⟩
  · rw [h2]
    unfold recordKeys
    by_cases he : endpoint = "/search" <;> rcases hg with h | h | h <;> subst h <;>
      simp [he, List.countP_cons]
  · rw [h2]
    unfold recordKeys
    by_cases he : endpoint = "/search" <;> rcases hg with h | h | h <;> subst h <;>
      simp [he, List.countP_cons]

end StatsService

namespace StatsService

/-- A sequence of `RecordRequest` calls on a table with distinct primary keys keeps the keys
distinct, adds the number of calls to the total of the endpoint `""` of each granularity and
the number of `/search` calls to the `/search` total. -/
theorem sumCounts_calls (cal : Calendar) (calls : List recordCall) (table : List RequestStat)
    (hnd : (table.map statKey).Nodup) (g : String)
    (hg : g = "hour" ∨ g = "day" ∨ g = "month") :
    ((calls.foldl (fun table c => RecordRequest cal table c.endpoint c.occurredAt c.updatedAt)
      table).map statKey).Nodup ∧
    sumCounts (calls.foldl
        (fun table c => RecordRequest cal table c.endpoint c.occurredAt c.updatedAt) table) g "" =
      sumCounts table g "" + (calls.length : Int) ∧
    sumCounts (calls.foldl
        (fun table c => RecordRequest cal table c.endpoint c.occurredAt c.updatedAt) table)
        g "/search" =
      sumCounts table g "/search" + (calls.countP (fun c => c.endpoint == "/search") : Int) := by
  induction calls generalizing table with
  | nil => exact ⟨hnd, by simp, by simp⟩
  | cons c cs ih =>
    obtain ⟨h1, h2, h3⟩ :=
      sumCounts_RecordRequest cal table c.endpoint c.occurredAt c.updatedAt hnd g hg
    obtain ⟨h4, h5, h6⟩ := ih _ h1
    refine ⟨h4, ?_, ?_⟩
    · rw [List.foldl_cons, h5, h2, List.length_cons]
      push_cast
      ring
    · rw [List.foldl_cons, h6, h3, List.countP_cons]
      by_cases he : c.endpoint = "/search"
      · have hb : (c.endpoint == "/search") = true := by simpa using he
        rw [if_pos he, if_pos hb]
        push_cast
        ring
      · have hb : ¬ (c.endpoint == "/search") = true := by simpa using he
        rw [if_neg he, if_neg hb]
        push_cast
        ring

/-- C30: starting from an empty stats table, after any sequence of `RecordRequest` calls, for
each of the granularities `hour`, `day` and `month` the sum of the counts of the rows of
endpoint `""` is the number of calls and the sum of the counts of the `/search` rows is the
number of calls whose endpoint was `/search`; so the three granularities have the same two
totals and no `/search` total exceeds the total of all requests. -/
theorem totals_agree (cal : Calendar) (calls : List recordCall) :
    (∀ g, g = "hour" ∨ g = "day" ∨ g = "month" →
      sumCounts (recordAll cal calls) g "" = (calls.length : Int) ∧
      sumCounts (recordAll cal calls) g "/search" =
        (calls.countP (fun c => c.endpoint == "/search") : Int) ∧
      sumCounts (recordAll cal calls) g "/search" ≤ sumCounts (recordAll cal calls) g "") ∧
    sumCounts (recordAll cal calls) "hour" "" = sumCounts (recordAll cal calls) "day" "" ∧
    sumCounts (recordAll cal calls) "day" "" = sumCounts (recordAll cal calls) "month" "" ∧
    sumCounts (recordAll cal calls) "hour" "/search" =
      sumCounts (recordAll cal calls) "day" "/search" ∧
    sumCounts (recordAll cal calls) "day" "/search" =
      sumCounts (recordAll cal calls) "month" "/search" := by
  have hall : ∀ g, g = "hour" ∨ g = "day" ∨ g = "month" →
      sumCounts (recordAll cal calls) g "" = (calls.length : Int) ∧
      sumCounts (recordAll cal calls) g "/search" =
        (calls.countP (fun c => c.endpoint == "/search") : Int) := by
    intro g hg
    obtain ⟨_, h2, h3⟩ := sumCounts_calls cal calls [] (by simp) g hg
    unfold recordAll
    rw [h2, h3]
    simp [sumCounts]
  have hh := hall "hour" (Or.inl rfl)
  have hd := hall "day" (Or.inr (Or.inl rfl))
  have hm := hall "month" (Or.inr (Or.inr rfl))
  refine ⟨fun g hg => ⟨(hall g hg).1, (hall g hg).2, ?_⟩, ?_, ?_, ?_, ?_⟩
  · rw [(hall g hg).1, (hall g hg).2]
    exact_mod_cast List.countP_le_length _
  · rw [hh.1, hd.1]
  · rw [hd.1, hm.1]
  · rw [hh.2, hd.2]
  · rw [hd.2, hm.2]

set_option maxRecDepth 8000 in
/-- C30 at four concrete calls in UTC (three of them searches; three hours, two days and two
months are touched): every granularity has the total 4 for all requests and 3 for
`/search`; the table itself has 13 rows and its two `/search` day rows count 2 and 1. -/
theorem totals_agree_witness :
    sumCounts (recordAll utc sampleCalls) "hour" "" = 4 ∧
    sumCounts (recordAll utc sampleCalls) "month" "/search" = 3 ∧
    (recordAll utc sampleCalls).length = 13 ∧
    ((recordAll utc sampleCalls).filter
      (fun r => r.Granularity == "day" && r.Endpoint == "/search")).map (fun r => r.Count)
      = [2, 1] :=
  ⟨((totals_agree utc sampleCalls).1 "hour" (Or.inl rfl)).1,
    ((totals_agree utc sampleCalls).1 "month" (Or.inr (Or.inr rfl))).2.1.trans (by decide),
    by decide, by decide⟩

end StatsService

/-! ## Fan-out of the reconciler: the workers a call starts -/

namespace QuotaSyncService

open KeyService

/-- A schedule made of two parts runs as the first part followed by the second. -/
theorem run_append (GetUsage : Nat → String → Except UpstreamError (Int × Option Int))
    (ctxErr : Nat → Option String) (interval : Int) (a b : List fanOutEvent) (st : fanOut) :
    st.run GetUsage ctxErr interval (a ++ b) =
      (st.run GetUsage ctxErr interval a).bind (fun st' => st'.run GetUsage ctxErr interval b) := by
  induction a generalizing st with
  | nil => rfl
  | cons e es ih =>
    simp only [List.cons_append, fanOut.run]
    cases st.step GetUsage ctxErr interval e with
    | none => rfl
    | some st1 => exact ih st1

/-- Every beginning of a schedule that runs also runs. -/
theorem run_take (GetUsage : Nat → String → Except UpstreamError (Int × Option Int))
    (ctxErr : Nat → Option String) (interval : Int) (sched : List fanOutEvent) (st st' : fanOut)
    (h : st.run GetUsage ctxErr interval sched = some st') (k : Nat) :
    ∃ stk, st.run GetUsage ctxErr interval (sched.take k) = some stk := by
  rw [← List.take_append_drop k sched, run_append] at h
  cases hk : st.run GetUsage ctxErr interval (sched.take k) with
  | none =>
    rw [hk] at h
    simp at h
  | some stk => exact ⟨stk, rfl⟩

/-- The count on the events is the number of jobs in flight: after a schedule that runs,
the list of jobs in flight has grown by `inFlightAfter` of the schedule. -/
theorem run_inFlight (GetUsage : Nat → String → Except UpstreamError (Int × Option Int))
    (ctxErr : Nat → Option String) (interval : Int) (sched : List fanOutEvent) (st st' : fanOut)
    (h : st.run GetUsage ctxErr interval sched = some st') :
    (st'.inFlight.length : Int) = st.inFlight.length + inFlightAfter sched := by
  induction sched generalizing st with
  | nil =>
    simp only [fanOut.run, Option.some.injEq] at h
    rw [h]
    simp [inFlightAfter]
  | cons e es ih =>
    simp only [fanOut.run] at h
    split at h
    · simp at h
    · rename_i st1 hstep
      rw [ih st1 h]
      cases e with
      | receive =>
        simp only [fanOut.step] at hstep
        split at hstep
        · simp at hstep
        · split at hstep
          · simp at hstep
          · simp only [Option.some.injEq] at hstep
            subst hstep
            simp only [List.length_append, List.length_singleton, inFlightAfter]
            push_cast
            ring
      | record w =>
        simp only [fanOut.step] at hstep
        split at hstep
        · simp at hstep
        · rename_i j hj
          simp only [Option.some.injEq] at hstep
          obtain ⟨_, _, _, _, hfl, _, _, _⟩ := worker_effect GetUsage ctxErr
            interval { st with inFlight := st.inFlight.eraseIdx w, idle := st.idle + 1 } j
          rw [hstep] at hfl
          have hlt : w < st.inFlight.length := (List.getElem?_eq_some_iff.mp hj).1
          rw [hfl]
          simp only [List.length_eraseIdx, hlt, if_true, inFlightAfter]
          have hpos : 1 ≤ st.inFlight.length := by omega
          push_cast [hpos]
          ring

end QuotaSyncService

namespace QuotaSyncService

open KeyService

/-- As long as workers wait and jobs are left, `k` jobs can be received in a row. -/
theorem run_receives (GetUsage : Nat → String → Except UpstreamError (Int × Option Int))
    (ctxErr : Nat → Option String) (interval : Int) (k : Nat) (st : fanOut)
    (hidle : k ≤ st.idle) (hjobs : k ≤ st.jobs.length) :
    ∃ st', st.run GetUsage ctxErr interval (List.replicate k .receive) = some st' ∧
      st'.jobs.length = st.jobs.length - k ∧
      st'.inFlight.length = st.inFlight.length + k ∧ st'.idle = st.idle - k := by
  induction k generalizing st with
  | zero => exact ⟨st, rfl, by simp, by simp, by simp⟩
  | succ n ih =>
    cases hjs : st.jobs with
    | nil =>
      rw [hjs] at hjobs
      simp at hjobs
    | cons j rest =>
      rw [hjs, List.length_cons] at hjobs
      obtain ⟨st', hrun, h1, h2, h3⟩ := ih
        { st with jobs := rest, inFlight := st.inFlight ++ [j], idle := st.idle - 1 }
        (by simp only; omega) (by simp only; omega)
      refine ⟨st', ?_, ?_, ?_, ?_⟩
      · simp only [List.replicate_succ, fanOut.run, fanOut.step, hjs]
        rw [if_neg (by omega)]
        exact hrun
      · rw [h1]
        simp only [List.length_cons]
        omega
      · rw [h2]
        simp only [List.length_append, List.length_singleton]
        omega
      · rw [h3]
        simp only
        omega

/-- Every job in flight can be recorded, first in first out; this frees the workers and
leaves the jobs not yet sent as they are. -/
theorem run_records (GetUsage : Nat → String → Except UpstreamError (Int × Option Int))
    (ctxErr : Nat → Option String) (interval : Int) (st : fanOut) :
    ∃ st', st.run GetUsage ctxErr interval (List.replicate st.inFlight.length (.record 0))
        = some st' ∧
      st'.inFlight = [] ∧ st'.jobs = st.jobs ∧ st'.idle = st.idle + st.inFlight.length := by
  generalize hfl : st.inFlight = fl
  induction fl generalizing st with
  | nil => exact ⟨st, rfl, hfl, rfl, by simp⟩
  | cons j rest ih =>
    obtain ⟨item, _, _, hjobs, hfl', hidle', _, _⟩ := worker_effect GetUsage ctxErr interval
      { st with inFlight := rest, idle := st.idle + 1 } j
    obtain ⟨st', hrun, h1, h2, h3⟩ := ih (worker GetUsage ctxErr interval
      { st with inFlight := rest, idle := st.idle + 1 } j) hfl'
    refine ⟨st', ?_, h1, ?_, ?_⟩
    · simp only [List.length_cons, List.replicate_succ, fanOut.run, fanOut.step, hfl,
        List.getElem?_cons_zero, List.eraseIdx_cons_zero]
      exact hrun
    · rw [h2, hjobs]
    · rw [h3, hidle']
      simp only [List.length_cons]
      omega

/-- A run of `receive` events counts one job in flight for each. -/
theorem inFlightAfter_receives (k : Nat) :
    inFlightAfter (List.replicate k .receive) = k := by
  induction k with
  | zero => rfl
  | succ n ih =>
    simp only [List.replicate_succ, inFlightAfter, ih]
    push_cast
    ring

/-- With `w` workers waiting, nothing in flight and at least `w` jobs left, the schedule
`burst` runs to the end: every job is sent and recorded. -/
theorem run_burst (GetUsage : Nat → String → Except UpstreamError (Int × Option Int))
    (ctxErr : Nat → Option String) (interval : Int) (st : fanOut) (w : Nat)
    (hfl : st.inFlight = []) (hw : 0 < w) (hidle : st.idle = w) (hjobs : w ≤ st.jobs.length) :
    ∃ st', st.run GetUsage ctxErr interval (burst w (st.jobs.length - w)) = some st' ∧
      st'.jobs = [] ∧ st'.inFlight = [] := by
  obtain ⟨st1, hrun1, hj1, hf1, hi1⟩ := run_receives GetUsage ctxErr interval w st
    (by omega) hjobs
  obtain ⟨st2, hrun2, hf2, hj2, hi2⟩ := run_records GetUsage ctxErr interval st1
  obtain ⟨st3, hrun3, hj3, hf3⟩ := run_oneByOne GetUsage ctxErr interval st2 hf2
    (by rw [hi2, hf1, hfl]; simp only [List.length_nil]; omega)
  refine ⟨st3, ?_, hj3, hf3⟩
  have hlen1 : st1.inFlight.length = w := by
    rw [hf1, hfl]
    simp
  have hlen2 : st2.jobs.length = st.jobs.length - w := by rw [hj2, hj1]
  unfold burst
  rw [run_append, hrun1]
  simp only [Option.some_bind]
  rw [hlen1] at hrun2
  rw [hlen2] at hrun3
  rw [run_append, hrun2]
  simp only [Option.some_bind]
  exact hrun3

end QuotaSyncService

namespace QuotaSyncService

open KeyService

/-- A schedule under which a call on a non-empty key list returns is a schedule the fan-out
started with `workerCount` workers runs, and after every beginning of it the number of jobs
in flight is the count on the events, which is neither negative nor above the number of
workers. -/
theorem accepted_inFlight (GetUsage : Nat → String → Except UpstreamError (Int × Option Int))
    (ctxErr : Nat → Option String) (started ended : Int) (db : DB) (c interval : Int)
    (sched : List fanOutEvent) (hn : (ListKeys db).length ≠ 0)
    (h : (SyncAllWithConcurrencyAndInterval GetUsage ctxErr sched started ended db c
      interval).isSome = true) (k : Nat) :
    ∃ st, (fanOut.init db (ListKeys db) (workerCount c (ListKeys db).length)).run GetUsage
        ctxErr (clampInterval interval) (sched.take k) = some st ∧
      (st.inFlight.length : Int) = inFlightAfter (sched.take k) ∧
      0 ≤ inFlightAfter (sched.take k) ∧
      inFlightAfter (sched.take k) ≤ workerCount c (ListKeys db).length := by
  simp only [SyncAllWithConcurrencyAndInterval, hn, if_false] at h
  cases hrun : (fanOut.init db (ListKeys db) (workerCount c (ListKeys db).length)).run GetUsage
      ctxErr (clampInterval interval) sched with
  | none =>
    rw [hrun] at h
    simp at h
  | some st' =>
    obtain ⟨stk, hk⟩ := run_take GetUsage ctxErr _ sched _ st' hrun k
    have h1 := run_inFlight GetUsage ctxErr _ _ _ stk hk
    have h2 := run_workers GetUsage ctxErr _ _ _ stk hk
    simp only [fanOut.init, List.length_nil, Nat.zero_add, Nat.cast_zero, zero_add] at h1 h2
    have hpos : 0 ≤ workerCount c (ListKeys db).length := by
      simp only [workerCount, defaultQuotaSyncConcurrency, maxQuotaSyncConcurrency]
      split_ifs <;> omega
    refine ⟨stk, hk, h1, ?_, ?_⟩
    · rw [← h1]
      exact Int.natCast_nonneg _
    · rw [← h1]
      omega

/-- C12: for every requested concurrency `c` and every store with a non-empty key list of
length `n`, the number of workers `SyncAllWithConcurrencyAndInterval` starts is `c` clamped
to `[1, 32]` (4 when `c ≤ 0`) and then clamped to `n`, a number between 1 and `min(32, n)`:
under some schedule the call returns after exactly that many workers have held a job at the
same time, and under no schedule for which the call returns do more workers than that hold
a job at the same time (the jobs held being counted on the events, which is the number of
jobs in flight in the state of the fan-out). -/
theorem workerCount_clamped (GetUsage : Nat → String → Except UpstreamError (Int × Option Int))
    (ctxErr : Nat → Option String) (started ended : Int) (db : DB) (c interval : Int)
    (hn : 1 ≤ (ListKeys db).length) :
    workerCount c (ListKeys db).length =
      min (if c ≤ 0 then 4 else min c 32) ((ListKeys db).length : Int) ∧
    1 ≤ workerCount c (ListKeys db).length ∧
    workerCount c (ListKeys db).length ≤ min 32 ((ListKeys db).length : Int) ∧
    (∃ sched k, (SyncAllWithConcurrencyAndInterval GetUsage ctxErr sched started ended db c
        interval).isSome = true ∧
      inFlightAfter (sched.take k) = workerCount c (ListKeys db).length) ∧
    (∀ sched k, (SyncAllWithConcurrencyAndInterval GetUsage ctxErr sched started ended db c
        interval).isSome = true →
      inFlightAfter (sched.take k) ≤ workerCount c (ListKeys db).length ∧
      ∃ st, (fanOut.init db (ListKeys db) (workerCount c (ListKeys db).length)).run GetUsage
          ctxErr (clampInterval interval) (sched.take k) = some st ∧
        (st.inFlight.length : Int) = inFlightAfter (sched.take k)) := by
  have hn' : (1 : Int) ≤ ((ListKeys db).length : Int) := by exact_mod_cast hn
  have hne : (ListKeys db).length ≠ 0 := by omega
  have hform : workerCount c (ListKeys db).length =
      min (if c ≤ 0 then 4 else min c 32) ((ListKeys db).length : Int) ∧
      1 ≤ workerCount c (ListKeys db).length ∧
      workerCount c (ListKeys db).length ≤ min 32 ((ListKeys db).length : Int) ∧
      workerCount c (ListKeys db).length ≤ ((ListKeys db).length : Int) := by
    simp only [workerCount, defaultQuotaSyncConcurrency, maxQuotaSyncConcurrency]
    refine ⟨?_, ?_, ?_, ?_⟩ <;> split_ifs <;> omega
  obtain ⟨h1, h2, h3, h4⟩ := hform
  refine ⟨h1, h2, h3, ?_, ?_⟩
  · have hcast : (((workerCount c (ListKeys db).length).toNat : Nat) : Int) =
        workerCount c (ListKeys db).length := Int.toNat_of_nonneg (by omega)
    have hlen : (fanOut.init db (ListKeys db) (workerCount c (ListKeys db).length)).jobs.length =
        (ListKeys db).length := (mkJobs_spec 0 (ListKeys db)).1
    obtain ⟨st', hrun, hj, hf⟩ := run_burst GetUsage ctxErr (clampInterval interval)
      (fanOut.init db (ListKeys db) (workerCount c (ListKeys db).length))
      (workerCount c (ListKeys db).length).toNat rfl (by omega) rfl (by rw [hlen]; omega)
    refine ⟨burst (workerCount c (ListKeys db).length).toNat
      ((fanOut.init db (ListKeys db) (workerCount c (ListKeys db).length)).jobs.length -
        (workerCount c (ListKeys db).length).toNat),
      (workerCount c (ListKeys db).length).toNat, ?_, ?_⟩
    · simp only [SyncAllWithConcurrencyAndInterval, hne, if_false]
      rw [hrun]
      simp only [hj, hf, and_self, if_true, Option.isSome_some]
    · unfold burst
      rw [List.take_left' (List.length_replicate _ _), inFlightAfter_receives, hcast]
  · intro sched k h
    obtain ⟨st, hrun, hlen, _, hle⟩ :=
      accepted_inFlight GetUsage ctxErr started ended db c interval sched hne h k
    exact ⟨hle, st, hrun, hlen⟩

/-- C12 at a concrete call: the six keys of `samplePool` and concurrency 2.  Two workers
are started: the call returns under the schedule in which two jobs are received at once,
it does not return under a schedule that begins with three `receive` events, and no
beginning of a schedule under which it returns counts more than two jobs in flight. -/
theorem workerCount_clamped_witness :
    1 ≤ (ListKeys samplePool).length ∧
    workerCount 2 (ListKeys samplePool).length = 2 ∧
    (SyncAllWithConcurrencyAndInterval sampleUpstream (fun _ => none) (burst 2 4) 0 0
      samplePool 2 0).isSome = true ∧
    inFlightAfter ((burst 2 4).take 2) = 2 ∧
    (SyncAllWithConcurrencyAndInterval sampleUpstream (fun _ => none)
      (List.replicate 3 .receive ++ List.replicate 3 (.record 0) ++ oneByOne 3) 0 0
      samplePool 2 0) = none ∧
    inFlightAfter ((burst 2 4).take 7) ≤ workerCount 2 (ListKeys samplePool).length :=
  have h := workerCount_clamped sampleUpstream (fun _ => none) 0 0 samplePool 2 0 (by decide)
  ⟨by decide, h.1.trans (by decide), by decide, by decide, by decide,
    (h.2.2.2.2 (burst 2 4) 7 (by decide)).1⟩

/-- C14: for every concurrency `C ≥ 1`, every store and every upstream, under every schedule
for which `SyncAllWithConcurrency(C)` returns: when the key list is empty the call returns
the store as it is and no item, so no upstream call is made at all; otherwise, after every
beginning of the schedule, the number of jobs a worker has received and not yet recorded,
and so the number of upstream usage calls in flight, is the number of jobs in flight in the
state of the fan-out, it is not negative, and it is at most `C`. -/
theorem inFlight_bounded (GetUsage : Nat → String → Except UpstreamError (Int × Option Int))
    (ctxErr : Nat → Option String) (started ended : Int) (db : DB) (C : Int) (hC : 1 ≤ C)
    (sched : List fanOutEvent)
    (h : (SyncAllWithConcurrency GetUsage ctxErr sched started ended db C).isSome = true) :
    ((ListKeys db).length = 0 →
      ∀ db' res, SyncAllWithConcurrency GetUsage ctxErr sched started ended db C =
        some (db', res) → db' = db ∧ res.Total = 0 ∧ res.Items = []) ∧
    ((ListKeys db).length ≠ 0 →
      ∀ k, 0 ≤ inFlightAfter (sched.take k) ∧ inFlightAfter (sched.take k) ≤ C ∧
        ∃ st, (fanOut.init db (ListKeys db) (workerCount C (ListKeys db).length)).run GetUsage
            ctxErr (clampInterval 0) (sched.take k) = some st ∧
          (st.inFlight.length : Int) = inFlightAfter (sched.take k)) := by
  constructor
  · intro hn db' res hres
    simp only [SyncAllWithConcurrency, SyncAllWithConcurrencyAndInterval, hn, if_true,
      Option.some.injEq, Prod.mk.injEq] at hres
    obtain ⟨h1, h2⟩ := hres
    subst h1 h2
    simp
  · intro hn k
    obtain ⟨st, hrun, hlen, h0, hle⟩ :=
      accepted_inFlight GetUsage ctxErr started ended db C 0 sched hn h k
    have hbound : workerCount C (ListKeys db).length ≤ C := by
      simp only [workerCount, defaultQuotaSyncConcurrency, maxQuotaSyncConcurrency]
      split_ifs <;> omega
    exact ⟨h0, le_trans hle hbound, st, hrun, hlen⟩

/-- C14 at a concrete run: six keys, `C = 2`.  The call returns under a schedule in which
the two workers overlap, and after each of its first five events at most two jobs are in
flight; under a schedule that hands out a third job while two are in flight the call does
not return. -/
theorem inFlight_bounded_witness :
    (1 : Int) ≤ 2 ∧
    (SyncAllWithConcurrency sampleUpstream (fun _ => none)
      ([.receive, .receive, .record 1, .receive, .record 0, .record 0] ++ oneByOne 3) 0 0
      samplePool 2).isSome = true ∧
    (SyncAllWithConcurrency sampleUpstream (fun _ => none)
      ([.receive, .receive, .receive, .record 0, .record 0, .record 0] ++ oneByOne 3) 0 0
      samplePool 2) = none ∧
    inFlightAfter (([fanOutEvent.receive, .receive, .record 1, .receive, .record 0, .record 0]
      ++ oneByOne 3).take 2) = 2 ∧
    inFlightAfter (([fanOutEvent.receive, .receive, .record 1, .receive, .record 0, .record 0]
      ++ oneByOne 3).take 5) ≤ 2 :=
  ⟨by decide, by decide, by decide, by decide,
    (((inFlight_bounded sampleUpstream (fun _ => none) 0 0 samplePool 2 (by decide)
      ([.receive, .receive, .record 1, .receive, .record 0, .record 0] ++ oneByOne 3)
      (by decide)).2 (by decide)) 5).2.1⟩

end QuotaSyncService

/-! ## Fan-out of the reconciler: pacing on the clock -/

namespace QuotaSyncService

open KeyService

/-- The starts granted to a sequence of slot requests followed by one more. -/
theorem grantedStarts_snoc (interval : Int) (nextStart : Option Int) (nows : List Int)
    (now : Int) :
    grantedStarts interval nextStart (nows ++ [now]) =
      grantedStarts interval nextStart nows ++
        [now + (waitForSlot interval (slotAfter interval nextStart nows) now).2] ∧
    slotAfter interval nextStart (nows ++ [now]) =
      (waitForSlot interval (slotAfter interval nextStart nows) now).1 := by
  induction nows generalizing nextStart with
  | nil => exact ⟨rfl, rfl⟩
  | cons x xs ih =>
    obtain ⟨h1, h2⟩ := ih (waitForSlot interval nextStart x).1
    constructor
    · show (x + (waitForSlot interval nextStart x).2) ::
        grantedStarts interval (waitForSlot interval nextStart x).1 (xs ++ [now]) = _
      rw [h1]
      rfl
    · show slotAfter interval (waitForSlot interval nextStart x).1 (xs ++ [now]) = _
      rw [h2]
      rfl

/-- The sleep `waitForSlot` hands out is never negative. -/
theorem waitForSlot_sleep_nonneg (interval : Int) (nextStart : Option Int) (now : Int) :
    0 ≤ (waitForSlot interval nextStart now).2 := by
  by_cases hI : 0 < interval
  · exact (waitForSlot_next interval nextStart now hI).2.1
  · unfold waitForSlot
    rw [if_pos (by omega)]

/-- What a `receive` of a paced call does. -/
theorem paced_step_receive (GetUsage : Nat → String → Except UpstreamError (Int × Option Int))
    (ctxErr : Nat → Option String) (interval : Int) (st st1 : pacedFanOut)
    (h : st.step GetUsage ctxErr interval (.fan .receive) = some st1) :
    st.fan.step GetUsage ctxErr interval .receive = some st1.fan ∧
    st1.clock = st.clock ∧ st1.done = st.done ∧ st1.nextStart = st.nextStart ∧
    st1.timers = st.timers ++ [none] ∧ st1.asked = st.asked ∧ st1.granted = st.granted := by
  simp only [pacedFanOut.step] at h
  split at h
  · simp at h
  · rename_i fan hfan
    simp only [Option.some.injEq] at h
    subst h
    exact ⟨hfan, rfl, rfl, rfl, rfl, rfl, rfl⟩

/-- What a slot request of a paced call does. -/
theorem paced_step_slot (GetUsage : Nat → String → Except UpstreamError (Int × Option Int))
    (ctxErr : Nat → Option String) (interval : Int) (st st1 : pacedFanOut) (w : Nat)
    (h : st.step GetUsage ctxErr interval (.slot w) = some st1) :
    st.timers[w]? = some none ∧ st1.fan = st.fan ∧
    st1.clock = st.clock ∧ st1.done = st.done ∧
    st1.nextStart = (waitForSlot interval st.nextStart st.clock).1 ∧
    st1.timers = st.timers.set w (some
      (st.clock + (waitForSlot interval st.nextStart st.clock).2,
        waitsOnTimer interval st.nextStart st.clock)) ∧
    st1.asked = st.asked ++ [st.clock] ∧
    st1.granted = st.granted ++ [st.clock + (waitForSlot interval st.nextStart st.clock).2] := by
  simp only [pacedFanOut.step] at h
  split at h
  · rename_i ht
    simp only [Option.some.injEq] at h
    subst h
    exact ⟨ht, rfl, rfl, rfl, rfl, rfl, rfl, rfl⟩
  · simp at h

/-- What a `record` of a paced call does. -/
theorem paced_step_record (GetUsage : Nat → String → Except UpstreamError (Int × Option Int))
    (ctxErr : Nat → Option String) (interval : Int) (st st1 : pacedFanOut) (w : Nat)
    (h : st.step GetUsage ctxErr interval (.fan (.record w)) = some st1) :
    st.fan.step GetUsage ctxErr interval (.record w) = some st1.fan ∧
    st1.clock = st.clock ∧ st1.done = st.done ∧ st1.nextStart = st.nextStart ∧
    st1.timers = st.timers.eraseIdx w ∧ st1.asked = st.asked ∧ st1.granted = st.granted ∧
    ∃ j timer, st.fan.inFlight[w]? = some j ∧ st.timers[w]? = some (some timer) ∧
      recordReady ctxErr interval st j timer = true := by
  simp only [pacedFanOut.step] at h
  split at h
  · rename_i j timer hj ht
    split at h
    · rename_i hready
      split at h
      · simp at h
      · rename_i fan hfan
        simp only [Option.some.injEq] at h
        subst h
        exact ⟨hfan, rfl, rfl, rfl, rfl, rfl, rfl, j, timer, hj, ht, hready⟩
    · simp at h
  · simp at h

/-- Erasing the clock from a run of a paced call leaves a run of the fan-out. -/
theorem paced_run_fan (GetUsage : Nat → String → Except UpstreamError (Int × Option Int))
    (ctxErr : Nat → Option String) (interval : Int) (sched : List pacedEvent)
    (st st' : pacedFanOut) (h : st.run GetUsage ctxErr interval sched = some st') :
    st.fan.run GetUsage ctxErr interval (fanEvents sched) = some st'.fan := by
  induction sched generalizing st with
  | nil =>
    simp only [pacedFanOut.run, Option.some.injEq] at h
    rw [← h]
    rfl
  | cons e es ih =>
    simp only [pacedFanOut.run] at h
    split at h
    · simp at h
    · rename_i st1 hstep
      have ih1 := ih st1 h
      cases e with
      | tick d =>
        simp only [pacedFanOut.step, Option.some.injEq] at hstep
        subst hstep
        exact ih1
      | cancel =>
        simp only [pacedFanOut.step, Option.some.injEq] at hstep
        subst hstep
        exact ih1
      | slot w =>
        have hfan := (paced_step_slot GetUsage ctxErr interval st st1 w hstep).2.1
        rw [← hfan]
        exact ih1
      | fan e =>
        have hfan : st.fan.step GetUsage ctxErr interval e = some st1.fan := by
          cases e with
          | receive => exact (paced_step_receive GetUsage ctxErr interval st st1 hstep).1
          | record w => exact (paced_step_record GetUsage ctxErr interval st st1 w hstep).1
        simp only [fanEvents, fanOut.run, hfan]
        exact ih1

end QuotaSyncService

namespace QuotaSyncService

open KeyService

/-- A `receive` moves one job from the jobs not yet sent to the jobs in flight. -/
theorem fan_step_receive (GetUsage : Nat → String → Except UpstreamError (Int × Option Int))
    (ctxErr : Nat → Option String) (interval : Int) (st st1 : fanOut)
    (h : st.step GetUsage ctxErr interval .receive = some st1) :
    st1.jobs.length + 1 = st.jobs.length ∧ st1.inFlight.length = st.inFlight.length + 1 := by
  simp only [fanOut.step] at h
  split at h
  · simp at h
  · rename_i j rest hjobs
    split at h
    · simp at h
    · simp only [Option.some.injEq] at h
      subst h
      simp [hjobs]

/-- A `record` takes one job out of the jobs in flight and leaves the jobs not yet sent. -/
theorem fan_step_record (GetUsage : Nat → String → Except UpstreamError (Int × Option Int))
    (ctxErr : Nat → Option String) (interval : Int) (st st1 : fanOut) (w : Nat)
    (h : st.step GetUsage ctxErr interval (.record w) = some st1) :
    st1.jobs = st.jobs ∧ st1.inFlight.length + 1 = st.inFlight.length := by
  simp only [fanOut.step] at h
  split at h
  · simp at h
  · rename_i j hj
    simp only [Option.some.injEq] at h
    obtain ⟨_, _, _, hjobs, hfl, _, _, _⟩ := worker_effect GetUsage ctxErr
      interval { st with inFlight := st.inFlight.eraseIdx w, idle := st.idle + 1 } j
    rw [h] at hjobs hfl
    have hlt : w < st.inFlight.length := (List.getElem?_eq_some_iff.mp hj).1
    refine ⟨hjobs, ?_⟩
    rw [hfl]
    simp only [List.length_eraseIdx, hlt, if_true]
    omega

/-- The invariant of a paced call holds when the workers have been started. -/
theorem paced_init_Inv (db : DB) (keyItems : List APIKey) (concurrency interval started : Int) :
    pacedFanOut.Inv interval started keyItems.length
      (pacedFanOut.init db keyItems concurrency started) where
  clock := le_refl _
  timers := rfl
  granted := rfl
  next := rfl
  asked := by simp [pacedFanOut.init]
  count := by
    simp only [pacedFanOut.init, fanOut.init, List.length_nil, List.countP_nil, Nat.zero_add]
    exact (mkJobs_spec 0 keyItems).1
  fired := by simp [pacedFanOut.init]

/-- Setting a timer that was `none` leaves one `none` less. -/
theorem countP_isNone_set {α : Type} (l : List (Option α)) (w : Nat) (t : α)
    (h : l[w]? = some none) :
    (l.set w (some t)).countP (fun t => t.isNone) + 1 = l.countP (fun t => t.isNone) := by
  induction l generalizing w with
  | nil => simp at h
  | cons x xs ih =>
    cases w with
    | zero =>
      simp only [List.getElem?_cons_zero, Option.some.injEq] at h
      subst h
      simp [List.countP_cons]
    | succ w =>
      rw [List.getElem?_cons_succ] at h
      have := ih w h
      simp only [List.set_cons_succ, List.countP_cons]
      omega

/-- Every event of a paced call in which no wait is cut short keeps the invariant. -/
theorem paced_step_Inv (GetUsage : Nat → String → Except UpstreamError (Int × Option Int))
    (ctxErr : Nat → Option String) (hctx : ∀ i, ctxErr i = none) (interval started : Int)
    (n : Nat) (st st1 : pacedFanOut) (e : pacedEvent)
    (hinv : pacedFanOut.Inv interval started n st)
    (h : st.step GetUsage ctxErr interval e = some st1) :
    pacedFanOut.Inv interval started n st1 := by
  obtain ⟨hclock, htimers, hgranted, hnext, hasked, hcount, hfired⟩ := hinv
  cases e with
  | tick d =>
    simp only [pacedFanOut.step, Option.some.injEq] at h
    subst h
    refine ⟨?_, htimers, hgranted, hnext, hasked, hcount, ?_⟩
    · simp only
      omega
    · intro g hg
      rcases hfired g hg with h1 | h1
      · left
        simp only
        omega
      · exact Or.inr h1
  | cancel =>
    simp only [pacedFanOut.step, Option.some.injEq] at h
    subst h
    exact ⟨hclock, htimers, hgranted, hnext, hasked, hcount, hfired⟩
  | slot w =>
    obtain ⟨htw, hfan, hc, _, hn, ht, ha, hg⟩ := paced_step_slot GetUsage ctxErr interval st st1 w h
    obtain ⟨s1, s2⟩ := grantedStarts_snoc interval none st.asked st.clock
    have hlt : w < st.timers.length := (List.getElem?_eq_some_iff.mp htw).1
    refine ⟨by rw [hc]; exact hclock, ?_, ?_, ?_, ?_, ?_, ?_⟩
    · rw [ht, hfan, List.length_set, htimers]
    · rw [hg, ha, s1, ← hgranted, ← hnext]
    · rw [hn, ha, s2, ← hnext]
    · intro a hmem
      rw [ha, List.mem_append, List.mem_singleton] at hmem
      rcases hmem with hmem | hmem
      · exact hasked a hmem
      · rw [hmem]
        exact hclock
    · have hcn := countP_isNone_set st.timers w
        (st.clock + (waitForSlot interval st.nextStart st.clock).2,
          waitsOnTimer interval st.nextStart st.clock) htw
      rw [ha, ht, hfan, List.length_append, List.length_singleton]
      omega
    · intro g hmem
      rw [hg, List.mem_append, List.mem_singleton] at hmem
      rw [ht, hc]
      rcases hmem with hmem | hmem
      · rcases hfired g hmem with h1 | ⟨b, h1⟩
        · exact Or.inl h1
        · right
          refine ⟨b, ?_⟩
          obtain ⟨i, hi⟩ := List.mem_iff_getElem?.mp h1
          have hne : w ≠ i := by
            intro hwi
            rw [← hwi, htw] at hi
            simp at hi
          exact List.mem_iff_getElem?.mpr ⟨i, by rw [List.getElem?_set_ne hne]; exact hi⟩
      · right
        refine ⟨waitsOnTimer interval st.nextStart st.clock, ?_⟩
        rw [hmem]
        exact List.mem_iff_getElem?.mpr ⟨w, by rw [List.getElem?_set_self hlt]⟩
  | fan e =>
    cases e with
    | receive =>
      obtain ⟨hfan, hc, _, hn, ht, ha, hg⟩ := paced_step_receive GetUsage ctxErr interval st st1 h
      obtain ⟨hj, hf⟩ := fan_step_receive GetUsage ctxErr interval st.fan st1.fan hfan
      refine ⟨by rw [hc]; exact hclock, ?_, by rw [hg, ha]; exact hgranted,
        by rw [hn, ha]; exact hnext, by rw [ha]; exact hasked, ?_, ?_⟩
      · rw [ht, hf, List.length_append, List.length_singleton, htimers]
      · rw [ha, ht, List.countP_append]
        simp only [List.countP_cons, List.countP_nil, Option.isNone_none, if_true]
        omega
      · intro g hmem
        rw [hg] at hmem
        rw [hc, ht]
        rcases hfired g hmem with h1 | ⟨b, h1⟩
        · exact Or.inl h1
        · exact Or.inr ⟨b, List.mem_append_left _ h1⟩
    | record w =>
      obtain ⟨hfan, hc, _, hn, ht, ha, hg, j, timer, hj, htm, hready⟩ :=
        paced_step_record GetUsage ctxErr interval st st1 w h
      obtain ⟨hjobs, hf⟩ := fan_step_record GetUsage ctxErr interval st.fan st1.fan w hfan
      have hlt : w < st.timers.length := (List.getElem?_eq_some_iff.mp htm).1
      have hfire : timer.1 ≤ st.clock := by
        simp only [recordReady, hctx, ite_self, decide_eq_true_eq] at hready
        exact hready
      have hperm := perm_cons_eraseIdx st.timers w (some timer) htm
      refine ⟨by rw [hc]; exact hclock, ?_, by rw [hg, ha]; exact hgranted,
        by rw [hn, ha]; exact hnext, by rw [ha]; exact hasked, ?_, ?_⟩
      · rw [ht]
        simp only [List.length_eraseIdx, hlt, if_true]
        omega
      · have hcn := hperm.countP_eq (fun t => t.isNone)
        simp only [List.countP_cons, Option.isNone_some, Bool.false_eq_true, if_false,
          Nat.add_zero] at hcn
        rw [ha, ht, hjobs, ← hcn]
        exact hcount
      · intro g hmem
        rw [hg] at hmem
        rw [hc, ht]
        rcases hfired g hmem with h1 | ⟨b, h1⟩
        · exact Or.inl h1
        · rw [hperm.mem_iff, List.mem_cons] at h1
          rcases h1 with h1 | h1
          · left
            simp only [Option.some.injEq] at h1
            rw [← h1] at hfire
            exact hfire
          · exact Or.inr ⟨b, h1⟩

/-- Every run of a paced call in which no wait is cut short keeps the invariant. -/
theorem paced_run_Inv (GetUsage : Nat → String → Except UpstreamError (Int × Option Int))
    (ctxErr : Nat → Option String) (hctx : ∀ i, ctxErr i = none) (interval started : Int)
    (n : Nat) (sched : List pacedEvent) (st st' : pacedFanOut)
    (hinv : pacedFanOut.Inv interval started n st)
    (h : st.run GetUsage ctxErr interval sched = some st') :
    pacedFanOut.Inv interval started n st' := by
  induction sched generalizing st with
  | nil =>
    simp only [pacedFanOut.run, Option.some.injEq] at h
    rw [← h]
    exact hinv
  | cons e es ih =>
    simp only [pacedFanOut.run] at h
    split at h
    · simp at h
    · rename_i st1 hstep
      exact ih st1 (paced_step_Inv GetUsage ctxErr hctx interval started n st st1 e hinv hstep) h

end QuotaSyncService

namespace QuotaSyncService

open KeyService

/-- With pacing on, the first slot request is granted its own clock reading. -/
theorem grantedStarts_head (interval : Int) (hI : 0 < interval) (nows : List Int) :
    (grantedStarts interval none nows).head? = nows.head? := by
  cases nows with
  | nil => rfl
  | cons now rest =>
    have h0 := (waitForSlot_next interval none now hI).2.2.1 rfl
    simp [grantedStarts, h0]

/-- Every granted start is at or after the clock reading of its slot request. -/
theorem grantedStarts_ge (interval : Int) (nextStart : Option Int) (nows : List Int)
    (lo : Int) (h : ∀ a ∈ nows, lo ≤ a) :
    ∀ g ∈ grantedStarts interval nextStart nows, lo ≤ g := by
  induction nows generalizing nextStart with
  | nil => simp [grantedStarts]
  | cons now rest ih =>
    intro g hg
    simp only [grantedStarts, List.mem_cons] at hg
    rcases hg with hg | hg
    · have h1 := waitForSlot_sleep_nonneg interval nextStart now
      have h2 := h now (List.mem_cons_self _ _)
      omega
    · exact ih _ (fun a ha => h a (List.mem_cons_of_mem _ ha)) g hg

/-- A fan-out with no job left and none in flight admits no event. -/
theorem run_idle (GetUsage : Nat → String → Except UpstreamError (Int × Option Int))
    (ctxErr : Nat → Option String) (interval : Int) (sched : List fanOutEvent)
    (st st' : fanOut) (hj : st.jobs = []) (hf : st.inFlight = [])
    (h : st.run GetUsage ctxErr interval sched = some st') : st' = st := by
  cases sched with
  | nil =>
    simp only [fanOut.run, Option.some.injEq] at h
    exact h.symm
  | cons e es =>
    cases e with
    | receive => simp [fanOut.run, fanOut.step, hj] at h
    | record w => simp [fanOut.run, fanOut.step, hf] at h

/-- The state in which a paced call returns when no wait is cut short by the context: a
slot request has been made for every key, the granted starts are those `waitForSlot` gives
for their clock readings, each of them lies between the beginning of the call and its end,
and with pacing on the call has taken at least `(n - 1)` intervals. -/
theorem paced_final_spec (GetUsage : Nat → String → Except UpstreamError (Int × Option Int))
    (ctxErr : Nat → Option String) (hctx : ∀ i, ctxErr i = none) (sched : List pacedEvent)
    (started : Int) (db : DB) (c interval : Int) (st : pacedFanOut)
    (h : pacedFinal GetUsage ctxErr sched started db c interval = some st) :
    st.asked.length = (ListKeys db).length ∧
    st.granted = grantedStarts (clampInterval interval) none st.asked ∧
    (∀ g ∈ st.granted, started ≤ g ∧ g ≤ st.clock) ∧
    started ≤ st.clock ∧
    (0 < clampInterval interval →
      (((ListKeys db).length : Int) - 1) * clampInterval interval ≤ st.clock - started) := by
  unfold pacedFinal at h
  simp only at h
  by_cases hn : (ListKeys db).length = 0
  · rw [if_pos hn] at h
    have hinv := paced_run_Inv GetUsage ctxErr hctx 0 started (ListKeys db).length sched _ st
      (paced_init_Inv db (ListKeys db) 0 0 started) h
    have hlen : st.asked.length = 0 := by
      have := hinv.count
      omega
    have hnil : st.asked = [] := List.length_eq_zero.mp hlen
    have hg : st.granted = [] := by
      rw [hinv.granted, hnil]
      rfl
    refine ⟨by rw [hlen, hn], by rw [hg, hnil]; rfl, by simp [hg], hinv.clock, ?_⟩
    intro hI
    have := hinv.clock
    rw [hn]
    simp only [Nat.cast_zero, zero_sub, neg_mul, one_mul]
    omega
  · rw [if_neg hn] at h
    split at h
    · simp at h
    · rename_i st' hrun
      split at h
      · rename_i hdone
        simp only [Option.some.injEq] at h
        subst h
        have hinv := paced_run_Inv GetUsage ctxErr hctx (clampInterval interval) started
          (ListKeys db).length sched _ st'
          (paced_init_Inv db (ListKeys db) _ (clampInterval interval) started) hrun
        have htimers : st'.timers = [] := by
          apply List.length_eq_zero.mp
          rw [hinv.timers, hdone.2]
          rfl
        have hlen : st'.asked.length = (ListKeys db).length := by
          have := hinv.count
          rw [hdone.1, htimers] at this
          simpa using this
        have hfired : ∀ g ∈ st'.granted, g ≤ st'.clock := by
          intro g hg
          rcases hinv.fired g hg with h1 | ⟨b, h1⟩
          · exact h1
          · rw [htimers] at h1
            simp at h1
        have hlo : ∀ g ∈ st'.granted, started ≤ g := by
          rw [hinv.granted]
          exact grantedStarts_ge _ _ _ _ hinv.asked
        refine ⟨hlen, hinv.granted, fun g hg => ⟨hlo g hg, hfired g hg⟩, hinv.clock, ?_⟩
        intro hI
        have hglen : st'.granted.length = (ListKeys db).length := by
          rw [hinv.granted, grantedStarts_length, hlen]
        have hchain : st'.granted.Chain' (fun a b => a + clampInterval interval ≤ b) := by
          rw [hinv.granted]
          exact (grantedStarts_chain _ hI none _).1
        have hpos : 0 < st'.granted.length := by omega
        have hlt : st'.granted.length - 1 < st'.granted.length := by omega
        obtain ⟨first, h0⟩ : ∃ first, st'.granted[0]? = some first :=
          ⟨st'.granted[0], List.getElem?_eq_getElem hpos⟩
        obtain ⟨last, hk⟩ : ∃ last, st'.granted[st'.granted.length - 1]? = some last :=
          ⟨st'.granted[st'.granted.length - 1], List.getElem?_eq_getElem hlt⟩
        have hsp := chain_spacing _ _ hchain (st'.granted.length - 1) _ _ h0 hk
        have hfirst := hlo first (List.mem_iff_getElem?.mpr ⟨_, h0⟩)
        have hlast := hfired last (List.mem_iff_getElem?.mpr ⟨_, hk⟩)
        have hcast : ((st'.granted.length - 1 : Nat) : Int) =
            ((ListKeys db).length : Int) - 1 := by
          rw [← hglen]
          omega
        have hprod : ((st'.granted.length - 1 : Nat) : Int) * clampInterval interval =
            (((ListKeys db).length : Int) - 1) * clampInterval interval := by rw [hcast]
        linarith
      · simp at h

end QuotaSyncService

namespace QuotaSyncService

open KeyService

/-- A paced call that returns is a call of `SyncAllWithConcurrencyAndInterval` under the
events of the fan-out in its schedule, read with the same two clock readings. -/
theorem onClock_refines (GetUsage : Nat → String → Except UpstreamError (Int × Option Int))
    (ctxErr : Nat → Option String) (sched : List pacedEvent) (started : Int) (db : DB)
    (c interval : Int) (db' : DB) (res : QuotaSyncResult)
    (h : SyncAllWithConcurrencyAndInterval.onClock GetUsage ctxErr sched started db c interval =
      some (db', res)) :
    res.StartedAt = started ∧
    (∃ st, pacedFinal GetUsage ctxErr sched started db c interval = some st ∧
      st.clock = res.EndedAt) ∧
    SyncAllWithConcurrencyAndInterval GetUsage ctxErr (fanEvents sched) started res.EndedAt db c
      interval = some (db', res) := by
  unfold SyncAllWithConcurrencyAndInterval.onClock at h
  cases hf : pacedFinal GetUsage ctxErr sched started db c interval with
  | none =>
    rw [hf] at h
    simp at h
  | some st =>
    rw [hf] at h
    simp only [Option.map_some', Option.some.injEq, Prod.mk.injEq] at h
    obtain ⟨hdb, hres⟩ := h
    subst hdb hres
    refine ⟨rfl, ⟨st, rfl, rfl⟩, ?_⟩
    unfold pacedFinal at hf
    simp only at hf
    unfold SyncAllWithConcurrencyAndInterval
    simp only
    by_cases hn : (ListKeys db).length = 0
    · rw [if_pos hn] at hf
      rw [if_pos hn]
      have hfan := paced_run_fan GetUsage ctxErr 0 sched _ st hf
      have hnil : ListKeys db = [] := List.length_eq_zero.mp hn
      have hst := run_idle GetUsage ctxErr 0 _ _ st.fan (by simp [pacedFanOut.init, fanOut.init, hnil, mkJobs])
        (by simp [pacedFanOut.init, fanOut.init]) hfan
      rw [hst]
      simp [pacedFanOut.init, fanOut.init, hnil]
    · rw [if_neg hn] at hf
      rw [if_neg hn]
      split at hf
      · simp at hf
      · rename_i st' hrun
        split at hf
        · rename_i hdone
          simp only [Option.some.injEq] at hf
          subst hf
          have hfan := paced_run_fan GetUsage ctxErr _ sched _ st' hrun
          simp only [pacedFanOut.init] at hfan
          rw [hfan]
          simp only [hdone, and_self, if_true]
        · simp at hf

/-- C13 (as amended): `SyncAllWithConcurrencyAndInterval` called with an interval `I > 0`
paces with `I' = min(I, 60 s)`.  For every sequence of `K` slot requests taken one after
the other under the pacing mutex, whatever the clock reads: each request is granted a
start, the first is granted its own clock reading (no wait), consecutive granted starts
satisfy `g(k+1) ≥ g(k) + I'`, so `g(k) ≥ g(0) + k * I'`.  And for every paced call over `K`
keys that returns and in which no wait is cut short by the cancelled context: one slot
request is made per key, the starts granted are those of `waitForSlot` for the clock
readings of the requests, every one of them lies between `StartedAt` and `EndedAt`, and
`EndedAt - StartedAt ≥ (K - 1) * I'`; without the clock the call is the call of
`SyncAllWithConcurrencyAndInterval` under the same fan-out events. -/
theorem pacing_spacing (requested : Int) (nows : List Int) (hI : 0 < requested) :
    clampInterval requested = min requested maxQuotaSyncInterval ∧
    (grantedStarts (clampInterval requested) none nows).length = nows.length ∧
    (grantedStarts (clampInterval requested) none nows).head? = nows.head? ∧
    (grantedStarts (clampInterval requested) none nows).Chain'
      (fun a b => a + clampInterval requested ≤ b) ∧
    (∀ (k : Nat) (first gk : Int),
      (grantedStarts (clampInterval requested) none nows)[0]? = some first →
      (grantedStarts (clampInterval requested) none nows)[k]? = some gk →
      first + k * clampInterval requested ≤ gk) ∧
    (∀ (GetUsage : Nat → String → Except UpstreamError (Int × Option Int))
      (ctxErr : Nat → Option String) (sched : List pacedEvent) (started : Int) (db : DB)
      (c : Int) (db' : DB) (res : QuotaSyncResult), (∀ i, ctxErr i = none) →
      SyncAllWithConcurrencyAndInterval.onClock GetUsage ctxErr sched started db c requested =
        some (db', res) →
      res.StartedAt = started ∧
      (((ListKeys db).length : Int) - 1) * clampInterval requested ≤
        res.EndedAt - res.StartedAt ∧
      SyncAllWithConcurrencyAndInterval GetUsage ctxErr (fanEvents sched) started res.EndedAt
        db c requested = some (db', res) ∧
      ∃ st, pacedFinal GetUsage ctxErr sched started db c requested = some st ∧
        st.clock = res.EndedAt ∧ st.asked.length = (ListKeys db).length ∧
        st.granted = grantedStarts (clampInterval requested) none st.asked ∧
        ∀ g ∈ st.granted, res.StartedAt ≤ g ∧ g ≤ res.EndedAt) := by
  have hclamp : clampInterval requested = min requested maxQuotaSyncInterval := by
    unfold clampInterval maxQuotaSyncInterval
    have h0 : ¬ requested < 0 := by omega
    simp only [h0, if_false]
    by_cases h1 : requested > 60 * 1000000000
    · rw [if_pos h1, min_eq_right (by omega)]
    · rw [if_neg h1, min_eq_left (by omega)]
  have hpos : 0 < clampInterval requested := by
    rw [hclamp]
    simp only [maxQuotaSyncInterval]
    omega
  have hchain := (grantedStarts_chain (clampInterval requested) hpos none nows).1
  refine ⟨hclamp, grantedStarts_length _ _ _, grantedStarts_head _ hpos nows, hchain, ?_, ?_⟩
  · intro k first gk h0 hk
    exact chain_spacing _ _ hchain k first gk h0 hk
  · intro GetUsage ctxErr sched started db c db' res hctx h
    obtain ⟨hs, ⟨st, hst, hclock⟩, href⟩ :=
      onClock_refines GetUsage ctxErr sched started db c requested db' res h
    obtain ⟨h1, h2, h3, _, h5⟩ :=
      paced_final_spec GetUsage ctxErr hctx sched started db c requested st hst
    refine ⟨hs, ?_, href, st, hst, hclock, h1, h2, ?_⟩
    · rw [hs, ← hclock]
      exact h5 hpos
    · intro g hg
      rw [hs, ← hclock]
      exact h3 g hg

/-- C13 at concrete runs.  Six slot requests at clock reading 0 with an interval of 50 ms
are granted the starts 0, 50, ..., 250 ms.  A paced call over two keys with an interval of
50 ms, in which the second result is recorded when its timer fires after 50 ms, returns
with `EndedAt - StartedAt = 50 ms`, whichever worker takes the pacing mutex first; the
second result cannot be recorded before. -/
theorem pacing_spacing_witness :
    (0 : Int) < 50000000 ∧
    grantedStarts (clampInterval 50000000) none [0, 0, 0, 0, 0, 0] =
      [0, 50000000, 100000000, 150000000, 200000000, 250000000] ∧
    (SyncAllWithConcurrencyAndInterval.onClock sampleUpstream (fun _ => none)
      [.fan .receive, .slot 0, .fan .receive, .slot 1, .fan (.record 0), .tick 50000000,
        .fan (.record 0)]
      7 twoKeys 2 50000000).map (fun r => (r.2.StartedAt, r.2.EndedAt)) =
      some (7, 50000007) ∧
    SyncAllWithConcurrencyAndInterval.onClock sampleUpstream (fun _ => none)
      [.fan .receive, .slot 0, .fan .receive, .slot 1, .fan (.record 0), .tick 49999999,
        .fan (.record 0)]
      7 twoKeys 2 50000000 = none ∧
    (SyncAllWithConcurrencyAndInterval.onClock sampleUpstream (fun _ => none)
      [.fan .receive, .fan .receive, .slot 1, .tick 3, .slot 0, .fan (.record 1),
        .tick 49999997, .fan (.record 0)]
      7 twoKeys 2 50000000).map (fun r => (r.2.StartedAt, r.2.EndedAt)) =
      some (7, 50000007) ∧
    ∀ db' res, SyncAllWithConcurrencyAndInterval.onClock sampleUpstream (fun _ => none)
      [.fan .receive, .slot 0, .fan .receive, .slot 1, .fan (.record 0), .tick 50000000,
        .fan (.record 0)]
      7 twoKeys 2 50000000 = some (db', res) →
      (((ListKeys twoKeys).length : Int) - 1) * clampInterval 50000000 ≤
        res.EndedAt - res.StartedAt :=
  ⟨by decide, by decide, by decide, by decide, by decide, fun db' res h =>
    ((pacing_spacing 50000000 [0, 0, 0, 0, 0, 0] (by decide)).2.2.2.2.2 sampleUpstream (fun _ => none) _ 7
      twoKeys 2 db' res (fun _ => rfl) h).2.1⟩

/-- C13 as stated fails in two ways.  Above 60 s: called with an interval of 120 s the
pacing runs at 60 s, so the second of two slot requests made at clock reading 0 is granted
the start 60 s, before `g(0) + 120 s`, and a paced call over two keys returns after 60 s.
Under cancellation: with an interval of 1 s and the context cancelled while the second
worker waits, the call over two keys returns at once, before `(K - 1) * I = 1 s`. -/
theorem pacing_clamped_to_sixty_seconds :
    grantedStarts (clampInterval 120000000000) none [0, 0] = [0, 60000000000] ∧
    ¬ ((0 : Int) + 120000000000 ≤ 60000000000) ∧
    (SyncAllWithConcurrencyAndInterval.onClock sampleUpstream (fun _ => none)
      [.fan .receive, .slot 0, .fan .receive, .slot 1, .fan (.record 0), .tick 60000000000,
        .fan (.record 0)]
      0 twoKeys 2 120000000000).map (fun r => r.2.EndedAt - r.2.StartedAt) =
      some 60000000000 ∧
    (SyncAllWithConcurrencyAndInterval.onClock sampleUpstream
      (fun i => if i = 1 then some "context canceled" else none)
      [.fan .receive, .slot 0, .fan .receive, .slot 1, .cancel, .fan (.record 0),
        .fan (.record 0)]
      0 twoKeys 2 1000000000).map (fun r => (r.2.EndedAt - r.2.StartedAt, r.2.Failed)) =
      some (0, 2) ∧
    ¬ ((((ListKeys twoKeys).length : Int) - 1) * 1000000000 ≤ 0) := by
  refine ⟨by decide, by decide, by decide, by decide, by decide⟩

end QuotaSyncService

end TavilyProxy
